import Mathlib

/-!
# RSFS: a shallow embedding of `RSFS/api.c`

The file system keeps all of its state in global arrays: the data blocks and
their bitmap, the inodes and their bitmap, the open file table and the root
directory (a linked list of heap nodes).  The embedding passes that state
explicitly as a `State` record.

* C `int` values are `Int`; `/` and `%` on them are `Int.tdiv` and `Int.tmod`
  (C truncates towards zero).  An `int` has 32 bits.  The sums whose operands
  the sizes of the arrays do not bound, the two additions of `RSFS_fseek` and
  `inode->length += bytes_written` of `RSFS_write`, are taken with `int_add`,
  which wraps around as the compiled program does (ISO C leaves a sum outside
  the range of `int` undefined).  Every other sum is taken exactly: in a call
  with a defined result it is bounded by the sizes of the arrays or by the
  size of the request.
* A `struct dir_entry *` is the address of a heap node (`Nat`), `NULL` is
  `none`.  A pointer to a node that has been removed from the directory does
  not resolve any more.
* The functions that access memory return an `Option`.  The value `none`
  means that the C execution has no defined result: an array is indexed
  outside its bounds, a `NULL` or dangling pointer is dereferenced, or
  `memcpy` leaves a buffer.  The two `while` loops carry a fuel argument;
  `read_loop_fuel` and `write_loop_fuel` show that fuel beyond what
  `RSFS_read` and `RSFS_write` hand over changes no result.
* `def.h` and the helper files (`dir.c`, `inode.c`, `data_block.c`,
  `open_file_table.c`) are not part of the sources at hand.  The constants are
  the fields of `Params`; the helpers are modelled from the specification.
* The mutexes are not modelled: every operation is one atomic step.
-/

namespace RSFS

/-- One byte of a data block or of a caller's buffer. -/
abbrev Byte := Fin 256

/-- The constants of `def.h`. -/
structure Params where
  NUM_DBLOCKS : Nat
  BLOCK_SIZE : Nat
  NUM_INODES : Nat
  NUM_POINTER : Nat
  NUM_OPEN_FILE : Nat
  RSFS_RDONLY : Int
  RSFS_RDWR : Int
  RSFS_SEEK_SET : Int
  RSFS_SEEK_CUR : Int
  RSFS_SEEK_END : Int
deriving DecidableEq

/-- What the code needs of the constants to compile and run: a block has at
least one byte, the two access flags differ, and the three `whence` values
(the `case` labels of one `switch`) are distinct. -/
def Params.Valid (P : Params) : Prop :=
  0 < P.BLOCK_SIZE ∧ P.RSFS_RDONLY ≠ P.RSFS_RDWR ∧
  P.RSFS_SEEK_SET ≠ P.RSFS_SEEK_CUR ∧ P.RSFS_SEEK_SET ≠ P.RSFS_SEEK_END ∧
  P.RSFS_SEEK_CUR ≠ P.RSFS_SEEK_END

instance (P : Params) : Decidable P.Valid := by
  unfold Params.Valid; infer_instance

/-- The record `struct inode`: the file length and the block pointers
(`-1` marks a pointer that is not used). -/
structure inode where
  length : Int
  block : List Int
deriving DecidableEq

/-- The record `struct dir_entry`, one node of the root directory list.
The field `addr` is the address of the node. -/
structure dir_entry where
  addr : Nat
  name : String
  inode_number : Int
deriving DecidableEq

/-- The record `struct open_file_entry`. -/
structure open_file_entry where
  used : Int
  dir_entry : Option Nat
  position : Int
  access_flag : Int
deriving DecidableEq

/-- The global variables of the file system.  The field `next_addr` is the
address the next directory node will be allocated at. -/
structure State where
  data_blocks : List (List Byte)
  data_bitmap : List Int
  inode_bitmap : List Int
  inodes : List inode
  open_file_table : List open_file_entry
  root_dir : List dir_entry
  next_addr : Nat
deriving DecidableEq

/-- Read `a[i]` for a C `int` index; `none` outside the array. -/
def idx {α : Type} (a : List α) (i : Int) : Option α :=
  if 0 ≤ i then a[i.toNat]? else none

/-- Assign `a[i] = v` for a C `int` index; `none` outside the array. -/
def upd {α : Type} (a : List α) (i : Int) (v : α) : Option (List α) :=
  if 0 ≤ i ∧ i.toNat < a.length then some (a.set i.toNat v) else none

/-- The call `memcpy(dst + doff, src + soff, n)` for two buffers given by
their contents: `none` when the copy leaves either buffer. -/
def memcpy (dst : List Byte) (doff : Int) (src : List Byte) (soff : Int) (n : Int) :
    Option (List Byte) :=
  if 0 ≤ doff ∧ 0 ≤ soff ∧ 0 ≤ n ∧ doff + n ≤ dst.length ∧ soff + n ≤ src.length then
    some (dst.take doff.toNat ++ ((src.drop soff.toNat).take n.toNat
      ++ dst.drop (doff.toNat + n.toNat)))
  else none

/-- Dereference a `struct dir_entry *`. -/
def deref (s : State) (p : Option Nat) : Option dir_entry :=
  match p with
  | none => none
  | some a => s.root_dir.find? (fun e => e.addr == a)

/-- The assignment `p->inode_number = v` through a `struct dir_entry *`. -/
def set_inode_number (s : State) (p : Option Nat) (v : Int) : Option State :=
  match deref s p with
  | none => none
  | some _ =>
    let dir1 := s.root_dir.map
      (fun e => if some e.addr = p then { e with inode_number := v } else e)
    some { s with root_dir := dir1 }

/-- The index of the first entry of a bitmap that is `0`. -/
def find_free : List Int → Option Nat
  | [] => none
  | b :: bs => if b = 0 then some 0 else (find_free bs).map (fun i => i + 1)

/-- The index of the first open file entry that is not used. -/
def find_unused : List open_file_entry → Option Nat
  | [] => none
  | e :: es => if e.used = 0 then some 0 else (find_unused es).map (fun i => i + 1)

/-- Remove the first directory node with the given name. -/
def remove_name (file_name : String) : List dir_entry → List dir_entry
  | [] => []
  | e :: es => if e.name = file_name then es else e :: remove_name file_name es

/-- Modelled from the spec: `search_dir` of `dir.c`, which is not under
src/.  Spec 4.3: `search(name) -> DirEntry ref | NotFound`. -/
def search_dir (s : State) (file_name : String) : Option dir_entry :=
  s.root_dir.find? (fun e => e.name == file_name)

/-- Modelled from the spec: `insert_dir` of `dir.c`, which is not under
src/.  Spec 4.3: `insert(name) -> new DirEntry ref`, failing when the name is
already present; entries keep their insertion order.  The new node is not
bound to an inode yet (`-1`). -/
def insert_dir (s : State) (file_name : String) : Option Nat × State :=
  match search_dir s file_name with
  | some _ => (none, s)
  | none =>
    let e : dir_entry := { addr := s.next_addr, name := file_name, inode_number := -1 }
    (some s.next_addr, { s with root_dir := s.root_dir ++ [e], next_addr := s.next_addr + 1 })

/-- Modelled from the spec: `delete_dir` of `dir.c`, which is not under
src/.  Spec 4.3: `delete(name)` removes and deallocates the entry. -/
def delete_dir (s : State) (file_name : String) : State :=
  { s with root_dir := remove_name file_name s.root_dir }

/-- Modelled from the spec: `allocate_inode` of `inode.c`, which is not
under src/.  Spec 4.2 and 4.1: scan the bitmap for a free slot, mark it used
and return its index; signal exhaustion (`-1`) when there is none. -/
def allocate_inode (s : State) : Int × State :=
  match find_free s.inode_bitmap with
  | none => (-1, s)
  | some i => ((i : Int), { s with inode_bitmap := s.inode_bitmap.set i 1 })

/-- Modelled from the spec: `free_inode` of `inode.c`, which is not under
src/.  Spec 4.2: reset the length to 0 and all block slots to unused, do not
free the data blocks; clear the bitmap entry. -/
def free_inode (P : Params) (s : State) (inode_number : Int) : Option State :=
  match upd s.inodes inode_number { length := 0, block := List.replicate P.NUM_POINTER (-1) },
        upd s.inode_bitmap inode_number 0 with
  | some inodes1, some bitmap1 => some { s with inodes := inodes1, inode_bitmap := bitmap1 }
  | _, _ => none

/-- Modelled from the spec: `allocate_data_block` of `data_block.c`, which
is not under src/.  Spec 4.1: scan the bitmap for a free slot, mark it used
and return its index; signal exhaustion (`-1`) when there is none. -/
def allocate_data_block (s : State) : Int × State :=
  match find_free s.data_bitmap with
  | none => (-1, s)
  | some i => ((i : Int), { s with data_bitmap := s.data_bitmap.set i 1 })

/-- Modelled from the spec: `free_data_block` of `data_block.c`, which is
not under src/.  Spec 4.1: clear the bitmap entry, leave the buffer as it
is. -/
def free_data_block (s : State) (block_num : Int) : Option State :=
  match upd s.data_bitmap block_num 0 with
  | some bitmap1 => some { s with data_bitmap := bitmap1 }
  | none => none

/-- Modelled from the spec: `allocate_open_file_entry` of
`open_file_table.c`, which is not under src/.  Spec 4.4: take the first
unused slot, mark it used, attach the directory entry, set the access flag
and reset the cursor to 0; signal exhaustion (`-1`) when there is none. -/
def allocate_open_file_entry (s : State) (access_flag : Int) (de : Nat) : Int × State :=
  match find_unused s.open_file_table with
  | none => (-1, s)
  | some i =>
    let e : open_file_entry :=
      { used := 1, dir_entry := some de, position := 0, access_flag := access_flag }
    ((i : Int), { s with open_file_table := s.open_file_table.set i e })

/-- Modelled from the spec: `free_open_file_entry` of `open_file_table.c`,
which is not under src/.  Spec 3 and 4.4: the slot becomes unused, its cursor
is reset and its reference is cleared. -/
def free_open_file_entry (s : State) (fd : Int) : Option State :=
  match idx s.open_file_table fd with
  | none => none
  | some e =>
    match upd s.open_file_table fd { e with used := 0, dir_entry := none, position := 0 } with
    | some table1 => some { s with open_file_table := table1 }
    | none => none

/-- The helper `min` of `api.c`. -/
def min (x y : Int) : Int := if x < y then x else y

/-- The least value of a C `int` of 32 bits. -/
def INT_MIN : Int := -2147483648

/-- The greatest value of a C `int` of 32 bits. -/
def INT_MAX : Int := 2147483647

/-- The sum `a + b` of two C `int` values, as the compiled program computes
it: the exact sum when it lies between `INT_MIN` and `INT_MAX`, and that sum
reduced modulo `2 ^ 32` into this range otherwise. -/
def int_add (a b : Int) : Int := (a + b + 2147483648) % 4294967296 - 2147483648

/-- The function `RSFS_init`.  The argument `fresh` lists the buffers that
`malloc` hands out (with their indeterminate contents); when `malloc` fails
before `NUM_DBLOCKS` buffers are there, the call returns `-1` with the buffers
obtained so far stored.  The loop over the open file table assigns to a local
copy `entry` of each slot, so the table itself keeps its contents. -/
def RSFS_init (P : Params) (s : State) (fresh : List (List Byte)) : Int × State :=
  if fresh.length < P.NUM_DBLOCKS then
    (-1, { s with data_blocks := fresh ++ s.data_blocks.drop fresh.length })
  else
    (0, { data_blocks := fresh.take P.NUM_DBLOCKS
          data_bitmap := List.replicate P.NUM_DBLOCKS 0
          inode_bitmap := List.replicate P.NUM_INODES 0
          inodes := List.replicate P.NUM_INODES
            { length := 0, block := List.replicate P.NUM_POINTER (-1) }
          open_file_table := s.open_file_table
          root_dir := []
          next_addr := s.next_addr })

/-- The function `RSFS_create`.  The name is a non-`NULL` string. -/
def RSFS_create (s : State) (file_name : String) : Option (Int × State) :=
  match search_dir s file_name with
  | some _ => some (-1, s)
  | none =>
    match insert_dir s file_name with
    | (de, s1) =>
      match allocate_inode s1 with
      | (inode_number, s2) =>
        if inode_number < 0 then some (-2, s2)
        else
          match set_inode_number s2 de inode_number with
          | none => none
          | some s3 => some (0, s3)

/-- The scan of `RSFS_open` over the open file table, from slot `i` on for
`k` slots: the value of `tmp_fd` after the loop. -/
def open_scan (s : State) (inode_number : Int) : Nat → Nat → Option Int
  | 0, _ => some (-1)
  | k + 1, i =>
    match s.open_file_table[i]? with
    | none => none
    | some entry =>
      if entry.used ≠ 0 then
        match deref s entry.dir_entry with
        | none => none
        | some de =>
          if de.inode_number = inode_number then some (i : Int)
          else open_scan s inode_number k (i + 1)
      else open_scan s inode_number k (i + 1)

/-- The function `RSFS_open`; the name `none` is the `NULL` pointer. -/
def RSFS_open (P : Params) (s : State) (file_name : Option String) (access_flag : Int) :
    Option (Int × State) :=
  match file_name with
  | none => some (-1, s)
  | some name =>
    if access_flag ≠ P.RSFS_RDONLY ∧ access_flag ≠ P.RSFS_RDWR then some (-1, s)
    else
      match search_dir s name with
      | none => some (-1, s)
      | some de =>
        if access_flag = P.RSFS_RDWR then
          match open_scan s de.inode_number P.NUM_OPEN_FILE 0 with
          | none => none
          | some tmp_fd =>
            if tmp_fd ≠ -1 then some (-1, s)
            else some (allocate_open_file_entry s access_flag de.addr)
        else some (allocate_open_file_entry s access_flag de.addr)

/-- The `while` loop of `RSFS_read` on the inode `ino` and the global array
`data_blocks`: the arguments are the loop variables (`bytes_read` is also the
distance `buf` has moved), the result is the final cursor, the final
`bytes_read` and the caller's buffer. -/
def read_loop (P : Params) (data_blocks : List (List Byte)) (ino : inode) :
    Nat → Int → Int → Int → Int → Int → List Byte → Option (Int × Int × List Byte)
  | 0, _, _, _, _, _, _ => none
  | fuel + 1, position, bytes, block_num, offset, bytes_read, buf =>
    if bytes > 0 ∧ block_num < P.NUM_POINTER then
      match idx ino.block block_num with
      | none => none
      | some new_block_num =>
        if new_block_num = -1 then some (position, bytes_read, buf)
        else
          let bytes_to_read := min (P.BLOCK_SIZE - offset) bytes
          match idx data_blocks new_block_num with
          | none => none
          | some blk =>
            match memcpy buf bytes_read blk offset bytes_to_read with
            | none => none
            | some buf1 =>
              let position1 := position + bytes_to_read
              let offset1 := Int.tmod position1 P.BLOCK_SIZE
              read_loop P data_blocks ino fuel position1 (bytes - bytes_to_read)
                (if offset1 = 0 then block_num + 1 else block_num) offset1
                (bytes_read + bytes_to_read) buf1
    else some (position, bytes_read, buf)

/-- The function `RSFS_read`: the result is the returned `int`, the caller's
buffer after the call, and the new state. -/
def RSFS_read (P : Params) (s : State) (fd : Int) (buf : List Byte) (size : Int) :
    Option (Int × List Byte × State) :=
  if fd < 0 ∨ fd ≥ P.NUM_OPEN_FILE then some (-1, buf, s)
  else if size ≤ 0 then some (-1, buf, s)
  else
    match idx s.open_file_table fd with
    | none => none
    | some entry =>
      match deref s entry.dir_entry with
      | none => none
      | some de =>
        match idx s.inodes de.inode_number with
        | none => none
        | some ino =>
          match read_loop P s.data_blocks ino (size.toNat + 1) entry.position size
              (Int.tdiv entry.position P.BLOCK_SIZE) (Int.tmod entry.position P.BLOCK_SIZE)
              0 buf with
          | none => none
          | some (position1, _, buf1) =>
            match upd s.open_file_table fd { entry with position := position1 } with
            | none => none
            | some table1 => some (ino.length, buf1, { s with open_file_table := table1 })

/-- How one pass through the body of the `while` loop of `RSFS_write` ends:
with a `return` inside the loop, or at the next test of the loop condition
with new values of `bytes_written` and `bytes_left`. -/
inductive write_step where
  | returned (ret : Int) (s : State)
  | continued (s : State) (bytes_written bytes_left : Int)
deriving DecidableEq

/-- The second half of the loop body of `RSFS_write`: look up the block,
copy the chunk and move the cursor. -/
def write_copy (P : Params) (fd inode_number : Int) (buf : List Byte) (s : State)
    (block_num offset bytes_written bytes_left : Int) : Option write_step :=
  match idx s.open_file_table fd, idx s.inodes inode_number with
  | some entry, some ino =>
    match idx ino.block block_num with
    | none => none
    | some block_id =>
      if block_id ≥ P.NUM_DBLOCKS ∨ block_id = -1 then some (write_step.returned (-1) s)
      else
        let bytes_to_write := min (P.BLOCK_SIZE - offset) bytes_left
        match idx s.data_blocks block_id with
        | none => none
        | some blk =>
          match memcpy blk offset buf bytes_written bytes_to_write with
          | none => none
          | some blk1 =>
            match upd s.data_blocks block_id blk1,
                  upd s.open_file_table fd
                    { entry with position := entry.position + bytes_to_write } with
            | some data1, some table1 =>
              some (write_step.continued
                { s with data_blocks := data1, open_file_table := table1 }
                (bytes_written + bytes_to_write) (bytes_left - bytes_to_write))
            | _, _ => none
  | _, _ => none

/-- The loop body of `RSFS_write`: allocate and bind a new block when the
condition of the source holds, then copy. -/
def write_body (P : Params) (fd inode_number : Int) (buf : List Byte) (s : State)
    (bytes_written bytes_left : Int) : Option write_step :=
  match idx s.open_file_table fd, idx s.inodes inode_number with
  | some entry, some ino =>
    let block_num := Int.tdiv entry.position P.BLOCK_SIZE
    let offset := Int.tmod entry.position P.BLOCK_SIZE
    if entry.position > ino.length ∨ (block_num = 0 ∧ offset = 0) then
      match allocate_data_block s with
      | (new_block_num, s1) =>
        if new_block_num = -1 then some (write_step.returned (-1) s1)
        else
          match upd ino.block block_num new_block_num with
          | none => none
          | some block1 =>
            match upd s1.inodes inode_number { ino with block := block1 } with
            | none => none
            | some inodes1 =>
              write_copy P fd inode_number buf { s1 with inodes := inodes1 }
                block_num offset bytes_written bytes_left
    else write_copy P fd inode_number buf s block_num offset bytes_written bytes_left
  | _, _ => none

/-- The `while` loop of `RSFS_write` together with the two statements that
follow it (`inode->length += bytes_written; return bytes_written`). -/
def write_loop (P : Params) (fd inode_number : Int) (buf : List Byte) :
    Nat → State → Int → Int → Option (Int × State)
  | 0, _, _, _ => none
  | fuel + 1, s, bytes_written, bytes_left =>
    if bytes_left > 0 then
      match write_body P fd inode_number buf s bytes_written bytes_left with
      | none => none
      | some (write_step.returned ret s1) => some (ret, s1)
      | some (write_step.continued s1 bytes_written1 bytes_left1) =>
        write_loop P fd inode_number buf fuel s1 bytes_written1 bytes_left1
    else
      match idx s.inodes inode_number with
      | none => none
      | some ino =>
        match upd s.inodes inode_number { ino with length := int_add ino.length bytes_written } with
        | none => none
        | some inodes1 => some (bytes_written, { s with inodes := inodes1 })

/-- The function `RSFS_write`; `buf` is the contents of the caller's
buffer. -/
def RSFS_write (P : Params) (s : State) (fd : Int) (buf : List Byte) (size : Int) :
    Option (Int × State) :=
  if fd < 0 ∨ fd ≥ P.NUM_OPEN_FILE ∨ size ≤ 0 then some (-1, s)
  else
    match idx s.open_file_table fd with
    | none => none
    | some entry =>
      match deref s entry.dir_entry with
      | none => none
      | some de => write_loop P fd de.inode_number buf (size.toNat + 1) s 0 size

/-- The function `RSFS_fseek`. -/
def RSFS_fseek (P : Params) (s : State) (fd offset whence : Int) : Option (Int × State) :=
  if fd < 0 ∨ fd ≥ P.NUM_OPEN_FILE then some (-1, s)
  else if whence ≠ P.RSFS_SEEK_SET ∧ whence ≠ P.RSFS_SEEK_CUR ∧ whence ≠ P.RSFS_SEEK_END then
    some (-1, s)
  else
    match idx s.open_file_table fd with
    | none => none
    | some entry =>
      match deref s entry.dir_entry with
      | none => none
      | some de =>
        let new_position : Option Int :=
          if whence = P.RSFS_SEEK_SET then some offset
          else if whence = P.RSFS_SEEK_CUR then some (int_add entry.position offset)
          else (idx s.inodes de.inode_number).map (fun ino => int_add ino.length offset)
        match new_position with
        | none => none
        | some np =>
          match upd s.open_file_table fd { entry with position := np } with
          | none => none
          | some table1 => some (np, { s with open_file_table := table1 })

/-- The function `RSFS_close`. -/
def RSFS_close (P : Params) (s : State) (fd : Int) : Option (Int × State) :=
  if fd < 0 ∨ fd ≥ P.NUM_OPEN_FILE then some (-1, s)
  else
    match idx s.open_file_table fd with
    | none => none
    | some entry =>
      let cleared : Option (List open_file_entry) :=
        if entry.dir_entry ≠ none then upd s.open_file_table fd { entry with dir_entry := none }
        else some s.open_file_table
      match cleared with
      | none => none
      | some table1 =>
        match free_open_file_entry { s with open_file_table := table1 } fd with
        | none => none
        | some s1 => some (0, s1)

/-- The `for` loop of `RSFS_delete` over the block pointers of one inode,
from slot `i` on for `k` slots. -/
def delete_blocks (inode_number : Int) : Nat → Nat → State → Option State
  | 0, _, s => some s
  | k + 1, i, s =>
    match idx s.inodes inode_number with
    | none => none
    | some ino =>
      match ino.block[i]? with
      | none => none
      | some b =>
        if b ≠ -1 then
          match free_data_block s b with
          | none => none
          | some s1 =>
            match upd s1.inodes inode_number { ino with block := ino.block.set i (-1) } with
            | none => none
            | some inodes1 => delete_blocks inode_number k (i + 1) { s1 with inodes := inodes1 }
        else delete_blocks inode_number k (i + 1) s

/-- The function `RSFS_delete`; the name `none` is the `NULL` pointer. -/
def RSFS_delete (P : Params) (s : State) (file_name : Option String) : Option (Int × State) :=
  match file_name with
  | none => some (-1, s)
  | some name =>
    match search_dir s name with
    | none => some (-1, s)
    | some de =>
      match delete_blocks de.inode_number P.NUM_POINTER 0 s with
      | none => none
      | some s1 =>
        match free_inode P s1 de.inode_number with
        | none => none
        | some s2 =>
          match set_inode_number s2 (some de.addr) (-1) with
          | none => none
          | some s3 => some (0, delete_dir s3 name)

/-- The array sizes that the declarations of `def.h` give to the global
variables. -/
def Shape (P : Params) (s : State) : Prop :=
  s.data_blocks.length = P.NUM_DBLOCKS ∧ (∀ blk ∈ s.data_blocks, blk.length = P.BLOCK_SIZE) ∧
  s.data_bitmap.length = P.NUM_DBLOCKS ∧ s.inode_bitmap.length = P.NUM_INODES ∧
  s.inodes.length = P.NUM_INODES ∧ (∀ ino ∈ s.inodes, ino.block.length = P.NUM_POINTER) ∧
  s.open_file_table.length = P.NUM_OPEN_FILE

instance (P : Params) (s : State) : Decidable (Shape P s) := by
  unfold Shape; infer_instance

/-- The directory is a list of distinct nodes with distinct names. -/
def DirOK (s : State) : Prop :=
  (s.root_dir.map (fun e => e.name)).Nodup ∧ (s.root_dir.map (fun e => e.addr)).Nodup

instance (s : State) : Decidable (DirOK s) := by
  unfold DirOK; infer_instance

/-- Every open file entry that is in use points to a node of the
directory. -/
def NoDangling (s : State) : Prop :=
  ∀ e ∈ s.open_file_table, e.used ≠ 0 → (deref s e.dir_entry).isSome = true

instance (s : State) : Decidable (NoDangling s) := by
  unfold NoDangling; infer_instance

/-- Every block pointer of the inode is unused (`-1`) or the index of a data
block. -/
def BlocksValid (P : Params) (ino : inode) : Prop :=
  ∀ b ∈ ino.block, b = -1 ∨ (0 ≤ b ∧ b < P.NUM_DBLOCKS)

instance (P : Params) (ino : inode) : Decidable (BlocksValid P ino) := by
  unfold BlocksValid; infer_instance

/-- The counter `db_used` of `RSFS_stat`: the sum of the data bitmap. -/
def db_used (s : State) : Int := s.data_bitmap.sum

/-- The counter `inodes_used` of `RSFS_stat`: the sum of the inode bitmap. -/
def inodes_used (s : State) : Int := s.inode_bitmap.sum

/-- The counter `of_num` of `RSFS_stat`: the sum of the `used` fields. -/
def of_num (s : State) : Int := (s.open_file_table.map (fun e => e.used)).sum

/-- The state `s` with the open file entry of slot `fd` replaced by `e`. -/
def with_entry (s : State) (fd : Int) (e : open_file_entry) : State :=
  { s with open_file_table := s.open_file_table.set fd.toNat e }

/-- The state in which a pass through the loop body of `RSFS_write`
ends. -/
def write_step.state : write_step → State
  | write_step.returned _ s => s
  | write_step.continued s _ _ => s

/-- The loop of `RSFS_write` after `n` passes through its body, each
entered with `bytes_left > 0` and left at the end of the body: the state and
the values of `bytes_written` and `bytes_left`. -/
def write_passes (P : Params) (fd inode_number : Int) (buf : List Byte) :
    Nat → State → Int → Int → Option (State × Int × Int)
  | 0, s, bytes_written, bytes_left => some (s, bytes_written, bytes_left)
  | n + 1, s, bytes_written, bytes_left =>
    if bytes_left > 0 then
      match write_body P fd inode_number buf s bytes_written bytes_left with
      | some (write_step.continued s1 bytes_written1 bytes_left1) =>
        write_passes P fd inode_number buf n s1 bytes_written1 bytes_left1
      | _ => none
    else none

/-- The state `s` with the access flag of the open file entry of slot `fd`
set to `f`; nothing else differs. -/
def with_flag (s : State) (fd : Int) (f : Int) : State :=
  { s with open_file_table :=
      s.open_file_table.modify (fun e => { e with access_flag := f }) fd.toNat }

/-- The end of a pass of `RSFS_write`, with the access flag of slot `fd`
set to `f` in its state. -/
def write_step.with_flag (fd f : Int) : write_step → write_step
  | write_step.returned r s => write_step.returned r (RSFS.with_flag s fd f)
  | write_step.continued s bw bl => write_step.continued (RSFS.with_flag s fd f) bw bl

/-- The states reachable from a successful `RSFS_init` by calls of
`RSFS_create`, `RSFS_open`, `RSFS_read`, `RSFS_write`, `RSFS_fseek`,
`RSFS_close` and `RSFS_delete` with any arguments and any return value. -/
inductive Reachable (P : Params) : State → Prop
  | by_init (s0 : State) (fresh : List (List Byte)) (s : State) :
      RSFS_init P s0 fresh = (0, s) → Reachable P s
  | by_create (s : State) (file_name : String) (r : Int) (s1 : State) :
      Reachable P s → RSFS_create s file_name = some (r, s1) → Reachable P s1
  | by_open (s : State) (file_name : Option String) (access_flag r : Int) (s1 : State) :
      Reachable P s → RSFS_open P s file_name access_flag = some (r, s1) → Reachable P s1
  | by_read (s : State) (fd : Int) (buf : List Byte) (size r : Int) (buf1 : List Byte)
      (s1 : State) :
      Reachable P s → RSFS_read P s fd buf size = some (r, buf1, s1) → Reachable P s1
  | by_write (s : State) (fd : Int) (buf : List Byte) (size r : Int) (s1 : State) :
      Reachable P s → RSFS_write P s fd buf size = some (r, s1) → Reachable P s1
  | by_fseek (s : State) (fd offset whence r : Int) (s1 : State) :
      Reachable P s → RSFS_fseek P s fd offset whence = some (r, s1) → Reachable P s1
  | by_close (s : State) (fd r : Int) (s1 : State) :
      Reachable P s → RSFS_close P s fd = some (r, s1) → Reachable P s1
  | by_delete (s : State) (file_name : Option String) (r : Int) (s1 : State) :
      Reachable P s → RSFS_delete P s file_name = some (r, s1) → Reachable P s1

/-- No aliasing: a data block index (a pointer other than `-1`) occurs in at
most one slot of at most one inode's block array. -/
def NoAlias (s : State) : Prop :=
  ∀ (i1 i2 j1 j2 : Nat) (ino1 ino2 : inode) (b : Int),
    s.inodes[i1]? = some ino1 → s.inodes[i2]? = some ino2 →
    ino1.block[j1]? = some b → ino2.block[j2]? = some b → b ≠ -1 → i1 = i2 ∧ j1 = j2

/-- Every data block index bound in some inode's block array is marked used
(`1`) in the data bitmap. -/
def BoundUsed (s : State) : Prop :=
  ∀ (i j : Nat) (ino : inode) (b : Int),
    s.inodes[i]? = some ino → ino.block[j]? = some b → b ≠ -1 → idx s.data_bitmap b = some 1

/-- The block arrays of all inodes. -/
def tables (s : State) : List (List Int) := s.inodes.map (fun ino => ino.block)

/-- The two properties `NoAlias` and `BoundUsed` for block arrays `T` and a
data bitmap `bm`. -/
def BlockInv (T : List (List Int)) (bm : List Int) : Prop :=
  (∀ (i1 i2 j1 j2 : Nat) (a1 a2 : List Int) (b : Int),
    T[i1]? = some a1 → T[i2]? = some a2 → a1[j1]? = some b → a2[j2]? = some b → b ≠ -1 →
    i1 = i2 ∧ j1 = j2) ∧
  (∀ (i j : Nat) (a : List Int) (b : Int),
    T[i]? = some a → a[j]? = some b → b ≠ -1 → idx bm b = some 1)

/-! ## Worked examples

Small constants (blocks of 4 bytes, 4 data blocks, 2 inodes with 2 block
pointers each, 2 open file entries) and states of a session on the file
`"a"`. -/

/-- The constants of the worked examples. -/
def cfg : Params :=
  { NUM_DBLOCKS := 4, BLOCK_SIZE := 4, NUM_INODES := 2, NUM_POINTER := 2, NUM_OPEN_FILE := 2,
    RSFS_RDONLY := 0, RSFS_RDWR := 1, RSFS_SEEK_SET := 0, RSFS_SEEK_CUR := 1, RSFS_SEEK_END := 2 }

/-- An open file entry as the C runtime zero-initialises it. -/
def entry_zero : open_file_entry := { used := 0, dir_entry := none, position := 0, access_flag := 0 }

/-- An inode as `RSFS_init` leaves it. -/
def inode_empty : inode := { length := 0, block := [-1, -1] }

/-- The state right after `RSFS_init`, all data blocks holding zeros. -/
def st_init : State :=
  { data_blocks := [[0, 0, 0, 0], [0, 0, 0, 0], [0, 0, 0, 0], [0, 0, 0, 0]]
    data_bitmap := [0, 0, 0, 0]
    inode_bitmap := [0, 0]
    inodes := [inode_empty, inode_empty]
    open_file_table := [entry_zero, entry_zero]
    root_dir := []
    next_addr := 0 }

/-- After `RSFS_create("a")`. -/
def st_created : State :=
  { st_init with
    inode_bitmap := [1, 0]
    root_dir := [{ addr := 0, name := "a", inode_number := 0 }]
    next_addr := 1 }

/-- After `RSFS_open("a", RSFS_RDWR)`, which returns the descriptor 0. -/
def st_opened : State :=
  { st_created with
    open_file_table := [{ used := 1, dir_entry := some 0, position := 0, access_flag := 1 },
                        entry_zero] }

/-- After writing the five bytes `1 2 3 4 5` through the descriptor 0. -/
def st_written : State :=
  { st_opened with
    data_blocks := [[1, 2, 3, 4], [5, 0, 0, 0], [0, 0, 0, 0], [0, 0, 0, 0]]
    data_bitmap := [1, 1, 0, 0]
    inodes := [{ length := 5, block := [0, 1] }, inode_empty]
    open_file_table := [{ used := 1, dir_entry := some 0, position := 5, access_flag := 1 },
                        entry_zero] }

/-- The state `st_written` with the cursor of the descriptor 0 moved to
`pos`. -/
def st_at (pos : Int) : State :=
  { st_written with
    open_file_table := [{ used := 1, dir_entry := some 0, position := pos, access_flag := 1 },
                        entry_zero] }

/-- After `st_at 2` and writing the byte `7` over the third byte of the
file: the contents still have five bytes, the length says 6. -/
def st_overwritten : State :=
  { st_written with
    data_blocks := [[1, 2, 7, 4], [5, 0, 0, 0], [0, 0, 0, 0], [0, 0, 0, 0]]
    inodes := [{ length := 6, block := [0, 1] }, inode_empty]
    open_file_table := [{ used := 1, dir_entry := some 0, position := 3, access_flag := 1 },
                        entry_zero] }

/-- After `RSFS_create("b")` in `st_created`: both inodes are in use. -/
def st_no_inode : State :=
  { st_created with
    inode_bitmap := [1, 1]
    root_dir := [{ addr := 0, name := "a", inode_number := 0 },
                 { addr := 1, name := "b", inode_number := 1 }]
    next_addr := 2 }

/-- After the failed `RSFS_create("c")` in `st_no_inode`. -/
def st_orphan : State :=
  { st_no_inode with
    root_dir := [{ addr := 0, name := "a", inode_number := 0 },
                 { addr := 1, name := "b", inode_number := 1 },
                 { addr := 2, name := "c", inode_number := -1 }]
    next_addr := 3 }

/-- After `RSFS_close(0)` in `st_written`. -/
def st_closed : State :=
  { st_written with
    open_file_table := [{ used := 0, dir_entry := none, position := 0, access_flag := 1 },
                        entry_zero] }

/-- The nine bytes `1 … 9`. -/
def nine_bytes : List Byte := [1, 2, 3, 4, 5, 6, 7, 8, 9]

/-- The state of the loop of `RSFS_write(0, nine_bytes, 9)` on `st_opened`
after two passes: both block pointers are bound, the cursor is 8, the
length is still 0. -/
def st_two_passes : State :=
  { st_opened with
    data_blocks := [[1, 2, 3, 4], [5, 6, 7, 8], [0, 0, 0, 0], [0, 0, 0, 0]]
    data_bitmap := [1, 1, 0, 0]
    inodes := [{ length := 0, block := [0, 1] }, inode_empty]
    open_file_table := [{ used := 1, dir_entry := some 0, position := 8, access_flag := 1 },
                        entry_zero] }

/-- After writing the four bytes `1 2 3 4` through the descriptor 0 of
`st_opened`: the file fills one block exactly. -/
def st_one_block : State :=
  { st_opened with
    data_blocks := [[1, 2, 3, 4], [0, 0, 0, 0], [0, 0, 0, 0], [0, 0, 0, 0]]
    data_bitmap := [1, 0, 0, 0]
    inodes := [{ length := 4, block := [0, -1] }, inode_empty]
    open_file_table := [{ used := 1, dir_entry := some 0, position := 4, access_flag := 1 },
                        entry_zero] }

/-- After writing the byte `7` at the end (cursor 5) of the file of
`st_written`. -/
def st_appended : State :=
  { st_written with
    data_blocks := [[1, 2, 3, 4], [5, 7, 0, 0], [0, 0, 0, 0], [0, 0, 0, 0]]
    inodes := [{ length := 6, block := [0, 1] }, inode_empty]
    open_file_table := [{ used := 1, dir_entry := some 0, position := 6, access_flag := 1 },
                        entry_zero] }

/-- The constants of `cfg` with a single data block. -/
def cfg_one : Params := { cfg with NUM_DBLOCKS := 1 }

/-- With one data block: the state after `RSFS_init`. -/
def one_init : State :=
  { st_init with data_blocks := [[0, 0, 0, 0]], data_bitmap := [0] }

/-- With one data block: after `RSFS_create("a")`. -/
def one_created : State :=
  { st_created with data_blocks := [[0, 0, 0, 0]], data_bitmap := [0] }

/-- With one data block: after `RSFS_open("a", RSFS_RDWR)`. -/
def one_opened : State :=
  { st_opened with data_blocks := [[0, 0, 0, 0]], data_bitmap := [0] }

/-- With one data block: after the first pass of
`RSFS_write(0, [1, 2, 3, 4, 5], 5)` on `one_opened`; the block is bound and
full, the cursor is 4, the length is still 0. -/
def one_filled : State :=
  { one_opened with
    data_blocks := [[1, 2, 3, 4]]
    data_bitmap := [1]
    inodes := [{ length := 0, block := [0, -1] }, inode_empty]
    open_file_table := [{ used := 1, dir_entry := some 0, position := 4, access_flag := 1 },
                        entry_zero] }

/-- After `RSFS_fseek(0, 4, RSFS_SEEK_SET)` and a write of the byte `9` on
the fresh file of `st_opened`: the block pointer 1 is bound, the block pointer
0 is not. -/
def st_gap : State :=
  { st_opened with
    data_blocks := [[9, 0, 0, 0], [0, 0, 0, 0], [0, 0, 0, 0], [0, 0, 0, 0]]
    data_bitmap := [1, 0, 0, 0]
    inodes := [{ length := 1, block := [-1, 0] }, inode_empty]
    open_file_table := [{ used := 1, dir_entry := some 0, position := 5, access_flag := 1 },
                        entry_zero] }

/-- After `st_one_block`, `RSFS_fseek(0, 0, RSFS_SEEK_SET)` and a write of
the four bytes `5 6 7 8`: one block pointer is bound, the length is 8. -/
def st_long : State :=
  { st_opened with
    data_blocks := [[1, 2, 3, 4], [5, 6, 7, 8], [0, 0, 0, 0], [0, 0, 0, 0]]
    data_bitmap := [1, 1, 0, 0]
    inodes := [{ length := 8, block := [1, -1] }, inode_empty]
    open_file_table := [{ used := 1, dir_entry := some 0, position := 4, access_flag := 1 },
                        entry_zero] }

/-- The eight bytes `1 … 8`. -/
def eight_bytes : List Byte := [1, 2, 3, 4, 5, 6, 7, 8]

/-- After writing `eight_bytes` through the descriptor 0 of `st_opened`: the
file fills both blocks that its inode can point to, the cursor is 8. -/
def st_full : State :=
  { st_two_passes with inodes := [{ length := 8, block := [0, 1] }, inode_empty] }

/-! ## Arrays and buffers -/

theorem idx_eq_some {α : Type} {a : List α} {i : Int} {v : α} :
    idx a i = some v ↔ 0 ≤ i ∧ a[i.toNat]? = some v := by
  unfold idx; split <;> simp [*]

theorem upd_eq_some {α : Type} {a a1 : List α} {i : Int} {v : α} :
    upd a i v = some a1 ↔ (0 ≤ i ∧ i.toNat < a.length) ∧ a1 = a.set i.toNat v := by
  unfold upd; split <;> simp [*, eq_comm]

theorem idx_upd_same {α : Type} {a a1 : List α} {i : Int} {v : α}
    (h : upd a i v = some a1) : idx a1 i = some v := by
  obtain ⟨⟨h0, hlt⟩, rfl⟩ := upd_eq_some.1 h
  simp [idx, h0, hlt]

theorem idx_upd_ne {α : Type} {a a1 : List α} {i j : Int} {v : α}
    (h : upd a i v = some a1) (hj : j ≠ i) : idx a1 j = idx a j := by
  obtain ⟨⟨h0, _⟩, rfl⟩ := upd_eq_some.1 h
  unfold idx
  split
  · rename_i hj0
    have : i.toNat ≠ j.toNat := by omega
    simp [List.getElem?_set_ne this]
  · rfl

theorem length_upd {α : Type} {a a1 : List α} {i : Int} {v : α}
    (h : upd a i v = some a1) : a1.length = a.length := by
  obtain ⟨_, rfl⟩ := upd_eq_some.1 h
  simp

theorem min_eq (x y : Int) : min x y = Min.min x y := by
  unfold min; split <;> omega

theorem memcpy_eq_some {dst src out : List Byte} {doff soff n : Int}
    (h : memcpy dst doff src soff n = some out) :
    (0 ≤ doff ∧ 0 ≤ soff ∧ 0 ≤ n ∧ doff + n ≤ dst.length ∧ soff + n ≤ src.length) ∧
    out = dst.take doff.toNat ++ ((src.drop soff.toNat).take n.toNat
      ++ dst.drop (doff.toNat + n.toNat)) := by
  unfold memcpy at h
  split at h
  · rename_i hc; exact ⟨hc, by simpa [eq_comm] using h⟩
  · simp at h

/-- A sum inside the range of `int` is the exact sum. -/
theorem int_add_eq {a b : Int} (h1 : INT_MIN ≤ a + b) (h2 : a + b ≤ INT_MAX) :
    int_add a b = a + b := by
  unfold int_add
  unfold INT_MIN at h1
  unfold INT_MAX at h2
  omega

/-- A sum of `int` values lies in the range of `int`. -/
theorem int_add_range (a b : Int) : INT_MIN ≤ int_add a b ∧ int_add a b ≤ INT_MAX := by
  unfold int_add INT_MIN INT_MAX
  omega

/-! ## One pass through the loop body of `RSFS_write` -/

theorem write_copy_returned {P : Params} {fd i : Int} {buf : List Byte} {s s1 : State}
    {bn off bw bl r : Int}
    (h : write_copy P fd i buf s bn off bw bl = some (write_step.returned r s1)) :
    r = -1 ∧ s1 = s := by
  unfold write_copy at h
  split at h
  · split at h
    · simp at h
    · split at h
      · simp at h; exact ⟨h.1.symm, h.2.symm⟩
      · split at h
        · simp at h
        · dsimp only at h
          split at h
          · simp at h
          · split at h <;> simp at h
  · simp at h

theorem write_copy_continued {P : Params} {fd i : Int} {buf : List Byte} {s s1 : State}
    {bn off bw bl bw1 bl1 : Int}
    (h : write_copy P fd i buf s bn off bw bl = some (write_step.continued s1 bw1 bl1)) :
    ∃ e ino b blk blk1 data1 table1,
      idx s.open_file_table fd = some e ∧ idx s.inodes i = some ino ∧
      idx ino.block bn = some b ∧ ¬ (b ≥ P.NUM_DBLOCKS ∨ b = -1) ∧
      idx s.data_blocks b = some blk ∧
      memcpy blk off buf bw (min (P.BLOCK_SIZE - off) bl) = some blk1 ∧
      upd s.data_blocks b blk1 = some data1 ∧
      upd s.open_file_table fd
        { e with position := e.position + min (P.BLOCK_SIZE - off) bl } = some table1 ∧
      s1 = { s with data_blocks := data1, open_file_table := table1 } ∧
      bw1 = bw + min (P.BLOCK_SIZE - off) bl ∧ bl1 = bl - min (P.BLOCK_SIZE - off) bl := by
  unfold write_copy at h
  split at h
  · rename_i e ino he hino
    split at h
    · simp at h
    · rename_i b hb
      split at h
      · simp at h
      · rename_i hc
        split at h
        · simp at h
        · rename_i blk hblk
          dsimp only at h
          split at h
          · simp at h
          · rename_i blk1 hcpy
            split at h
            · rename_i data1 table1 hd ht
              simp only [Option.some.injEq, write_step.continued.injEq] at h
              exact ⟨e, ino, b, blk, blk1, data1, table1, he, hino, hb, hc, hblk, hcpy, hd, ht,
                h.1.symm, h.2.1.symm, h.2.2.symm⟩
            · simp at h
  · simp at h

theorem write_body_returned {P : Params} {fd i : Int} {buf : List Byte} {s s1 : State}
    {bw bl r : Int}
    (h : write_body P fd i buf s bw bl = some (write_step.returned r s1)) :
    r = -1 := by
  unfold write_body at h
  split at h
  · simp only at h
    split at h
    · split at h
      · simp at h; exact h.1.symm
      · split at h
        · simp at h
        · split at h
          · simp at h
          · exact (write_copy_returned h).1
    · exact (write_copy_returned h).1
  · simp at h

theorem write_body_continued {P : Params} {fd i : Int} {buf : List Byte} {s s1 : State}
    {bw bl bw1 bl1 : Int}
    (h : write_body P fd i buf s bw bl = some (write_step.continued s1 bw1 bl1)) :
    ∃ e ino sa,
      idx s.open_file_table fd = some e ∧ idx s.inodes i = some ino ∧
      (((e.position > ino.length ∨
            (Int.tdiv e.position P.BLOCK_SIZE = 0 ∧ Int.tmod e.position P.BLOCK_SIZE = 0)) ∧
          ∃ (b : Nat) (block1 : List Int) (inodes1 : List inode),
            find_free s.data_bitmap = some b ∧
            upd ino.block (Int.tdiv e.position P.BLOCK_SIZE) b = some block1 ∧
            upd s.inodes i { ino with block := block1 } = some inodes1 ∧
            sa = { s with data_bitmap := s.data_bitmap.set b 1, inodes := inodes1 }) ∨
        (¬ (e.position > ino.length ∨
            (Int.tdiv e.position P.BLOCK_SIZE = 0 ∧ Int.tmod e.position P.BLOCK_SIZE = 0)) ∧
          sa = s)) ∧
      write_copy P fd i buf sa (Int.tdiv e.position P.BLOCK_SIZE)
        (Int.tmod e.position P.BLOCK_SIZE) bw bl = some (write_step.continued s1 bw1 bl1) := by
  unfold write_body at h
  split at h
  · rename_i e ino he hino
    simp only at h
    split at h
    · rename_i hc
      split at h
      · simp at h
      · rename_i hnb
        split at h
        · simp at h
        · rename_i block1 hb1
          split at h
          · simp at h
          · rename_i inodes1 hi1
            unfold allocate_data_block at hnb hb1 hi1 h
            split at hnb
            · simp at hnb
            · rename_i b hfree
              simp only [hfree] at hb1 hi1 h
              exact ⟨e, ino, _, he, hino, Or.inl ⟨hc, b, block1, inodes1, hfree, hb1, hi1, rfl⟩, h⟩
    · rename_i hc
      exact ⟨e, ino, s, he, hino, Or.inr ⟨hc, rfl⟩, h⟩
  · simp at h

/-! ## The loop of `RSFS_write` -/

/-- What one pass through the loop body does to the cursor and to the
inode's length: the chunk has between 0 and `bytes_left` bytes, the cursor
moves by the chunk, the length and the directory stay. -/
theorem write_body_step {P : Params} {fd i : Int} {buf : List Byte} {s s1 : State}
    {bw bl bw1 bl1 : Int}
    (h : write_body P fd i buf s bw bl = some (write_step.continued s1 bw1 bl1)) :
    ∃ e ino ino1 m, idx s.open_file_table fd = some e ∧ idx s.inodes i = some ino ∧
      0 ≤ m ∧ m = min (P.BLOCK_SIZE - Int.tmod e.position P.BLOCK_SIZE) bl ∧
      0 ≤ Int.tmod e.position P.BLOCK_SIZE ∧
      bw1 = bw + m ∧ bl1 = bl - m ∧
      idx s1.open_file_table fd = some { e with position := e.position + m } ∧
      idx s1.inodes i = some ino1 ∧ ino1.length = ino.length ∧
      s1.root_dir = s.root_dir := by
  obtain ⟨e, ino, sa, he, hino, hsa, hcopy⟩ := write_body_continued h
  obtain ⟨e2, ino2, b, blk, blk1, data1, table1, he2, hino2, -, -, -, hcpy, -, ht, rfl, rfl, rfl⟩ :=
    write_copy_continued hcopy
  have hm := (memcpy_eq_some hcpy).1
  rcases hsa with ⟨-, b0, block1, inodes1, -, -, hi1, rfl⟩ | ⟨-, rfl⟩
  · simp only at he2 hino2 ht
    rw [he] at he2
    obtain rfl : e = e2 := by simpa using he2
    rw [idx_upd_same hi1] at hino2
    obtain rfl := Option.some.inj hino2
    exact ⟨e, ino, _, _, he, hino, hm.2.2.1, rfl, hm.1, rfl, rfl, idx_upd_same ht,
      idx_upd_same hi1, rfl, rfl⟩
  · rw [he] at he2
    obtain rfl : e = e2 := by simpa using he2
    rw [hino] at hino2
    obtain rfl : ino = ino2 := by simpa using hino2
    exact ⟨e, ino, ino, _, he, hino, hm.2.2.1, rfl, hm.1, rfl, rfl, idx_upd_same ht,
      hino, rfl, rfl⟩

/-- A run of the loop that does not end in `return -1` returns
`bytes_written + bytes_left`, moves the cursor by `bytes_left` and adds the
returned value to the inode's length. -/
theorem write_loop_result {P : Params} {fd i : Int} {buf : List Byte} (fuel : Nat) :
    ∀ (s : State) (bw bl r : Int) (s1 : State) (e : open_file_entry), 0 ≤ bw → 0 ≤ bl →
      idx s.open_file_table fd = some e →
      write_loop P fd i buf fuel s bw bl = some (r, s1) → r ≠ -1 →
      r = bw + bl ∧ s1.root_dir = s.root_dir ∧
      idx s1.open_file_table fd = some { e with position := e.position + bl } ∧
      ∃ ino ino1, idx s.inodes i = some ino ∧ idx s1.inodes i = some ino1 ∧
        ino1.length = int_add ino.length (bw + bl) := by
  induction fuel with
  | zero => intro s bw bl r s1 e _ _ _ h; simp [write_loop] at h
  | succ fuel ih =>
    intro s bw bl r s1 e0 hbw hbl he0 h hr
    unfold write_loop at h
    split at h
    · rename_i hpos
      split at h
      · simp at h
      · rename_i ret s2 hbody
        simp only [Option.some.injEq, Prod.mk.injEq] at h
        exact absurd (h.1 ▸ write_body_returned hbody) hr
      · rename_i s2 bw2 bl2 hbody
        obtain ⟨e, ino, ino2, m, he, hino, hm0, hm, -, rfl, rfl, he2, hino2, hlen2, hdir2⟩ :=
          write_body_step hbody
        have hmle : m ≤ bl := by rw [hm, min_eq]; omega
        rw [he0] at he
        obtain rfl := Option.some.inj he
        obtain ⟨hr1, hdir, he1, ino3, ino1, hino3, hino1, hlen⟩ :=
          ih s2 (bw + m) (bl - m) r s1 _ (by omega) (by omega) he2 h hr
        rw [hino2] at hino3
        obtain rfl := Option.some.inj hino3
        have hsum : bw + m + (bl - m) = bw + bl := by omega
        refine ⟨by omega, hdir.trans hdir2, ?_, ino, ino1, hino, hino1, ?_⟩
        · rw [he1]; simp
        · rw [hlen, hlen2, hsum]
    · rename_i hpos
      have hbl0 : bl = 0 := by omega
      subst hbl0
      split at h
      · simp at h
      · rename_i ino hino
        split at h
        · simp at h
        · rename_i inodes1 hupd
          simp only [Option.some.injEq, Prod.mk.injEq] at h
          obtain ⟨rfl, rfl⟩ := h
          refine ⟨by omega, rfl, ?_, ino, _, hino, idx_upd_same hupd, by simp⟩
          simpa using he0

/-! ## The fuel of the two loops is never used up -/

/-- More fuel than `bytes_left` does not change the result of the loop of
`RSFS_write`: every pass copies at least one byte. -/
theorem write_loop_fuel {P : Params} {fd i : Int} {buf : List Byte} (hP : 0 < P.BLOCK_SIZE)
    (fuel : Nat) : ∀ (k : Nat) (s : State) (bw bl : Int), bl ≤ fuel →
      write_loop P fd i buf (fuel + 1 + k) s bw bl = write_loop P fd i buf (fuel + 1) s bw bl := by
  induction fuel with
  | zero =>
    intro k s bw bl hbl
    have hk : 0 + 1 + k = k + 1 := by omega
    rw [hk]
    unfold write_loop
    have : ¬ bl > 0 := by omega
    simp only [this, if_false]
  | succ fuel ih =>
    intro k s bw bl hbl
    have hk : fuel + 1 + 1 + k = (fuel + 1 + k) + 1 := by omega
    rw [hk]
    rw [write_loop, write_loop]
    split
    · rename_i hpos
      cases hbody : write_body P fd i buf s bw bl with
      | none => rfl
      | some st =>
        cases st with
        | returned r s1 => rfl
        | continued s1 bw1 bl1 =>
          simp only
          obtain ⟨e, ino, ino1, m, -, -, -, hm, hoff, -, rfl, -⟩ := write_body_step hbody
          have hlt : Int.tmod e.position P.BLOCK_SIZE < P.BLOCK_SIZE :=
            Int.tmod_lt_of_pos _ (by exact_mod_cast hP)
          rw [min_eq] at hm
          exact ih k s1 _ _ (by push_cast at hbl; omega)
    · rfl

/-- More fuel than `bytes` does not change the result of the loop of
`RSFS_read`: every pass copies at least one byte. -/
theorem read_loop_fuel {P : Params} {D : List (List Byte)} {ino : inode} (hP : 0 < P.BLOCK_SIZE)
    (fuel : Nat) : ∀ (k : Nat) (position bytes block_num offset bytes_read : Int)
      (buf : List Byte), bytes ≤ fuel → offset < P.BLOCK_SIZE →
      read_loop P D ino (fuel + 1 + k) position bytes block_num offset bytes_read buf =
        read_loop P D ino (fuel + 1) position bytes block_num offset bytes_read buf := by
  induction fuel with
  | zero =>
    intro k position bytes block_num offset bytes_read buf hb _
    have hk : 0 + 1 + k = k + 1 := by omega
    rw [hk]
    unfold read_loop
    have : ¬ (bytes > 0 ∧ block_num < P.NUM_POINTER) := by omega
    simp only [this, if_false]
  | succ fuel ih =>
    intro k position bytes block_num offset bytes_read buf hb hoff
    have hk : fuel + 1 + 1 + k = (fuel + 1 + k) + 1 := by omega
    rw [hk]
    rw [read_loop, read_loop]
    split
    · rename_i hpos
      split
      · rfl
      · split
        · rfl
        · dsimp only
          split
          · rfl
          · split
            · rfl
            · rename_i buf1 hcpy
              have hm := (memcpy_eq_some hcpy).1
              rw [min_eq] at hm
              apply ih
              · rw [min_eq]; push_cast at hb; omega
              · exact Int.tmod_lt_of_pos _ (by exact_mod_cast hP)
    · rfl

/-! ## Writing to a file of length 0 -/

theorem find_free_spec {bm : List Int} {b : Nat} (h : find_free bm = some b) :
    bm[b]? = some 0 := by
  induction bm generalizing b with
  | nil => simp [find_free] at h
  | cons x xs ih =>
    unfold find_free at h
    split at h
    · rename_i hx
      obtain rfl : 0 = b := by simpa using h
      simp [hx]
    · simp only [Option.map_eq_some'] at h
      obtain ⟨a, ha, rfl⟩ := h
      simpa using ih ha

/-- On a file of length 0 with a non-negative cursor every pass through the
loop body of `RSFS_write` takes the allocating branch; the lemma spells out
the state after the pass. -/
theorem write_body_fresh {P : Params} {fd i : Int} {buf : List Byte} {s s1 : State}
    {bw bl bw1 bl1 : Int} {e : open_file_entry} {ino : inode}
    (he : idx s.open_file_table fd = some e) (hino : idx s.inodes i = some ino)
    (hlen : ino.length = 0) (hpos : 0 ≤ e.position)
    (h : write_body P fd i buf s bw bl = some (write_step.continued s1 bw1 bl1)) :
    ∃ (b : Nat) (blk blk1 : List Byte) (bn m : Int),
      bn = Int.tdiv e.position P.BLOCK_SIZE ∧
      m = min (P.BLOCK_SIZE - Int.tmod e.position P.BLOCK_SIZE) bl ∧
      find_free s.data_bitmap = some b ∧ 0 ≤ bn ∧ bn.toNat < ino.block.length ∧
      s.data_blocks[b]? = some blk ∧
      memcpy blk (Int.tmod e.position P.BLOCK_SIZE) buf bw m = some blk1 ∧
      s1 = { s with
        data_blocks := s.data_blocks.set b blk1
        data_bitmap := s.data_bitmap.set b 1
        inodes := s.inodes.set i.toNat { ino with block := ino.block.set bn.toNat b }
        open_file_table := s.open_file_table.set fd.toNat { e with position := e.position + m } } ∧
      bw1 = bw + m ∧ bl1 = bl - m := by
  obtain ⟨e', ino', sa, he', hino', hsa, hcopy⟩ := write_body_continued h
  rw [he] at he'; obtain rfl := Option.some.inj he'
  rw [hino] at hino'; obtain rfl := Option.some.inj hino'
  obtain ⟨e2, ino2, b2, blk, blk1, data1, table1, he2, hino2, hb2, -, hblk, hcpy, hd, ht,
    rfl, rfl, rfl⟩ := write_copy_continued hcopy
  rcases hsa with ⟨-, b, block1, inodes1, hfree, hb1, hi1, rfl⟩ | ⟨hc, -⟩
  · simp only at he2 hino2 hblk hd ht
    rw [he] at he2; obtain rfl := Option.some.inj he2
    rw [idx_upd_same hi1] at hino2; obtain rfl := Option.some.inj hino2
    simp only at hb2
    rw [idx_upd_same hb1] at hb2; obtain rfl := Option.some.inj hb2
    obtain ⟨⟨hbn0, hbnlt⟩, rfl⟩ := upd_eq_some.1 hb1
    obtain ⟨_, rfl⟩ := upd_eq_some.1 hi1
    obtain ⟨_, rfl⟩ := upd_eq_some.1 hd
    obtain ⟨_, rfl⟩ := upd_eq_some.1 ht
    refine ⟨b, blk, blk1, _, _, rfl, rfl, hfree, hbn0, hbnlt, ?_, hcpy, ?_, rfl, rfl⟩
    · simpa [idx] using hblk
    · simp
  · exfalso
    apply hc
    rcases eq_or_lt_of_le hpos with h0 | h0
    · right; rw [← h0]; simp
    · left; omega

theorem tdiv_ge_of_mul_le {p : Int} {B j : Nat} (hB : 0 < B) (hp : 0 ≤ p)
    (h : ((j : Int) + 1) * B ≤ p) : (j : Int) + 1 ≤ Int.tdiv p B := by
  rw [Int.tdiv_eq_ediv hp (by omega)]
  exact Int.le_ediv_of_mul_le (by exact_mod_cast hB) h

/-- A run of the loop of `RSFS_write` on a file of length 0 keeps every
block pointer that lies below the cursor, and the contents of every data
block that is marked used. -/
theorem write_loop_keeps {P : Params} {fd i : Int} {buf : List Byte} (hP : 0 < P.BLOCK_SIZE)
    (fuel : Nat) : ∀ (s : State) (bw bl r : Int) (s1 : State) (e : open_file_entry)
      (ino : inode) (j b : Nat) (v : Int),
      idx s.open_file_table fd = some e → idx s.inodes i = some ino → ino.length = 0 →
      0 ≤ e.position → 0 ≤ bl →
      (bl = 0 ∨ ((j : Int) + 1) * P.BLOCK_SIZE ≤ e.position) →
      ino.block[j]? = some (b : Int) → s.data_bitmap[b]? = some v → v ≠ 0 →
      write_loop P fd i buf fuel s bw bl = some (r, s1) → r ≠ -1 →
      (∃ ino1, idx s1.inodes i = some ino1 ∧ ino1.block[j]? = some (b : Int)) ∧
        s1.data_blocks[b]? = s.data_blocks[b]? := by
  induction fuel with
  | zero => intro s bw bl r s1 e ino j b v _ _ _ _ _ _ _ _ _ h; simp [write_loop] at h
  | succ fuel ih =>
    intro s bw bl r s1 e ino j b v he hino hlen hpos hbl hj hjb hbv hv h hr
    unfold write_loop at h
    split at h
    · rename_i hblpos
      split at h
      · simp at h
      · rename_i ret s2 hbody
        simp only [Option.some.injEq, Prod.mk.injEq] at h
        exact absurd (h.1 ▸ write_body_returned hbody) hr
      · rename_i s2 bw2 bl2 hbody
        obtain ⟨b', blk, blk1, bn, m, hbn, hm, hfree, hbn0, hbnlt, hblk, hcpy, rfl, rfl, rfl⟩ :=
          write_body_fresh he hino hlen hpos hbody
        have hm0 := (memcpy_eq_some hcpy).1.2.2.1
        have hmle : m ≤ bl := by rw [hm, min_eq]; omega
        have hi0 : 0 ≤ i := (idx_eq_some.1 hino).1
        have hilt : i.toNat < s.inodes.length := by
          have := (idx_eq_some.1 hino).2
          exact (List.getElem?_eq_some.1 this).1
        have hfd0 : 0 ≤ fd := (idx_eq_some.1 he).1
        have hfdlt : fd.toNat < s.open_file_table.length := by
          have := (idx_eq_some.1 he).2
          exact (List.getElem?_eq_some.1 this).1
        have hjle : (j : Int) + 1 ≤ bn := by
          rw [hbn]
          exact tdiv_ge_of_mul_le hP hpos (by rcases hj with h0 | h0 <;> [omega; exact h0])
        have hbb : b' ≠ b := by
          intro hb
          have := find_free_spec hfree
          rw [hb, hbv] at this
          exact hv (Option.some.inj this)
        have hjn : bn.toNat ≠ j := by omega
        obtain ⟨⟨ino1, hino1, hblock⟩, hdata⟩ := ih _ (bw + m) (bl - m) r s1
          { e with position := e.position + m }
          { ino with block := ino.block.set bn.toNat b' } j b v
          (by simp [idx, hfd0, hfdlt]) (by simp [idx, hi0, hilt]) hlen
          (by simp only; omega) (by omega)
          (by right; simp only; rcases hj with h0 | h0 <;> omega)
          (by simp only [List.getElem?_set_ne hjn]; exact hjb)
          (by simp only [List.getElem?_set_ne hbb]; exact hbv) hv h hr
        refine ⟨⟨ino1, hino1, hblock⟩, ?_⟩
        rw [hdata]
        simp only [List.getElem?_set_ne hbb]
    · split at h
      · simp at h
      · rename_i ino' hino'
        rw [hino] at hino'; obtain rfl := Option.some.inj hino'
        split at h
        · simp at h
        · rename_i inodes1 hupd
          simp only [Option.some.injEq, Prod.mk.injEq] at h
          obtain ⟨rfl, rfl⟩ := h
          exact ⟨⟨_, idx_upd_same hupd, hjb⟩, rfl⟩

theorem memcpy_of_bounds {dst src : List Byte} {doff soff n : Int}
    (h : 0 ≤ doff ∧ 0 ≤ soff ∧ 0 ≤ n ∧ doff + n ≤ dst.length ∧ soff + n ≤ src.length) :
    memcpy dst doff src soff n = some (dst.take doff.toNat ++ ((src.drop soff.toNat).take n.toNat
      ++ dst.drop (doff.toNat + n.toNat))) := by
  unfold memcpy; rw [if_pos h]

theorem splice_chain (o X tl : List Byte) (c m k : Nat) (hc : c + m ≤ o.length)
    (hX : m ≤ X.length) :
    (o.take c ++ (((X.take m ++ tl).drop 0).take m ++ o.drop (c + m))).take (c + m) ++
        ((X.drop m).take k ++
          (o.take c ++ (((X.take m ++ tl).drop 0).take m ++ o.drop (c + m))).drop (c + m + k)) =
      o.take c ++ (X.take (m + k) ++ o.drop (c + (m + k))) := by
  have hY : (X.take m).length = m := by simp [hX]
  have h1 : ((X.take m ++ tl).drop 0).take m = X.take m := by
    rw [List.drop_zero, List.take_append_of_le_length (by omega), List.take_take, Nat.min_self]
  have hlen : (o.take c ++ X.take m).length = c + m := by
    rw [List.length_append, List.length_take, hY]; omega
  rw [h1, ← List.append_assoc (o.take c)]
  have h2 : ((o.take c ++ X.take m) ++ o.drop (c + m)).take (c + m) = o.take c ++ X.take m := by
    rw [← hlen, List.take_left]
  have h3 : ((o.take c ++ X.take m) ++ o.drop (c + m)).drop (c + m + k) = o.drop (c + (m + k)) := by
    rw [← List.drop_drop, ← hlen, List.drop_left, hlen, List.drop_drop, Nat.add_assoc]
  rw [h2, h3, List.take_add]
  simp [List.append_assoc]

theorem next_block_num {p m bl : Int} {B : Nat} (hB : 0 < B) (hp : 0 ≤ p)
    (hal : Int.tmod p B = 0) (hbl : 0 < bl) (hm : m = Min.min ((B : Int) - 0) bl) :
    (if Int.tmod (p + m) B = 0 then Int.tdiv p B + 1 else Int.tdiv p B) = Int.tdiv (p + m) B := by
  have hB' : (0 : Int) < B := by exact_mod_cast hB
  have hm0 : 0 < m := by omega
  have hmB : m ≤ B := by omega
  rw [Int.tmod_eq_emod hp (by omega)] at hal
  rw [Int.tmod_eq_emod (by omega) (by omega), Int.tdiv_eq_ediv hp (by omega),
    Int.tdiv_eq_ediv (by omega) (by omega)]
  have hdvd : (B : Int) ∣ p := Int.dvd_of_emod_eq_zero hal
  rcases eq_or_lt_of_le hmB with h | h
  · rw [h, Int.add_emod_self, hal, if_pos rfl, Int.add_ediv_of_dvd_left hdvd,
      Int.ediv_self (by omega)]
  · have h1 : (p + m) % B = m := by
      rw [Int.add_emod, hal, zero_add, Int.emod_emod_of_dvd _ (dvd_refl _),
        Int.emod_eq_of_lt (by omega) h]
    rw [h1, if_neg (by omega), Int.add_ediv_of_dvd_left hdvd, Int.ediv_eq_zero_of_lt (by omega) h,
      add_zero]

/-- The heart of the round trip: after a run of the loop of `RSFS_write` on
a file of length 0 that starts at a block boundary, the loop of `RSFS_read`
started at the same cursor reads back the bytes the run has written. -/
theorem write_then_read_loop {P : Params} {fd i : Int} {buf : List Byte}
    (hP : 0 < P.BLOCK_SIZE) (fuel : Nat) :
    ∀ (s : State) (bw bl r : Int) (s1 : State) (e : open_file_entry) (ino : inode),
      idx s.open_file_table fd = some e → idx s.inodes i = some ino → ino.length = 0 →
      ino.block.length ≤ P.NUM_POINTER → 0 ≤ e.position → 0 ≤ bl → 0 ≤ bw →
      (bl = 0 ∨ Int.tmod e.position P.BLOCK_SIZE = 0) →
      write_loop P fd i buf fuel s bw bl = some (r, s1) → r ≠ -1 →
      ∃ ino1, idx s1.inodes i = some ino1 ∧
        ∀ (rf : Nat) (c : Int) (o : List Byte), bl < rf → 0 ≤ c → c + bl ≤ o.length →
          read_loop P s1.data_blocks ino1 rf e.position bl (Int.tdiv e.position P.BLOCK_SIZE)
              (Int.tmod e.position P.BLOCK_SIZE) c o =
            some (e.position + bl, c + bl,
              o.take c.toNat ++ ((buf.drop bw.toNat).take bl.toNat
                ++ o.drop (c.toNat + bl.toNat))) := by
  induction fuel with
  | zero => intro s bw bl r s1 e ino _ _ _ _ _ _ _ _ h; simp [write_loop] at h
  | succ fuel ih =>
    intro s bw bl r s1 e ino he hino hlen hshape hpos hbl hbw hal h hr
    have h' := h
    unfold write_loop at h
    split at h
    · rename_i hblpos
      split at h
      · simp at h
      · rename_i ret s2 hbody
        simp only [Option.some.injEq, Prod.mk.injEq] at h
        exact absurd (h.1 ▸ write_body_returned hbody) hr
      · rename_i s2 bw2 bl2 hbody
        obtain ⟨b', blk, blk1, bn, m, hbn, hm, hfree, hbn0, hbnlt, hblk, hcpy, rfl, rfl, rfl⟩ :=
          write_body_fresh he hino hlen hpos hbody
        have hal0 : Int.tmod e.position P.BLOCK_SIZE = 0 := by
          rcases hal with h0 | h0 <;> [omega; exact h0]
        rw [hal0] at hm hcpy
        obtain ⟨⟨-, -, hm0, hmblk, hmbuf⟩, hblk1⟩ := memcpy_eq_some hcpy
        rw [min_eq] at hm
        have hmle : m ≤ bl := by omega
        have hmpos : 0 < m := by omega
        have hi0 : 0 ≤ i := (idx_eq_some.1 hino).1
        have hilt : i.toNat < s.inodes.length :=
          (List.getElem?_eq_some.1 (idx_eq_some.1 hino).2).1
        have hfd0 : 0 ≤ fd := (idx_eq_some.1 he).1
        have hfdlt : fd.toNat < s.open_file_table.length :=
          (List.getElem?_eq_some.1 (idx_eq_some.1 he).2).1
        have hb'lt : b' < s.data_blocks.length := (List.getElem?_eq_some.1 hblk).1
        have hb'bm : b' < s.data_bitmap.length :=
          (List.getElem?_eq_some.1 (find_free_spec hfree)).1
        -- the state after the pass
        have he2 : idx (s.open_file_table.set fd.toNat { e with position := e.position + m }) fd
            = some { e with position := e.position + m } := by simp [idx, hfd0, hfdlt]
        have hino2 : idx (s.inodes.set i.toNat { ino with block := ino.block.set bn.toNat b' }) i
            = some { ino with block := ino.block.set bn.toNat b' } := by simp [idx, hi0, hilt]
        have hnext : bl - m = 0 ∨ Int.tmod (e.position + m) P.BLOCK_SIZE = 0 := by
          rcases eq_or_lt_of_le hmle with h0 | h0
          · left; omega
          · right
            have hmB : m = P.BLOCK_SIZE := by omega
            rw [hmB, Int.tmod_eq_emod (by omega) (by omega), Int.add_emod_self,
              ← Int.tmod_eq_emod hpos (by omega)]
            exact hal0
        obtain ⟨ino1, hino1, hread⟩ := ih _ (bw + m) (bl - m) r s1
          { e with position := e.position + m }
          { ino with block := ino.block.set bn.toNat b' } he2 hino2 hlen
          (by simpa using hshape) (by simp only; omega) (by omega) (by omega) hnext h hr
        have hp_eq : e.position = bn * P.BLOCK_SIZE := by
          rw [hbn, Int.tdiv_eq_ediv hpos (by omega)]
          rw [Int.tmod_eq_emod hpos (by omega)] at hal0
          exact (Int.ediv_mul_cancel (Int.dvd_of_emod_eq_zero hal0)).symm
        obtain ⟨⟨ino1', hino1', hslot⟩, hdata⟩ := write_loop_keeps hP fuel _ (bw + m) (bl - m) r s1
          { e with position := e.position + m }
          { ino with block := ino.block.set bn.toNat b' } bn.toNat b' 1 he2 hino2 hlen
          (by simp only; omega) (by omega)
          (by
            simp only
            rcases eq_or_lt_of_le hmle with h0 | h0
            · left; omega
            · right
              have hmB : m = P.BLOCK_SIZE := by omega
              rw [Int.toNat_of_nonneg hbn0, hp_eq, hmB]
              linarith [add_mul bn 1 (P.BLOCK_SIZE : Int)])
          (by simp [hbnlt]) (by simp [hb'bm]) (by decide) h hr
        rw [hino1] at hino1'; obtain rfl := Option.some.inj hino1'
        simp only [List.getElem?_set_self hb'lt] at hdata
        refine ⟨ino1, hino1, ?_⟩
        intro rf c o hrf hc hco
        cases rf with
        | zero => omega
        | succ rf =>
          rw [read_loop]
          have hcond : bl > 0 ∧ Int.tdiv e.position P.BLOCK_SIZE < P.NUM_POINTER := by
            refine ⟨hblpos, ?_⟩
            rw [← hbn]; omega
          have hidx : idx ino1.block (Int.tdiv e.position P.BLOCK_SIZE) = some (b' : Int) := by
            rw [← hbn]; simp [idx, hbn0, hslot]
          have hne : ¬ ((b' : Int) = -1) := by omega
          have hblk' : idx s1.data_blocks (b' : Int) = some blk1 := by
            simp [idx, hdata]
          have hblk1len : blk1.length = blk.length := by
            rw [hblk1]
            simp only [List.length_append, List.length_take, List.length_drop]
            omega
          have hcpy2 := @memcpy_of_bounds o blk1 c 0 m
            ⟨hc, le_refl _, hm0, by omega, by omega⟩
          rw [if_pos hcond, hidx]
          simp only [hne, if_false, hblk', hal0, min_eq, ← hm, hcpy2]
          have hbn' := next_block_num hP hpos hal0 hblpos hm
          rw [hbn', hread rf (c + m) _ (by omega) (by omega)
            (by simp only [List.length_append, List.length_take, List.length_drop]; omega)]
          have e1 : e.position + m + (bl - m) = e.position + bl := by omega
          have e2 : c + m + (bl - m) = c + bl := by omega
          rw [hblk1]
          have hsp := splice_chain o (buf.drop bw.toNat) (blk.drop ((0 : Int).toNat + m.toNat))
            c.toNat m.toNat (bl - m).toNat (by omega)
            (by simp only [List.length_drop]; omega)
          simp only [Option.some.injEq, Prod.mk.injEq]
          refine ⟨by omega, by omega, ?_⟩
          have t1 : (c + m).toNat = c.toNat + m.toNat := Int.toNat_add hc hm0
          have t2 : (bw + m).toNat = bw.toNat + m.toNat := Int.toNat_add hbw hm0
          have t3 : m.toNat + (bl - m).toNat = bl.toNat := by omega
          have t4 : buf.drop (bw.toNat + m.toNat) = (buf.drop bw.toNat).drop m.toNat :=
            (List.drop_drop _ _ _).symm
          simp only [t1, t2, t4, Int.toNat_zero, List.take_zero, List.nil_append] at hsp ⊢
          rw [hsp, t3]
    · rename_i hblpos
      have hbl0 : bl = 0 := by omega
      subst hbl0
      split at h
      · simp at h
      · rename_i ino' hino'
        rw [hino] at hino'; obtain rfl := Option.some.inj hino'
        split at h
        · simp at h
        · rename_i inodes1 hupd
          simp only [Option.some.injEq, Prod.mk.injEq] at h
          obtain ⟨rfl, rfl⟩ := h
          refine ⟨_, idx_upd_same hupd, ?_⟩
          intro rf c o hrf hc hco
          cases rf with
          | zero => omega
          | succ rf =>
            rw [read_loop]
            simp

/-! ## The sample states are states of a real session -/

theorem st_init_reached (s : State) :
    RSFS_init cfg { s with open_file_table := [entry_zero, entry_zero], next_addr := 0 }
      [[0, 0, 0, 0], [0, 0, 0, 0], [0, 0, 0, 0], [0, 0, 0, 0]] = (0, st_init) := by
  rfl

theorem st_written_reached :
    RSFS_create st_init "a" = some (0, st_created) ∧
    RSFS_open cfg st_created (some "a") cfg.RSFS_RDWR = some (0, st_opened) ∧
    RSFS_write cfg st_opened 0 [1, 2, 3, 4, 5] 5 = some (5, st_written) := by
  decide

theorem st_at_reached (pos : Int) :
    RSFS_fseek cfg st_written 0 pos cfg.RSFS_SEEK_SET = some (pos, st_at pos) := by
  rfl

theorem deref_of_root_dir_eq {s s1 : State} (h : s1.root_dir = s.root_dir) (p : Option Nat) :
    deref s1 p = deref s p := by
  unfold deref; rw [h]

/-- The state `st_opened` is reachable. -/
theorem st_opened_reachable : Reachable cfg st_opened :=
  Reachable.by_open st_created (some "a") cfg.RSFS_RDWR 0 st_opened
    (Reachable.by_create st_init "a" 0 st_created
      (Reachable.by_init st_init [[0, 0, 0, 0], [0, 0, 0, 0], [0, 0, 0, 0], [0, 0, 0, 0]]
        st_init (by decide))
      (by decide))
    (by decide)

/-- The state `st_written` is reachable. -/
theorem st_written_reachable : Reachable cfg st_written :=
  Reachable.by_write st_opened 0 [1, 2, 3, 4, 5] 5 5 st_written st_opened_reachable (by decide)

/-! ## What `RSFS_read` can deliver -/

/-- The call `memcpy` leaves the destination behind the copied range as it
is. -/
theorem memcpy_drop {dst src out : List Byte} {doff soff n : Int}
    (h : memcpy dst doff src soff n = some out) (k : Nat) (hk : doff + n ≤ k) :
    out.drop k = dst.drop k := by
  obtain ⟨⟨h1, h2, h3, h4, h5⟩, rfl⟩ := memcpy_eq_some h
  have hX : ((src.drop soff.toNat).take n.toNat).length = n.toNat := by
    rw [List.length_take, List.length_drop]; omega
  have hT : (dst.take doff.toNat).length = doff.toNat := by
    rw [List.length_take]; omega
  rw [List.drop_append_eq_append_drop, List.drop_append_eq_append_drop,
    List.drop_eq_nil_of_le (by omega), List.drop_eq_nil_of_le (by omega), List.nil_append,
    List.nil_append, List.drop_drop, hT, hX]
  congr 1
  omega

/-- The loop of `RSFS_read`, started inside the block array with the block
index and the offset of a cursor that is not negative, never moves the cursor
beyond `NUM_POINTER * BLOCK_SIZE`; the cursor moves by `bytes_read`, and the
caller's buffer is untouched behind the bytes read. -/
theorem read_loop_bound {P : Params} (hP : 0 < P.BLOCK_SIZE) (D : List (List Byte))
    (ino : inode) (fuel : Nat) :
    ∀ (pos bytes bn off br : Int) (buf : List Byte) (pos1 br1 : Int) (buf1 : List Byte),
      0 ≤ bn → 0 ≤ off → off < P.BLOCK_SIZE → pos = bn * P.BLOCK_SIZE + off → 0 ≤ br →
      pos ≤ (P.NUM_POINTER : Int) * P.BLOCK_SIZE →
      read_loop P D ino fuel pos bytes bn off br buf = some (pos1, br1, buf1) →
      pos1 ≤ (P.NUM_POINTER : Int) * P.BLOCK_SIZE ∧ pos1 - pos = br1 - br ∧ br ≤ br1 ∧
      buf1.drop br1.toNat = buf.drop br1.toNat := by
  induction fuel with
  | zero => intro pos bytes bn off br buf pos1 br1 buf1 _ _ _ _ _ _ h; simp [read_loop] at h
  | succ fuel ih =>
    intro pos bytes bn off br buf pos1 br1 buf1 hbn hoff hofflt hpos hbr hle h
    unfold read_loop at h
    split at h
    · rename_i hc
      split at h
      · simp at h
      · rename_i b hb
        by_cases hb1 : b = -1
        · rw [if_pos hb1] at h
          simp only [Option.some.injEq, Prod.mk.injEq] at h
          obtain ⟨rfl, rfl, rfl⟩ := h
          exact ⟨hle, by omega, le_refl _, rfl⟩
        · rw [if_neg hb1] at h
          dsimp only at h
          split at h
          · simp at h
          · rename_i blk hblk
            split at h
            · simp at h
            · rename_i buf2 hcpy
              have hm := (memcpy_eq_some hcpy).1
              rw [min_eq] at hm hcpy h
              generalize hmdef : Min.min ((P.BLOCK_SIZE : Int) - off) bytes = m at hm hcpy h
              have hm0 : 0 < m := by omega
              have hmle : off + m ≤ P.BLOCK_SIZE := by omega
              have hB : (0 : Int) < P.BLOCK_SIZE := by exact_mod_cast hP
              have hmul : (bn + 1) * (P.BLOCK_SIZE : Int) ≤ (P.NUM_POINTER : Int) * P.BLOCK_SIZE :=
                Int.mul_le_mul_of_nonneg_right (by omega) (le_of_lt hB)
              have hbnB : 0 ≤ bn * (P.BLOCK_SIZE : Int) := Int.mul_nonneg hbn (le_of_lt hB)
              have hpos1 : pos + m = bn * (P.BLOCK_SIZE : Int) + (off + m) := by omega
              have htmod : Int.tmod (pos + m) P.BLOCK_SIZE = (off + m) % (P.BLOCK_SIZE : Int) := by
                rw [Int.tmod_eq_emod (by omega) (by omega), hpos1, Int.add_emod,
                  Int.mul_emod_left, zero_add, Int.emod_emod_of_dvd _ (dvd_refl _)]
              rcases eq_or_lt_of_le hmle with heq | hlt
              · have h0 : Int.tmod (pos + m) P.BLOCK_SIZE = 0 := by
                  rw [htmod, heq, Int.emod_self]
                rw [h0, if_pos rfl] at h
                obtain ⟨i1, i2, i3, i4⟩ := ih (pos + m) (bytes - m) (bn + 1) 0 (br + m) buf2
                  pos1 br1 buf1 (by omega) (le_refl _) hB
                  (by rw [hpos1, heq]; ring) (by omega)
                  (by rw [hpos1, heq]; linarith [hmul, add_mul bn 1 (P.BLOCK_SIZE : Int)]) h
                refine ⟨i1, by omega, by omega, ?_⟩
                rw [i4]
                exact memcpy_drop hcpy _ (by omega)
              · have h1 : Int.tmod (pos + m) P.BLOCK_SIZE = off + m := by
                  rw [htmod, Int.emod_eq_of_lt (by omega) hlt]
                rw [h1, if_neg (by omega)] at h
                obtain ⟨i1, i2, i3, i4⟩ := ih (pos + m) (bytes - m) bn (off + m) (br + m) buf2
                  pos1 br1 buf1 hbn (by omega) hlt hpos1 (by omega)
                  (by rw [hpos1]; linarith [hmul, add_mul bn 1 (P.BLOCK_SIZE : Int)]) h
                refine ⟨i1, by omega, by omega, ?_⟩
                rw [i4]
                exact memcpy_drop hcpy _ (by omega)
    · simp only [Option.some.injEq, Prod.mk.injEq] at h
      obtain ⟨rfl, rfl, rfl⟩ := h
      exact ⟨hle, by omega, le_refl _, rfl⟩

/-- From the cursor 0, `RSFS_read` moves the cursor to at most
`NUM_POINTER * BLOCK_SIZE` and leaves the caller's buffer as it was from that
index on: no more bytes than the block array can address are delivered. -/
theorem RSFS_read_capacity {P : Params} (hP : 0 < P.BLOCK_SIZE) {s s1 : State}
    {fd size r : Int} {out out1 : List Byte} {e : open_file_entry}
    (he : idx s.open_file_table fd = some e) (hcur : e.position = 0)
    (h : RSFS_read P s fd out size = some (r, out1, s1)) :
    out1.drop (P.NUM_POINTER * P.BLOCK_SIZE) = out.drop (P.NUM_POINTER * P.BLOCK_SIZE) ∧
    ∃ p : Int, idx s1.open_file_table fd = some { e with position := p } ∧
      p ≤ (P.NUM_POINTER * P.BLOCK_SIZE : Nat) := by
  have hsame : idx s.open_file_table fd = some { e with position := 0 } := by
    rw [he, ← hcur]
  unfold RSFS_read at h
  split at h
  · simp only [Option.some.injEq, Prod.mk.injEq] at h
    obtain ⟨-, rfl, rfl⟩ := h
    exact ⟨rfl, 0, hsame, by omega⟩
  · split at h
    · simp only [Option.some.injEq, Prod.mk.injEq] at h
      obtain ⟨-, rfl, rfl⟩ := h
      exact ⟨rfl, 0, hsame, by omega⟩
    · rw [he] at h
      simp only at h
      split at h
      · simp at h
      · split at h
        · simp at h
        · rename_i de hde ino hino
          split at h
          · simp at h
          · rename_i pos1 br1 buf1 hloop
            split at h
            · simp at h
            · rename_i table1 hupd
              simp only [Option.some.injEq, Prod.mk.injEq] at h
              obtain ⟨-, rfl, rfl⟩ := h
              rw [hcur] at hloop
              obtain ⟨i1, i2, i3, i4⟩ := read_loop_bound hP s.data_blocks ino _ 0 size 0 0 0 out
                pos1 br1 buf1 (le_refl _) (le_refl _) (by exact_mod_cast hP) (by simp)
                (le_refl _) (by positivity) (by simpa using hloop)
              have hcast : ((P.NUM_POINTER * P.BLOCK_SIZE : Nat) : Int) =
                  (P.NUM_POINTER : Int) * P.BLOCK_SIZE := by push_cast; rfl
              refine ⟨?_, pos1, idx_upd_same hupd, by rw [hcast]; exact i1⟩
              have hk : P.NUM_POINTER * P.BLOCK_SIZE =
                  br1.toNat + (P.NUM_POINTER * P.BLOCK_SIZE - br1.toNat) := by
                have : br1 ≤ (P.NUM_POINTER * P.BLOCK_SIZE : Nat) := by rw [hcast]; omega
                omega
              rw [hk, ← List.drop_drop, ← List.drop_drop, i4]

/-! ## The claims about `RSFS_read` and `RSFS_write` -/

/-- The round trip of a write that has a defined result.  On a descriptor
`fd` whose cursor is 0 and whose file has length 0, if `RSFS_write(fd, buf, n)`
with `0 < n ≤ INT_MAX` has a defined result other than `-1`, then
`RSFS_fseek(fd, 0, RSFS_SEEK_SET)` returns 0 and `RSFS_read(fd, out, n)`
returns `n` and puts the first `n` bytes of `buf` into the first `n` bytes of
`out`.  (A write of more than `NUM_POINTER * BLOCK_SIZE` bytes from the
cursor 0 leaves the block array, see the next theorem.) -/
theorem write_read_roundtrip (P : Params) (s s1 : State) (fd : Int) (buf out : List Byte)
    (n r : Int) (e : open_file_entry) (de : dir_entry) (ino : inode)
    (hP : 0 < P.BLOCK_SIZE) (hshape : Shape P s)
    (he : idx s.open_file_table fd = some e) (hde : deref s e.dir_entry = some de)
    (hino : idx s.inodes de.inode_number = some ino)
    (hcur : e.position = 0) (hlen : ino.length = 0) (hn : 0 < n) (hmax : n ≤ INT_MAX)
    (hout : n ≤ out.length)
    (hw : RSFS_write P s fd buf n = some (r, s1)) (hr : r ≠ -1) :
    ∃ s2 s3, RSFS_fseek P s1 fd 0 P.RSFS_SEEK_SET = some (0, s2) ∧
      RSFS_read P s2 fd out n = some (n, buf.take n.toNat ++ out.drop n.toNat, s3) := by
  unfold RSFS_write at hw
  split at hw
  · simp only [Option.some.injEq, Prod.mk.injEq] at hw
    exact absurd hw.1.symm hr
  · rename_i hfd
    rw [he] at hw
    simp only [hde] at hw
    have hblock : ino.block.length ≤ P.NUM_POINTER := by
      have hmem : ino ∈ s.inodes := List.getElem?_mem (idx_eq_some.1 hino).2
      exact le_of_eq (hshape.2.2.2.2.2.1 ino hmem)
    obtain ⟨hrn, hdir, he1, ino0, ino1, hino0, hino1, hlen1⟩ :=
      write_loop_result _ s 0 n r s1 e (le_refl _) (le_of_lt hn) he hw hr
    rw [hino] at hino0; obtain rfl := Option.some.inj hino0
    obtain ⟨ino1', hino1', hread⟩ := write_then_read_loop hP _ s 0 n r s1 e ino he hino hlen
      hblock (by omega) (le_of_lt hn) (le_refl _) (Or.inr (by rw [hcur]; simp)) hw hr
    rw [hino1] at hino1'; obtain rfl := Option.some.inj hino1'
    have hfd0 : 0 ≤ fd := (idx_eq_some.1 he).1
    have hfdlt : fd.toNat < s1.open_file_table.length :=
      (List.getElem?_eq_some.1 (idx_eq_some.1 he1).2).1
    have hfd' : ¬ (fd < 0 ∨ fd ≥ P.NUM_OPEN_FILE) := by omega
    have hde1 : deref s1 e.dir_entry = some de := by rw [deref_of_root_dir_eq hdir, hde]
    have hrd := hread (n.toNat + 1) 0 out (by omega) (le_refl _) (by omega)
    rw [hcur] at hrd
    let e2 : open_file_entry := { e with position := 0 }
    let e3 : open_file_entry := { e with position := 0 + n }
    let table2 := s1.open_file_table.set fd.toNat e2
    refine ⟨{ s1 with open_file_table := table2 },
      { s1 with open_file_table := table2.set fd.toNat e3 }, ?_, ?_⟩
    · unfold RSFS_fseek
      simp [hfd', he1, hde1, upd, hfd0, hfdlt, table2, e2]
    · unfold RSFS_read
      have hn' : ¬ n ≤ 0 := by omega
      have he2 : idx table2 fd = some e2 := by simp [table2, idx, hfd0, hfdlt]
      have hde2 : deref { s1 with open_file_table := table2 } e.dir_entry = some de := by
        rw [← hde1]; exact deref_of_root_dir_eq rfl _
      rw [if_neg hfd', if_neg hn']
      simp only [he2, hde2, hino1, hrd]
      have hmin : INT_MIN ≤ ino.length + (0 + n) := by unfold INT_MIN; omega
      have hl : ino1.length = n := by rw [hlen1, int_add_eq hmin (by omega)]; omega
      simp [upd, hfd0, hfdlt, hl, table2, e2, e3]

/-- C1 (the code at the failing input): `RSFS_write(0, buf, 9)` on the
fresh file, with 2 block pointers of 4 bytes.  The write does not return
`-1`: its third pass assigns `inode->block[2]`, outside the block array, and
the call has no defined result.  Whatever state that leaves,
`RSFS_read(0, out, 9)` from the cursor 0 moves the cursor to at most 8 and
leaves `out` as it was from its ninth byte on, because the loop of
`RSFS_read` stops at `block_num < NUM_POINTER`.  Read from the file that
holds the first 8 bytes, it delivers those 8 bytes and leaves the ninth byte
of `out`. -/
theorem C1_roundtrip_past_capacity :
    Reachable cfg st_opened ∧
    RSFS_write cfg st_opened 0 nine_bytes 9 = none ∧
    (∀ (s s1 : State) (e : open_file_entry) (out out1 : List Byte) (r : Int),
      idx s.open_file_table 0 = some e → e.position = 0 →
      RSFS_read cfg s 0 out 9 = some (r, out1, s1) →
      out1.drop 8 = out.drop 8 ∧
      ∃ p : Int, idx s1.open_file_table 0 = some { e with position := p } ∧ p ≤ 8) ∧
    RSFS_write cfg st_opened 0 eight_bytes 8 = some (8, st_full) ∧
    RSFS_fseek cfg st_full 0 0 cfg.RSFS_SEEK_SET =
      some (0, with_entry st_full 0
        { used := 1, dir_entry := some 0, position := 0, access_flag := 1 }) ∧
    RSFS_read cfg (with_entry st_full 0
        { used := 1, dir_entry := some 0, position := 0, access_flag := 1 }) 0
        [0, 0, 0, 0, 0, 0, 0, 0, 0] 9 =
      some (8, [1, 2, 3, 4, 5, 6, 7, 8, 0], st_full) := by
  refine ⟨st_opened_reachable, by decide, ?_, by decide, by decide, by decide⟩
  intro s s1 e out out1 r he hcur h
  obtain ⟨h1, p, h2, h3⟩ := RSFS_read_capacity (P := cfg) (by decide) he hcur h
  exact ⟨h1, p, h2, h3⟩

/-- C2 (the code at the failing input): on the file of length 5 with the
cursor at 0, `RSFS_read(fd, buf, 2)` copies 2 bytes and moves the cursor from
0 to 2, but returns 5, the length of the file. -/
theorem C2_read_returns_file_length :
    RSFS_read cfg (st_at 0) 0 [9, 9, 9, 9, 9] 2 = some (5, [1, 2, 9, 9, 9], st_at 2) := by
  decide

/-- C3 (the code at the failing inputs): on the file of length 5,
`RSFS_read(fd, buf, 1)` with the cursor at 5 returns 5 (and copies one byte
from beyond the end of the file, moving the cursor to 6); with the cursor at
8 it copies nothing and still returns 5, not 0. -/
theorem C3_read_at_end_returns_file_length :
    RSFS_read cfg (st_at 5) 0 [9] 1 = some (5, [0], st_at 6) ∧
    RSFS_read cfg (st_at 8) 0 [9] 1 = some (5, [9], st_at 8) := by
  decide

/-- C4 (the code at the failing input): on the file of length 5 with the
cursor at 0, `RSFS_read(fd, buf, 8)` copies 8 bytes, the last three from
beyond the end of the file, and leaves the cursor at 8. -/
theorem C4_read_runs_past_end :
    RSFS_read cfg (st_at 0) 0 [9, 9, 9, 9, 9, 9, 9, 9] 8 =
      some (5, [1, 2, 3, 4, 5, 0, 0, 0], st_at 8) := by
  decide

/-- What a write with a defined result returns.  Whenever
`RSFS_write(fd, buf, size)` on an open descriptor with `size > 0` has a
defined result other than `-1`, it returns `size`, the cursor of the
descriptor has moved forward by `size`, and `size` has been added to the
length of the file's inode, whether or not the bytes written lie inside the
file. -/
theorem RSFS_write_result (P : Params) (s s1 : State) (fd : Int) (buf : List Byte)
    (size r : Int) (e : open_file_entry) (de : dir_entry) (ino : inode)
    (he : idx s.open_file_table fd = some e) (hde : deref s e.dir_entry = some de)
    (hino : idx s.inodes de.inode_number = some ino) (hsize : 0 < size)
    (hw : RSFS_write P s fd buf size = some (r, s1)) (hr : r ≠ -1) :
    r = size ∧
    idx s1.open_file_table fd = some { e with position := e.position + size } ∧
    ∃ ino1, idx s1.inodes de.inode_number = some ino1 ∧
      ino1.length = int_add ino.length size := by
  unfold RSFS_write at hw
  split at hw
  · simp only [Option.some.injEq, Prod.mk.injEq] at hw
    exact absurd hw.1.symm hr
  · rw [he] at hw
    simp only [hde] at hw
    obtain ⟨hrn, -, he1, ino0, ino1, hino0, hino1, hlen1⟩ :=
      write_loop_result _ s 0 size r s1 e (le_refl _) (le_of_lt hsize) he hw hr
    rw [hino] at hino0; obtain rfl := Option.some.inj hino0
    exact ⟨by omega, he1, ino1, hino1, by rw [hlen1, zero_add]⟩

/-- C5 (the code at the failing inputs): with 2 block pointers of 4
bytes, `RSFS_write(0, buf, 8)` on the fresh file returns 8 and leaves the
cursor and the length at 8.  The next `RSFS_write(0, buf, 1)` computes the
block index 8 / 4 = 2 = `NUM_POINTER`; the cursor is not beyond the length,
so nothing is allocated and the pass reads `inode->block[2]`, outside the
block array: the call has no defined result, it neither returns `-1` nor
adds 1 to the length.  The same holds at the cursor 8 of the file of length
5, where the pass assigns `inode->block[2]`. -/
theorem C5_write_past_block_array :
    RSFS_write cfg st_opened 0 eight_bytes 8 = some (8, st_full) ∧
    Reachable cfg st_full ∧
    idx st_full.open_file_table 0 =
      some { used := 1, dir_entry := some 0, position := 8, access_flag := 1 } ∧
    idx st_full.inodes 0 = some { length := 8, block := [0, 1] } ∧
    Int.tdiv 8 cfg.BLOCK_SIZE = (cfg.NUM_POINTER : Int) ∧
    idx [(0 : Int), 1] (Int.tdiv 8 cfg.BLOCK_SIZE) = none ∧
    write_body cfg 0 0 [9] st_full 0 1 = none ∧
    RSFS_write cfg st_full 0 [9] 1 = none ∧
    RSFS_write cfg (st_at 8) 0 [9] 1 = none := by
  refine ⟨by decide, ?_, by decide, by decide, by decide, by decide, by decide, by decide,
    by decide⟩
  exact Reachable.by_write st_opened 0 eight_bytes 8 8 st_full st_opened_reachable (by decide)

/-- C6 (the code at the failing input): create `"a"`, open it, write one
byte, seek to 0, write one byte again, close, delete.  Every call succeeds;
the second write at cursor 0 binds a new block over the first one, which
`RSFS_delete` then cannot free: one data block stays marked used, where none
was before the create. -/
theorem C6_delete_leaves_block_used :
    ∃ s1 s2 s3 s4 s5 s6 s7,
      RSFS_create st_init "a" = some (0, s1) ∧
      RSFS_open cfg s1 (some "a") cfg.RSFS_RDWR = some (0, s2) ∧
      RSFS_write cfg s2 0 [1] 1 = some (1, s3) ∧
      RSFS_fseek cfg s3 0 0 cfg.RSFS_SEEK_SET = some (0, s4) ∧
      RSFS_write cfg s4 0 [2] 1 = some (1, s5) ∧
      RSFS_close cfg s5 0 = some (0, s6) ∧
      RSFS_delete cfg s6 (some "a") = some (0, s7) ∧
      db_used st_init = 0 ∧ db_used s7 = 1 ∧
      s7.data_bitmap = [1, 0, 0, 0] ∧ inodes_used s7 = inodes_used st_init :=
  ⟨_, _, _, _, _, _, _, rfl, rfl, rfl, rfl, rfl, rfl, rfl, by decide, by decide, by decide,
    by decide⟩

/-! ## `RSFS_delete` -/

/-- The loop of `RSFS_delete` over the slots `i, …, i + k - 1` of an inode
whose pointers are valid: it ends, clears the bitmap entry of every block
bound in those slots, keeps the entries that are 0, and touches nothing but
the data bitmap and this inode. -/
theorem delete_blocks_spec (n : Int) : ∀ (k i : Nat) (s : State) (ino : inode),
    idx s.inodes n = some ino → i + k ≤ ino.block.length →
    (∀ b ∈ ino.block, b = -1 ∨ (0 ≤ b ∧ b.toNat < s.data_bitmap.length)) →
    ∃ s1, delete_blocks n k i s = some s1 ∧
      s1.data_blocks = s.data_blocks ∧ s1.inode_bitmap = s.inode_bitmap ∧
      s1.open_file_table = s.open_file_table ∧ s1.root_dir = s.root_dir ∧
      s1.next_addr = s.next_addr ∧ s1.inodes.length = s.inodes.length ∧
      (∀ j, j ≠ n → idx s1.inodes j = idx s.inodes j) ∧
      s1.data_bitmap.length = s.data_bitmap.length ∧
      (∀ b, idx s.data_bitmap b = some 0 → idx s1.data_bitmap b = some 0) ∧
      (∀ (j : Nat) (b : Int), i ≤ j → j < i + k → ino.block[j]? = some b → b ≠ -1 →
        idx s1.data_bitmap b = some 0) := by
  intro k
  induction k with
  | zero =>
    intro i s ino _ _ _
    exact ⟨s, rfl, rfl, rfl, rfl, rfl, rfl, rfl, fun _ _ => rfl, rfl, fun _ h => h,
      fun j b h1 h2 => by omega⟩
  | succ k ih =>
    intro i s ino hino hlen hvalid
    have hi : i < ino.block.length := by omega
    have hn0 : 0 ≤ n := (idx_eq_some.1 hino).1
    have hnlt : n.toNat < s.inodes.length :=
      (List.getElem?_eq_some.1 (idx_eq_some.1 hino).2).1
    unfold delete_blocks
    simp only [hino, List.getElem?_eq_getElem hi]
    by_cases hb : ino.block[i] = -1
    · rw [if_neg (by simpa using hb)]
      obtain ⟨s1, h1, h2, h3, h4, h5, h6, h7, h8, h9, h10, h11⟩ := ih (i + 1) s ino hino
        (by omega) hvalid
      refine ⟨s1, h1, h2, h3, h4, h5, h6, h7, h8, h9, h10, ?_⟩
      intro j b hj1 hj2 hjb hbne
      rcases Nat.eq_or_lt_of_le hj1 with h | h
      · subst h
        rw [List.getElem?_eq_getElem hi] at hjb
        exact absurd ((Option.some.inj hjb).symm.trans hb) hbne
      · exact h11 j b (by omega) (by omega) hjb hbne
    · rw [if_pos hb]
      have hbv := hvalid _ (List.getElem_mem hi)
      rcases hbv with hbv | ⟨hb0, hblt⟩
      · exact absurd hbv hb
      · have hfree : free_data_block s ino.block[i] =
            some { s with data_bitmap := s.data_bitmap.set ino.block[i].toNat 0 } := by
          simp [free_data_block, upd, hb0, hblt]
        simp only [hfree]
        have hupd : upd s.inodes n { ino with block := ino.block.set i (-1) } =
            some (s.inodes.set n.toNat { ino with block := ino.block.set i (-1) }) := by
          simp [upd, hn0, hnlt]
        simp only [hupd]
        obtain ⟨s1, h1, h2, h3, h4, h5, h6, h7, h8, h9, h10, h11⟩ := ih (i + 1)
          { s with data_bitmap := s.data_bitmap.set ino.block[i].toNat 0,
                   inodes := s.inodes.set n.toNat { ino with block := ino.block.set i (-1) } }
          { ino with block := ino.block.set i (-1) }
          (by simp [idx, hn0, hnlt]) (by simp only [List.length_set]; omega)
          (by
            intro b hbmem
            simp only [List.length_set]
            rcases List.mem_or_eq_of_mem_set hbmem with h | h
            · exact hvalid b h
            · exact Or.inl h)
        simp only [List.length_set] at h7 h9
        refine ⟨s1, h1, h2, h3, h4, h5, h6, h7, ?_, h9, ?_, ?_⟩
        · intro j hj
          rw [h8 j hj]
          simp only
          exact idx_upd_ne hupd hj
        · intro b hb0'
          apply h10
          simp only
          by_cases hbb : b = ino.block[i]
          · subst hbb; simp [idx, hb0, hblt]
          · have : upd s.data_bitmap ino.block[i] 0 =
                some (s.data_bitmap.set ino.block[i].toNat 0) := by simp [upd, hb0, hblt]
            rw [idx_upd_ne this hbb]; exact hb0'
        · intro j b hj1 hj2 hjb hbne
          rcases Nat.eq_or_lt_of_le hj1 with h | h
          · subst h
            rw [List.getElem?_eq_getElem hi] at hjb
            obtain rfl := Option.some.inj hjb
            apply h10
            simp [idx, hb0, hblt]
          · apply h11 j b (by omega) (by omega) _ hbne
            simp only
            rw [List.getElem?_set_ne (by omega)]
            exact hjb

/-! ## The directory -/

theorem search_dir_some {s : State} {name : String} {de : dir_entry}
    (h : search_dir s name = some de) : de ∈ s.root_dir ∧ de.name = name := by
  unfold search_dir at h
  exact ⟨List.mem_of_find?_eq_some h, by simpa using List.find?_some h⟩

theorem search_dir_none {s : State} {name : String} :
    search_dir s name = none ↔ ∀ e ∈ s.root_dir, e.name ≠ name := by
  unfold search_dir
  simp [List.find?_eq_none]

/-- Removing the name from a directory with distinct names, after an update
`f` of nodes that keeps the names and changes at most the nodes of that name,
leaves exactly the nodes with another name. -/
theorem remove_name_map (name : String) (f : dir_entry → dir_entry) :
    ∀ (l : List dir_entry), (l.map (fun e => e.name)).Nodup →
      (∀ e, (f e).name = e.name) → (∀ e ∈ l, e.name ≠ name → f e = e) →
      remove_name name (l.map f) = l.filter (fun e => e.name != name) := by
  intro l
  induction l with
  | nil => intro _ _ _; rfl
  | cons e es ih =>
    intro hnd hname hf
    simp only [List.map_cons, List.nodup_cons, List.mem_map, not_exists, not_and] at hnd
    simp only [List.map_cons, remove_name, hname]
    by_cases he : e.name = name
    · rw [if_pos he]
      have hes : ∀ x ∈ es, x.name ≠ name := fun x hx hxn => hnd.1 x hx (hxn.trans he.symm)
      have h1 : es.map f = es := by
        rw [List.map_congr_left (g := id) (fun x hx =>
          hf x (List.mem_cons_of_mem _ hx) (hes x hx)), List.map_id]
      rw [h1, List.filter_cons_of_neg (by simpa using he)]
      exact (List.filter_eq_self.2 (fun x hx => by simpa using hes x hx)).symm
    · rw [if_neg he, List.filter_cons_of_pos (by simpa using he),
        hf e (List.mem_cons_self _ _) he,
        ih hnd.2 hname (fun x hx => hf x (List.mem_cons_of_mem _ hx))]

/-- C7: when `name` has a directory entry bound to a valid inode,
`RSFS_delete(name)` returns 0; afterwards every data block that was bound in
the inode is marked free, the inode has length 0 and only unused pointers and
is marked free, the directory holds the other entries only (so `name` is not
found and `RSFS_open(name, RSFS_RDONLY)` returns `-1`), and every other inode
is as before. -/
theorem C7_delete_frees_file (P : Params) (s : State) (name : String) (de : dir_entry)
    (ino : inode) (hshape : Shape P s) (hdir : DirOK s)
    (hde : search_dir s name = some de)
    (hino : idx s.inodes de.inode_number = some ino) (hvalid : BlocksValid P ino) :
    ∃ s1, RSFS_delete P s (some name) = some (0, s1) ∧
      (∀ b ∈ ino.block, b ≠ -1 → idx s1.data_bitmap b = some 0) ∧
      idx s1.inodes de.inode_number =
        some { length := 0, block := List.replicate P.NUM_POINTER (-1) } ∧
      idx s1.inode_bitmap de.inode_number = some 0 ∧
      search_dir s1 name = none ∧
      RSFS_open P s1 (some name) P.RSFS_RDONLY = some (-1, s1) ∧
      (∀ j, j ≠ de.inode_number → idx s1.inodes j = idx s.inodes j) ∧
      s1.root_dir = s.root_dir.filter (fun e => e.name != name) := by
  obtain ⟨hD, -, hbm, hibm, hinodes, hblocks, -⟩ := hshape
  obtain ⟨hdemem, hdename⟩ := search_dir_some hde
  have hn0 : 0 ≤ de.inode_number := (idx_eq_some.1 hino).1
  have hnlt : de.inode_number.toNat < s.inodes.length :=
    (List.getElem?_eq_some.1 (idx_eq_some.1 hino).2).1
  have hlenb : ino.block.length = P.NUM_POINTER :=
    hblocks ino (List.getElem?_mem (idx_eq_some.1 hino).2)
  obtain ⟨s1, h1, h2, h3, h4, h5, h6, h7, h8, h9, h10, h11⟩ :=
    delete_blocks_spec de.inode_number P.NUM_POINTER 0 s ino hino (by omega)
      (by
        intro b hb
        rcases hvalid b hb with h | ⟨h0, hlt⟩
        · exact Or.inl h
        · right; exact ⟨h0, by omega⟩)
  -- the state after `free_inode`
  have hfree : free_inode P s1 de.inode_number = some { s1 with
      inodes := s1.inodes.set de.inode_number.toNat
        { length := 0, block := List.replicate P.NUM_POINTER (-1) }
      inode_bitmap := s1.inode_bitmap.set de.inode_number.toNat 0 } := by
    have : de.inode_number.toNat < s1.inode_bitmap.length := by rw [h3]; omega
    simp [free_inode, upd, hn0, h7, hnlt, this]
  -- the node is still there when its inode number is reset
  have hderef : ∃ d, s.root_dir.find? (fun e => e.addr == de.addr) = some d := by
    have : (s.root_dir.find? (fun e => e.addr == de.addr)).isSome = true := by
      rw [List.find?_isSome]; exact ⟨de, hdemem, by simp⟩
    exact Option.isSome_iff_exists.1 this
  obtain ⟨d, hd⟩ := hderef
  have hroot := remove_name_map name
    (fun e => if some e.addr = some de.addr then { e with inode_number := -1 } else e)
    s.root_dir hdir.1
    (by intro e; dsimp only; split <;> rfl)
    (by
      intro e he hne
      dsimp only
      split
      · rename_i haddr
        have : e = de := List.inj_on_of_nodup_map hdir.2 he hdemem (by simpa using haddr)
        exact absurd (this ▸ hdename) hne
      · rfl)
  have hrun : RSFS_delete P s (some name) = some (0, delete_dir { s1 with
      inodes := s1.inodes.set de.inode_number.toNat
        { length := 0, block := List.replicate P.NUM_POINTER (-1) }
      inode_bitmap := s1.inode_bitmap.set de.inode_number.toNat 0
      root_dir := s1.root_dir.map
        (fun e => if some e.addr = some de.addr then { e with inode_number := -1 } else e) }
      name) := by
    unfold RSFS_delete
    simp only [hde, h1, hfree, set_inode_number, deref, h5, hd]
  refine ⟨_, hrun, ?_, ?_, ?_, ?_, ?_, ?_, ?_⟩
  · intro b hb hbne
    obtain ⟨j, hj⟩ := List.mem_iff_getElem?.1 hb
    have hjlt : j < ino.block.length := (List.getElem?_eq_some.1 hj).1
    simpa [delete_dir] using h11 j b (Nat.zero_le _) (by omega) hj hbne
  · simp [delete_dir, idx, hn0, h7, hnlt]
  · have : de.inode_number.toNat < s1.inode_bitmap.length := by rw [h3]; omega
    simp [delete_dir, idx, hn0, this]
  · rw [search_dir_none]
    intro e he
    simp only [delete_dir, h5, hroot, List.mem_filter] at he
    simpa using he.2
  · have hnone : search_dir (delete_dir { s1 with
        inodes := s1.inodes.set de.inode_number.toNat
          { length := 0, block := List.replicate P.NUM_POINTER (-1) }
        inode_bitmap := s1.inode_bitmap.set de.inode_number.toNat 0
        root_dir := s1.root_dir.map
          (fun e => if some e.addr = some de.addr then { e with inode_number := -1 } else e) }
        name) name = none := by
      rw [search_dir_none]
      intro e he
      simp only [delete_dir, h5, hroot, List.mem_filter] at he
      simpa using he.2
    unfold RSFS_open
    simp only [hnone]
    simp
  · intro j hj
    have hupd : upd s1.inodes de.inode_number
        { length := 0, block := List.replicate P.NUM_POINTER (-1) } =
        some (s1.inodes.set de.inode_number.toNat
          { length := 0, block := List.replicate P.NUM_POINTER (-1) }) := by
      simp [upd, hn0, h7, hnlt]
    simp only [delete_dir]
    rw [idx_upd_ne hupd hj, h8 j hj]
  · simp only [delete_dir, h5, hroot]

/-- C7, at a concrete input: deleting the file `"a"` of `st_written`. -/
theorem C7_delete_frees_file_witness :
    search_dir st_written "a" = some { addr := 0, name := "a", inode_number := 0 } ∧
    ∃ s1, RSFS_delete cfg st_written (some "a") = some (0, s1) ∧
      (∀ b ∈ [(0 : Int), 1], b ≠ -1 → idx s1.data_bitmap b = some 0) ∧
      idx s1.inodes 0 = some { length := 0, block := [-1, -1] } ∧
      idx s1.inode_bitmap 0 = some 0 ∧
      search_dir s1 "a" = none ∧
      RSFS_open cfg s1 (some "a") cfg.RSFS_RDONLY = some (-1, s1) ∧
      (∀ j, j ≠ 0 → idx s1.inodes j = idx st_written.inodes j) ∧
      s1.root_dir = st_written.root_dir.filter (fun e => e.name != "a") :=
  ⟨by decide,
    C7_delete_frees_file cfg st_written "a" { addr := 0, name := "a", inode_number := 0 }
      { length := 5, block := [0, 1] } (by decide) (by decide) (by decide) (by decide)
      (by decide)⟩

/-! ## `RSFS_open` and `RSFS_create` -/

/-- The scan of `RSFS_open` stops at an entry in use on the inode when there
is one among the slots it visits and no entry in use dangles. -/
theorem open_scan_finds {s : State} {ino : Int} (hlive : NoDangling s) :
    ∀ (k i : Nat), i + k ≤ s.open_file_table.length →
      (∃ (j : Nat) (ej : open_file_entry) (dej : dir_entry), i ≤ j ∧ j < i + k ∧
        s.open_file_table[j]? = some ej ∧ ej.used ≠ 0 ∧
        deref s ej.dir_entry = some dej ∧ dej.inode_number = ino) →
      ∃ r : Nat, open_scan s ino k i = some (r : Int) := by
  intro k
  induction k with
  | zero => rintro i _ ⟨j, _, _, h1, h2, _⟩; omega
  | succ k ih =>
    rintro i hlen ⟨j, ej, dej, hij, hjk, hj, hused, hdej, hsame⟩
    have hi : i < s.open_file_table.length := by omega
    unfold open_scan
    simp only [List.getElem?_eq_getElem hi]
    by_cases hu : s.open_file_table[i].used ≠ 0
    · rw [if_pos hu]
      have hsome := hlive _ (List.getElem_mem hi) hu
      obtain ⟨d, hd⟩ := Option.isSome_iff_exists.1 hsome
      simp only [hd]
      by_cases hsm : d.inode_number = ino
      · rw [if_pos hsm]; exact ⟨i, rfl⟩
      · rw [if_neg hsm]
        apply ih (i + 1) (by omega)
        refine ⟨j, ej, dej, ?_, by omega, hj, hused, hdej, hsame⟩
        rcases Nat.eq_or_lt_of_le hij with h | h
        · subst h
          rw [List.getElem?_eq_getElem hi] at hj
          obtain rfl := Option.some.inj hj
          rw [hd] at hdej
          obtain rfl := Option.some.inj hdej
          exact absurd hsame hsm
        · omega
    · rw [if_neg hu]
      apply ih (i + 1) (by omega)
      refine ⟨j, ej, dej, ?_, by omega, hj, hused, hdej, hsame⟩
      rcases Nat.eq_or_lt_of_le hij with h | h
      · subst h
        rw [List.getElem?_eq_getElem hi] at hj
        obtain rfl := Option.some.inj hj
        exact absurd hused hu
      · omega

theorem find_unused_spec {l : List open_file_entry} {k : Nat} (h : find_unused l = some k) :
    k < l.length := by
  induction l generalizing k with
  | nil => simp [find_unused] at h
  | cons x xs ih =>
    unfold find_unused at h
    split at h
    · obtain rfl : 0 = k := by simpa using h
      simp
    · simp only [Option.map_eq_some'] at h
      obtain ⟨a, ha, rfl⟩ := h
      simpa using ih ha

/-- With an opener on the inode of `name` in the table, a read-write open
of `name` returns `-1` and changes nothing. -/
theorem open_rdwr_busy {P : Params} {s : State} {name : String} {de dej : dir_entry}
    {j : Nat} {ej : open_file_entry}
    (hlen : s.open_file_table.length = P.NUM_OPEN_FILE) (hlive : NoDangling s)
    (hde : search_dir s name = some de)
    (hj : s.open_file_table[j]? = some ej) (hused : ej.used ≠ 0)
    (hdej : deref s ej.dir_entry = some dej) (hsame : dej.inode_number = de.inode_number) :
    RSFS_open P s (some name) P.RSFS_RDWR = some (-1, s) := by
  have hjlt : j < s.open_file_table.length := (List.getElem?_eq_some.1 hj).1
  obtain ⟨r, hr⟩ := @open_scan_finds s de.inode_number hlive P.NUM_OPEN_FILE 0 (by omega)
    ⟨j, ej, dej, Nat.zero_le _, by omega, hj, hused, hdej, hsame⟩
  unfold RSFS_open
  simp only [hde, hr]
  have : ¬ ((r : Int) = -1) := by omega
  simp [this]

/-- A read-write open that succeeds has taken the first unused slot for the
directory entry of the name. -/
theorem open_rdwr_success {P : Params} {s s1 : State} {name : String} {de : dir_entry}
    {fd : Int} (hde : search_dir s name = some de)
    (h : RSFS_open P s (some name) P.RSFS_RDWR = some (fd, s1)) (hfd : fd ≠ -1) :
    ∃ k : Nat, find_unused s.open_file_table = some k ∧ fd = k ∧
      s1.open_file_table = s.open_file_table.set k
        { used := 1, dir_entry := some de.addr, position := 0, access_flag := P.RSFS_RDWR } ∧
      s1.root_dir = s.root_dir := by
  unfold RSFS_open at h
  simp only [hde] at h
  split at h
  · simp only [Option.some.injEq, Prod.mk.injEq] at h
    exact absurd h.1.symm hfd
  · simp only [if_true] at h
    split at h
    · simp at h
    · split at h
      · simp only [Option.some.injEq, Prod.mk.injEq] at h
        exact absurd h.1.symm hfd
      · unfold allocate_open_file_entry at h
        split at h
        · simp only [Option.some.injEq, Prod.mk.injEq] at h
          exact absurd h.1.symm hfd
        · rename_i k hk
          simp only [Option.some.injEq, Prod.mk.injEq] at h
          obtain ⟨rfl, rfl⟩ := h
          exact ⟨k, hk, rfl, rfl, rfl⟩

/-- C8: single-writer exclusion.  In a state where no open file entry in
use dangles: when some entry in use references the inode of the directory
entry of `name`, whatever its access flag, `RSFS_open(name, RSFS_RDWR)`
returns `-1` and changes nothing; in particular a second read-write open
after a successful one fails.  An open with `RSFS_RDONLY` does not look at
the openers: its result is that of the slot allocation, a descriptor whenever
a slot is unused. -/
theorem C8_single_writer_exclusion (P : Params) (s : State) (name : String) (de : dir_entry)
    (hshape : Shape P s) (hlive : NoDangling s) (hde : search_dir s name = some de) :
    (∀ (j : Nat) (ej : open_file_entry) (dej : dir_entry),
      s.open_file_table[j]? = some ej → ej.used ≠ 0 → deref s ej.dir_entry = some dej →
      dej.inode_number = de.inode_number →
      RSFS_open P s (some name) P.RSFS_RDWR = some (-1, s)) ∧
    (∀ (fd : Int) (s1 : State), DirOK s →
      RSFS_open P s (some name) P.RSFS_RDWR = some (fd, s1) → fd ≠ -1 →
      RSFS_open P s1 (some name) P.RSFS_RDWR = some (-1, s1)) ∧
    (P.RSFS_RDONLY ≠ P.RSFS_RDWR →
      RSFS_open P s (some name) P.RSFS_RDONLY =
        some (allocate_open_file_entry s P.RSFS_RDONLY de.addr) ∧
      ∀ k, find_unused s.open_file_table = some k →
        ∃ s1, RSFS_open P s (some name) P.RSFS_RDONLY = some ((k : Int), s1)) := by
  have hlen : s.open_file_table.length = P.NUM_OPEN_FILE := hshape.2.2.2.2.2.2
  obtain ⟨hdemem, -⟩ := search_dir_some hde
  refine ⟨?_, ?_, ?_⟩
  · intro j ej dej hj hused hdej hsame
    exact open_rdwr_busy hlen hlive hde hj hused hdej hsame
  · intro fd s1 hdir hopen hfd
    obtain ⟨k, hk, -, htable, hroot⟩ := open_rdwr_success hde hopen hfd
    have hklt := find_unused_spec hk
    have hderef : ∀ p, deref s1 p = deref s p := deref_of_root_dir_eq hroot
    have hde1 : search_dir s1 name = some de := by
      unfold search_dir at hde ⊢; rw [hroot]; exact hde
    have hnode : deref s1 (some de.addr) = some de := by
      rw [hderef]
      have hsome : (s.root_dir.find? (fun e => e.addr == de.addr)).isSome = true := by
        rw [List.find?_isSome]; exact ⟨de, hdemem, by simp⟩
      obtain ⟨d, hd⟩ := Option.isSome_iff_exists.1 hsome
      have hdaddr : d.addr = de.addr := by simpa using List.find?_some hd
      have : d = de :=
        List.inj_on_of_nodup_map hdir.2 (List.mem_of_find?_eq_some hd) hdemem hdaddr
      simp only [deref, hd, this]
    have hlive1 : NoDangling s1 := by
      intro e he hu
      rw [htable] at he
      rcases List.mem_or_eq_of_mem_set he with h | h
      · rw [hderef]; exact hlive e h hu
      · rw [h]; simp only [hnode]; rfl
    have hslot : s1.open_file_table[k]? = some
        { used := 1, dir_entry := some de.addr, position := 0, access_flag := P.RSFS_RDWR } := by
      rw [htable, List.getElem?_set_self hklt]
    exact open_rdwr_busy (by rw [htable, List.length_set]; exact hlen) hlive1 hde1
      hslot (by simp) hnode rfl
  · intro hne
    have hopen : RSFS_open P s (some name) P.RSFS_RDONLY =
        some (allocate_open_file_entry s P.RSFS_RDONLY de.addr) := by
      unfold RSFS_open
      simp [hde, hne]
    refine ⟨hopen, ?_⟩
    intro k hk
    rw [hopen]
    unfold allocate_open_file_entry
    simp only [hk]
    exact ⟨_, rfl⟩

/-- C8, at a concrete input: the file `"a"` is open read-write on the
descriptor 0; a second read-write open fails, a read-only open gets the
descriptor 1. -/
theorem C8_single_writer_exclusion_witness :
    RSFS_open cfg st_created (some "a") cfg.RSFS_RDWR = some (0, st_opened) ∧
    RSFS_open cfg st_opened (some "a") cfg.RSFS_RDWR = some (-1, st_opened) ∧
    ∃ s1, RSFS_open cfg st_opened (some "a") cfg.RSFS_RDONLY = some (((1 : Nat) : Int), s1) :=
  have h := C8_single_writer_exclusion cfg st_opened "a"
    { addr := 0, name := "a", inode_number := 0 } (by decide) (by decide) (by decide)
  ⟨by decide,
    h.1 0 { used := 1, dir_entry := some 0, position := 0, access_flag := 1 }
      { addr := 0, name := "a", inode_number := 0 } (by decide) (by decide) (by decide)
      (by decide),
    (h.2.2 (by decide)).2 1 (by decide)⟩

theorem find_free_complete {bm : List Int} {k : Nat} (h : bm[k]? = some 0) :
    ∃ i, find_free bm = some i := by
  induction bm generalizing k with
  | nil => simp at h
  | cons x xs ih =>
    unfold find_free
    by_cases hx : x = 0
    · exact ⟨0, by rw [if_pos hx]⟩
    · rw [if_neg hx]
      cases k with
      | zero => simp at h; exact absurd h hx
      | succ k =>
        obtain ⟨i, hi⟩ := ih (k := k) (by simpa using h)
        exact ⟨i + 1, by rw [hi]; rfl⟩

/-- C9: when `name` is not in the directory and some inode is free,
`RSFS_create(name)` returns 0; afterwards the directory has exactly one entry
for `name`, bound to an inode `i` that was free and is now marked used; a
second `RSFS_create(name)` returns `-1` and changes nothing. -/
theorem C9_create_once (s : State) (name : String) (k : Nat)
    (hnot : search_dir s name = none) (hfree : s.inode_bitmap[k]? = some 0) :
    ∃ (i : Nat) (s1 : State), RSFS_create s name = some (0, s1) ∧
      s.inode_bitmap[i]? = some 0 ∧ s1.inode_bitmap = s.inode_bitmap.set i 1 ∧
      s1.root_dir.filter (fun e => e.name == name) =
        [{ addr := s.next_addr, name := name, inode_number := i }] ∧
      RSFS_create s1 name = some (-1, s1) := by
  obtain ⟨i, hi⟩ := find_free_complete hfree
  have hold : ∀ e ∈ s.root_dir, e.name ≠ name := search_dir_none.1 hnot
  let node : dir_entry := { addr := s.next_addr, name := name, inode_number := -1 }
  let f : dir_entry → dir_entry := fun e =>
    if some e.addr = some s.next_addr then { e with inode_number := (i : Int) } else e
  have key : ∃ s1, RSFS_create s name = some (0, s1) ∧
      s1.inode_bitmap = s.inode_bitmap.set i 1 ∧ s1.root_dir = (s.root_dir ++ [node]).map f := by
    have hd : ∃ d, (s.root_dir ++ [node]).find? (fun e => e.addr == s.next_addr) = some d := by
      apply Option.isSome_iff_exists.1
      rw [List.find?_isSome]
      exact ⟨_, List.mem_append_right _ (List.mem_singleton_self _), by simp [node]⟩
    obtain ⟨d, hd⟩ := hd
    have hneg : ¬ ((i : Int) < 0) := by omega
    simp only [RSFS_create, hnot, insert_dir, allocate_inode, hi, hneg, if_false,
      set_inode_number, deref, hd]
    exact ⟨_, rfl, rfl, rfl⟩
  obtain ⟨s1, hrun, hbm, hroot⟩ := key
  have hfilter : s1.root_dir.filter (fun e => e.name == name) =
      [{ addr := s.next_addr, name := name, inode_number := i }] := by
    rw [hroot, List.map_append, List.filter_append]
    have h1 : (s.root_dir.map f).filter (fun e => e.name == name) = [] := by
      rw [List.filter_eq_nil_iff]
      intro e he
      obtain ⟨e0, he0, rfl⟩ := List.mem_map.1 he
      have := hold e0 he0
      simp only [f]
      split <;> simpa using this
    rw [h1]
    simp [f, node]
  refine ⟨i, s1, hrun, find_free_spec hi, hbm, hfilter, ?_⟩
  have hfound : ∃ d, search_dir s1 name = some d := by
    apply Option.isSome_iff_exists.1
    unfold search_dir
    rw [List.find?_isSome]
    refine ⟨{ addr := s.next_addr, name := name, inode_number := i }, ?_, by simp⟩
    have : ({ addr := s.next_addr, name := name, inode_number := i } : dir_entry) ∈
        [({ addr := s.next_addr, name := name, inode_number := i } : dir_entry)] :=
      List.mem_singleton_self _
    rw [← hfilter] at this
    exact (List.mem_filter.1 this).1
  obtain ⟨d, hd⟩ := hfound
  simp only [RSFS_create, hd]

/-- C9, at a concrete input: creating `"a"` in the state after
`RSFS_init`. -/
theorem C9_create_once_witness :
    ∃ (i : Nat) (s1 : State), RSFS_create st_init "a" = some (0, s1) ∧
      st_init.inode_bitmap[i]? = some 0 ∧ s1.inode_bitmap = st_init.inode_bitmap.set i 1 ∧
      s1.root_dir.filter (fun e => e.name == "a") =
        [{ addr := st_init.next_addr, name := "a", inode_number := i }] ∧
      RSFS_create s1 "a" = some (-1, s1) :=
  C9_create_once st_init "a" 0 (by decide) (by decide)

/-- C10 (the code at the failing input): with the files `"a"` and `"b"` on
the two inodes, `RSFS_create("c")` returns `-2` and leaves the node it has
inserted for `"c"` in the directory, bound to no inode; a lookup of `"c"`
finds it. -/
theorem C10_create_keeps_entry_without_inode :
    RSFS_create st_created "b" = some (0, st_no_inode) ∧
    search_dir st_no_inode "c" = none ∧
    RSFS_create st_no_inode "c" = some (-2, st_orphan) ∧
    st_orphan.root_dir ≠ st_no_inode.root_dir ∧
    search_dir st_orphan "c" = some { addr := 2, name := "c", inode_number := -1 } := by
  decide

/-! ## `RSFS_close`, `RSFS_fseek` and `RSFS_init` -/

theorem set_same {α : Type} {l : List α} {i : Nat} {a : α} (h : l[i]? = some a) :
    l.set i a = l := by
  apply List.ext_getElem?
  intro j
  by_cases hj : i = j
  · subst hj
    rw [List.getElem?_set_self (List.getElem?_eq_some.1 h).1, h]
  · rw [List.getElem?_set_ne hj]

/-- C11 (counterexample): `RSFS_close(0)` on the slot 0 that was never
opened (after `RSFS_init`), and on the slot 0 that was closed before, returns
0 and not `-1`. -/
theorem C11_close_unused_returns_zero :
    (idx st_init.open_file_table 0).map (fun e => e.used) = some 0 ∧
    RSFS_close cfg st_init 0 = some (0, st_init) ∧
    RSFS_close cfg st_written 0 = some (0, st_closed) ∧
    (idx st_closed.open_file_table 0).map (fun e => e.used) = some 0 ∧
    RSFS_close cfg st_closed 0 = some (0, st_closed) ∧
    RSFS_close cfg st_closed 0 ≠ some (-1, st_closed) := by
  decide

/-- C11 (amended): for an in-range `fd` whose slot is not in use,
`RSFS_close(fd)` returns 0; the slot stays unused with no reference and the
cursor 0, and nothing else changes; when the slot has no reference and the
cursor 0 already (as the program start or a close leaves it) the whole state
is unchanged. -/
theorem C11_close_unused (P : Params) (s : State) (fd : Int) (e : open_file_entry)
    (hfd : fd < P.NUM_OPEN_FILE) (he : idx s.open_file_table fd = some e)
    (hused : e.used = 0) :
    RSFS_close P s fd =
      some (0, with_entry s fd { e with used := 0, dir_entry := none, position := 0 }) ∧
    (e.dir_entry = none → e.position = 0 → RSFS_close P s fd = some (0, s)) := by
  have hfd0 : 0 ≤ fd := (idx_eq_some.1 he).1
  have hget : s.open_file_table[fd.toNat]? = some e := (idx_eq_some.1 he).2
  have hlt : fd.toNat < s.open_file_table.length := (List.getElem?_eq_some.1 hget).1
  have hrange : ¬ (fd < 0 ∨ fd ≥ P.NUM_OPEN_FILE) := by omega
  have hrun : RSFS_close P s fd =
      some (0, with_entry s fd { e with used := 0, dir_entry := none, position := 0 }) := by
    unfold RSFS_close with_entry
    rw [if_neg hrange]
    simp only [he]
    by_cases hd : e.dir_entry = none
    · simp [hd, free_open_file_entry, he, upd, hfd0, hlt]
    · simp [hd, free_open_file_entry, upd, idx, hfd0, hlt]
  refine ⟨hrun, ?_⟩
  intro hd hp
  rw [hrun]
  have heq : ({ e with used := 0, dir_entry := none, position := 0 } : open_file_entry) = e := by
    cases e; simp_all
  rw [heq]
  unfold with_entry
  rw [set_same hget]

/-- C11 (amended), at a concrete input: closing the slot 0 of `st_closed`
a second time. -/
theorem C11_close_unused_witness :
    RSFS_close cfg st_closed 0 = some (0, with_entry st_closed 0
      { used := 0, dir_entry := none, position := 0, access_flag := 1 }) ∧
    RSFS_close cfg st_closed 0 = some (0, st_closed) :=
  have h := C11_close_unused cfg st_closed 0
    { used := 0, dir_entry := none, position := 0, access_flag := 1 }
    (by decide) (by decide) (by decide)
  ⟨h.1, h.2 rfl rfl⟩

/-- C12 (the code at the failing inputs): on the file of length 5,
`RSFS_fseek(fd, 8, RSFS_SEEK_SET)` returns 8 and sets the cursor to 8, and
`RSFS_fseek(fd, -3, RSFS_SEEK_SET)` returns -3 and sets the cursor to -3;
the cursor was 5. -/
theorem C12_fseek_leaves_file_range :
    st_written = st_at 5 ∧ idx st_written.inodes 0 = some { length := 5, block := [0, 1] } ∧
    RSFS_fseek cfg st_written 0 8 cfg.RSFS_SEEK_SET = some (8, st_at 8) ∧
    RSFS_fseek cfg st_written 0 (-3) cfg.RSFS_SEEK_SET = some (-3, st_at (-3)) ∧
    RSFS_fseek cfg st_written 0 4 cfg.RSFS_SEEK_END = some (9, st_at 9) := by
  decide

/-- C13: on an open descriptor with cursor `p` on a file of length `L`,
`RSFS_fseek` returns `offset` for `RSFS_SEEK_SET`, `p + offset` for
`RSFS_SEEK_CUR` and `L + offset` for `RSFS_SEEK_END`, for every `offset`,
and the new state is the old one with the cursor of the descriptor set to
the returned value; for any other `whence` and for any `fd` out of range it
returns `-1` and the state is unchanged.  The two sums are sums of C `int`
values (`int_add`): the exact sum when that lies between `INT_MIN` and
`INT_MAX`, the sum wrapped around into this range otherwise. -/
theorem C13_fseek_positions (P : Params) (s : State) (fd offset : Int) (e : open_file_entry)
    (de : dir_entry) (ino : inode) (hP : P.Valid) (hfd : fd < P.NUM_OPEN_FILE)
    (he : idx s.open_file_table fd = some e) (hde : deref s e.dir_entry = some de)
    (hino : idx s.inodes de.inode_number = some ino) :
    RSFS_fseek P s fd offset P.RSFS_SEEK_SET =
      some (offset, with_entry s fd { e with position := offset }) ∧
    RSFS_fseek P s fd offset P.RSFS_SEEK_CUR =
      some (int_add e.position offset,
        with_entry s fd { e with position := int_add e.position offset }) ∧
    RSFS_fseek P s fd offset P.RSFS_SEEK_END =
      some (int_add ino.length offset,
        with_entry s fd { e with position := int_add ino.length offset }) ∧
    (INT_MIN ≤ e.position + offset → e.position + offset ≤ INT_MAX →
      int_add e.position offset = e.position + offset) ∧
    (INT_MIN ≤ ino.length + offset → ino.length + offset ≤ INT_MAX →
      int_add ino.length offset = ino.length + offset) ∧
    (∀ whence, whence ≠ P.RSFS_SEEK_SET → whence ≠ P.RSFS_SEEK_CUR → whence ≠ P.RSFS_SEEK_END →
      RSFS_fseek P s fd offset whence = some (-1, s)) ∧
    (∀ fd1 whence : Int, fd1 < 0 ∨ fd1 ≥ P.NUM_OPEN_FILE →
      RSFS_fseek P s fd1 offset whence = some (-1, s)) := by
  obtain ⟨-, -, h12, h13, h23⟩ := hP
  have hfd0 : 0 ≤ fd := (idx_eq_some.1 he).1
  have hlt : fd.toNat < s.open_file_table.length :=
    (List.getElem?_eq_some.1 (idx_eq_some.1 he).2).1
  have hrange : ¬ (fd < 0 ∨ fd ≥ P.NUM_OPEN_FILE) := by omega
  refine ⟨?_, ?_, ?_, int_add_eq, int_add_eq, ?_, ?_⟩
  · unfold RSFS_fseek with_entry
    simp [hrange, he, hde, upd, hfd0, hlt]
  · unfold RSFS_fseek with_entry
    simp [hrange, he, hde, upd, hfd0, hlt, h12.symm]
  · unfold RSFS_fseek with_entry
    simp [hrange, he, hde, hino, upd, hfd0, hlt, h13.symm, h23.symm]
  · intro whence h1 h2 h3
    unfold RSFS_fseek
    simp [hrange, h1, h2, h3]
  · intro fd1 whence h
    unfold RSFS_fseek
    rw [if_pos h]

/-- C13, at concrete inputs: the three seeks with offset 2 on the
descriptor 0 of `st_at 1` (cursor 1, length 5), a `whence` that is none of
the three, a descriptor out of range, and the two sums that leave the range
of `int`: with the cursor and the length at 5 and the offset `INT_MAX` the
result is `5 + INT_MAX - 2 ^ 32`. -/
theorem C13_fseek_positions_witness :
    RSFS_fseek cfg (st_at 1) 0 2 cfg.RSFS_SEEK_SET = some (2, st_at 2) ∧
    RSFS_fseek cfg (st_at 1) 0 2 cfg.RSFS_SEEK_CUR = some (3, st_at 3) ∧
    RSFS_fseek cfg (st_at 1) 0 2 cfg.RSFS_SEEK_END = some (7, st_at 7) ∧
    RSFS_fseek cfg (st_at 1) 0 2 3 = some (-1, st_at 1) ∧
    RSFS_fseek cfg (st_at 1) 2 2 cfg.RSFS_SEEK_SET = some (-1, st_at 1) ∧
    RSFS_fseek cfg (st_at 5) 0 2147483647 cfg.RSFS_SEEK_CUR =
      some (-2147483644, st_at (-2147483644)) ∧
    RSFS_fseek cfg (st_at 5) 0 2147483647 cfg.RSFS_SEEK_END =
      some (-2147483644, st_at (-2147483644)) :=
  have h := C13_fseek_positions cfg (st_at 1) 0 2
    { used := 1, dir_entry := some 0, position := 1, access_flag := 1 }
    { addr := 0, name := "a", inode_number := 0 } { length := 5, block := [0, 1] }
    (by decide) (by decide) (by decide) (by decide) (by decide)
  have g := C13_fseek_positions cfg (st_at 5) 0 2147483647
    { used := 1, dir_entry := some 0, position := 5, access_flag := 1 }
    { addr := 0, name := "a", inode_number := 0 } { length := 5, block := [0, 1] }
    (by decide) (by decide) (by decide) (by decide) (by decide)
  ⟨h.1, h.2.1, h.2.2.1, h.2.2.2.2.2.1 3 (by decide) (by decide) (by decide),
    h.2.2.2.2.2.2 2 cfg.RSFS_SEEK_SET (by decide), g.2.1, g.2.2.1⟩

/-- C14 (the code at the failing inputs): `RSFS_init` never changes the
open file table, because its loop assigns to a copy of each entry.  Called on
a table as the C runtime zero-initialises it, it returns 0 and the access
flags are 0, not `-1`; called on the table of `st_written`, it returns 0 and
the slot 0 is still in use with the cursor 5. -/
theorem C14_init_keeps_open_file_table :
    (∀ (P : Params) (s : State) (fresh : List (List Byte)),
      (RSFS_init P s fresh).2.open_file_table = s.open_file_table) ∧
    RSFS_init cfg st_written [[0, 0, 0, 0], [0, 0, 0, 0], [0, 0, 0, 0], [0, 0, 0, 0]] =
      (0, { st_init with open_file_table := st_written.open_file_table, next_addr := 1 }) ∧
    st_written.open_file_table =
      [{ used := 1, dir_entry := some 0, position := 5, access_flag := 1 }, entry_zero] ∧
    (RSFS_init cfg { st_written with open_file_table := [entry_zero, entry_zero] }
      [[0, 0, 0, 0], [0, 0, 0, 0], [0, 0, 0, 0], [0, 0, 0, 0]]).2.open_file_table =
      [{ used := 0, dir_entry := none, position := 0, access_flag := 0 },
       { used := 0, dir_entry := none, position := 0, access_flag := 0 }] := by
  refine ⟨?_, by decide, by decide, by decide⟩
  intro P s fresh
  unfold RSFS_init
  split <;> rfl

/-! ## The block index and the allocation condition of `RSFS_write` -/

/-- C19 (the code at the failing inputs): `RSFS_write(0, buf, 9)` on the
fresh file, with 2 block pointers of 4 bytes.  After two passes the cursor is
8 and the block index is 8 / 4 = 2 = `NUM_POINTER`; a data block is free, so
the third pass allocates it and assigns `inode->block[2]`, outside the
array: the pass and the call have no defined result.  The same happens with
one byte written at cursor 8 of the file of length 5. -/
theorem C19_write_indexes_past_block_array :
    write_passes cfg 0 0 nine_bytes 2 st_opened 0 9 = some (st_two_passes, 8, 1) ∧
    Int.tdiv 8 cfg.BLOCK_SIZE = (cfg.NUM_POINTER : Int) ∧
    find_free st_two_passes.data_bitmap = some 2 ∧
    upd [(0 : Int), 1] (Int.tdiv 8 cfg.BLOCK_SIZE) 2 = none ∧
    write_body cfg 0 0 nine_bytes st_two_passes 8 1 = none ∧
    RSFS_write cfg st_opened 0 nine_bytes 9 = none ∧
    RSFS_write cfg (st_at 8) 0 [7] 1 = none := by
  decide

theorem write_copy_state {P : Params} {fd i : Int} {buf : List Byte} {s : State}
    {bn off bw bl : Int} {step : write_step}
    (h : write_copy P fd i buf s bn off bw bl = some step) :
    step.state.data_bitmap = s.data_bitmap ∧ step.state.inodes = s.inodes := by
  cases step with
  | returned r s1 =>
    obtain ⟨-, rfl⟩ := write_copy_returned h
    exact ⟨rfl, rfl⟩
  | continued s1 bw1 bl1 =>
    obtain ⟨e, ino, b, blk, blk1, data1, table1, -, -, -, -, -, -, -, -, rfl, -, -⟩ :=
      write_copy_continued h
    exact ⟨rfl, rfl⟩

/-- The allocation condition of the loop body of `RSFS_write`: a pass
allocates a new data block and binds it at the block index of the cursor
exactly when the cursor is strictly beyond the length of the file, or at
block 0 offset 0 (the pass then returns `-1` if no block is free); in every
other case the data bitmap and the inodes stay as they are and the bytes go
into the block bound at that index, if there is one. -/
theorem write_body_allocation (P : Params) (fd i : Int) (buf : List Byte) (s : State)
    (bw bl : Int) (e : open_file_entry) (ino : inode) (step : write_step)
    (he : idx s.open_file_table fd = some e) (hino : idx s.inodes i = some ino)
    (hbody : write_body P fd i buf s bw bl = some step) :
    ((e.position > ino.length ∨
        (Int.tdiv e.position P.BLOCK_SIZE = 0 ∧ Int.tmod e.position P.BLOCK_SIZE = 0)) →
      (find_free s.data_bitmap = none ∧ step = write_step.returned (-1) s) ∨
      (∃ b : Nat, find_free s.data_bitmap = some b ∧
        step.state.data_bitmap = s.data_bitmap.set b 1 ∧
        ∃ ino1, idx step.state.inodes i = some ino1 ∧
          idx ino1.block (Int.tdiv e.position P.BLOCK_SIZE) = some (b : Int))) ∧
    (¬ (e.position > ino.length ∨
        (Int.tdiv e.position P.BLOCK_SIZE = 0 ∧ Int.tmod e.position P.BLOCK_SIZE = 0)) →
      step.state.data_bitmap = s.data_bitmap ∧ step.state.inodes = s.inodes ∧
      ∀ s1 bw1 bl1, step = write_step.continued s1 bw1 bl1 →
        ∃ b blk1, idx ino.block (Int.tdiv e.position P.BLOCK_SIZE) = some b ∧
          upd s.data_blocks b blk1 = some s1.data_blocks) := by
  unfold write_body at hbody
  simp only [he, hino] at hbody
  constructor
  · intro hc
    rw [if_pos hc] at hbody
    unfold allocate_data_block at hbody
    cases hfree : find_free s.data_bitmap with
    | none =>
      left
      simp only [hfree, if_true] at hbody
      exact ⟨rfl, (Option.some.inj hbody).symm⟩
    | some b =>
      right
      have hb : ¬ ((b : Int) = -1) := by omega
      simp only [hfree, hb, if_false] at hbody
      split at hbody
      · simp at hbody
      · rename_i block1 hb1
        split at hbody
        · simp at hbody
        · rename_i inodes1 hi1
          obtain ⟨h1, h2⟩ := write_copy_state hbody
          refine ⟨b, rfl, h1, { ino with block := block1 }, ?_, ?_⟩
          · rw [h2]; exact idx_upd_same hi1
          · exact idx_upd_same hb1
  · intro hc
    rw [if_neg hc] at hbody
    obtain ⟨h1, h2⟩ := write_copy_state hbody
    refine ⟨h1, h2, ?_⟩
    intro s1 bw1 bl1 hstep
    rw [hstep] at hbody
    obtain ⟨e2, ino2, b, blk, blk1, data1, table1, -, hino2, hb, -, -, -, hd, -, rfl, -, -⟩ :=
      write_copy_continued hbody
    rw [hino] at hino2
    obtain rfl := Option.some.inj hino2
    exact ⟨b, blk1, hb, hd⟩

/-- C18 (the code at the failing input): after `RSFS_write(0, buf, 4)` on
the fresh file the cursor and the length are 4, the start of block 1, and
the block pointer 1 is unused.  `RSFS_write(0, [5], 1)` then computes the
block index 1; the test `position > length` is false at 4 = 4, so no block
is allocated although the data block 1 is free, `inode->block[1]` is `-1`,
and the call returns `-1` with the state as it was: the file cannot be
appended to.  The same five bytes written by one call are stored, in two
blocks.  At cursor 5 = length 5, inside block 1, the test is false as well
and the byte goes into the block already bound. -/
theorem C18_append_at_block_boundary :
    RSFS_write cfg st_opened 0 [1, 2, 3, 4] 4 = some (4, st_one_block) ∧
    Reachable cfg st_one_block ∧
    idx st_one_block.open_file_table 0 =
      some { used := 1, dir_entry := some 0, position := 4, access_flag := 1 } ∧
    idx st_one_block.inodes 0 = some { length := 4, block := [0, -1] } ∧
    find_free st_one_block.data_bitmap = some 1 ∧
    write_body cfg 0 0 [5] st_one_block 0 1 = some (write_step.returned (-1) st_one_block) ∧
    RSFS_write cfg st_one_block 0 [5] 1 = some (-1, st_one_block) ∧
    RSFS_write cfg st_opened 0 [1, 2, 3, 4, 5] 5 = some (5, st_written) ∧
    idx st_written.inodes 0 = some { length := 5, block := [0, 1] } ∧
    RSFS_write cfg st_written 0 [7] 1 = some (1, st_appended) ∧
    st_appended.data_bitmap = st_written.data_bitmap ∧
    idx st_appended.inodes 0 = some { length := 6, block := [0, 1] } := by
  refine ⟨by decide, ?_, by decide, by decide, by decide, by decide, by decide, by decide,
    by decide, by decide, by decide, by decide⟩
  exact Reachable.by_write st_opened 0 [1, 2, 3, 4] 4 4 st_one_block st_opened_reachable
    (by decide)

/-! ## `RSFS_write` does not look at the access flag -/

theorem idx_with_flag (s : State) (fd f : Int) :
    idx (with_flag s fd f).open_file_table fd =
      (idx s.open_file_table fd).map (fun e => { e with access_flag := f }) := by
  unfold idx with_flag
  split
  · simp only [List.getElem?_modify]
    cases s.open_file_table[fd.toNat]? <;> simp
  · rfl

theorem upd_with_flag (T : List open_file_entry) (fd f : Int) (x : open_file_entry) :
    upd (T.modify (fun e => { e with access_flag := f }) fd.toNat) fd
        { x with access_flag := f } =
      (upd T fd x).map (fun T1 => T1.modify (fun e => { e with access_flag := f }) fd.toNat) := by
  unfold upd
  simp only [List.length_modify]
  split
  · rename_i h
    simp only [Option.map_some', Option.some.injEq]
    apply List.ext_getElem?
    intro j
    simp only [List.getElem?_set, List.getElem?_modify, List.length_modify]
    by_cases hj : fd.toNat = j
    · subst hj; simp [h.2]
    · simp [hj]
  · rfl

theorem write_copy_with_flag {P : Params} {fd i : Int} {buf : List Byte} (s : State)
    (bn off bw bl f : Int) :
    write_copy P fd i buf (with_flag s fd f) bn off bw bl =
      (write_copy P fd i buf s bn off bw bl).map (write_step.with_flag fd f) := by
  unfold write_copy
  rw [idx_with_flag]
  cases he : idx s.open_file_table fd with
  | none => simp
  | some e =>
    have hi : (with_flag s fd f).inodes = s.inodes := rfl
    have hd : (with_flag s fd f).data_blocks = s.data_blocks := rfl
    simp only [Option.map_some', hi, hd]
    cases hino : idx s.inodes i with
    | none => simp
    | some ino =>
      simp only
      cases hb : idx ino.block bn with
      | none => simp
      | some b =>
        simp only
        split
        · simp [write_step.with_flag]
        · cases hblk : idx s.data_blocks b with
          | none => simp
          | some blk =>
            simp only
            cases hcpy : memcpy blk off buf bw (min (P.BLOCK_SIZE - off) bl) with
            | none => simp
            | some blk1 =>
              simp only
              have hu := upd_with_flag s.open_file_table fd f
                { e with position := e.position + min (P.BLOCK_SIZE - off) bl }
              have hT : (with_flag s fd f).open_file_table =
                  s.open_file_table.modify (fun e => { e with access_flag := f }) fd.toNat := rfl
              rw [hT, hu]
              cases hd1 : upd s.data_blocks b blk1 with
              | none => simp
              | some data1 =>
                cases ht1 : upd s.open_file_table fd
                    { e with position := e.position + min (P.BLOCK_SIZE - off) bl } with
                | none => simp
                | some table1 => simp [write_step.with_flag, with_flag]

theorem write_body_with_flag {P : Params} {fd i : Int} {buf : List Byte} (s : State)
    (bw bl f : Int) :
    write_body P fd i buf (with_flag s fd f) bw bl =
      (write_body P fd i buf s bw bl).map (write_step.with_flag fd f) := by
  unfold write_body
  rw [idx_with_flag]
  cases he : idx s.open_file_table fd with
  | none => simp
  | some e =>
    have hi : (with_flag s fd f).inodes = s.inodes := rfl
    simp only [Option.map_some', hi]
    cases hino : idx s.inodes i with
    | none => simp
    | some ino =>
      simp only
      split
      · unfold allocate_data_block
        have hbm : (with_flag s fd f).data_bitmap = s.data_bitmap := rfl
        rw [hbm]
        cases hfree : find_free s.data_bitmap with
        | none => simp [write_step.with_flag]
        | some b =>
          have hb : ¬ ((b : Int) = -1) := by omega
          simp only [hb, if_false]
          cases hb1 : upd ino.block (Int.tdiv e.position P.BLOCK_SIZE) b with
          | none => simp
          | some block1 =>
            simp only [hi]
            cases hi1 : upd s.inodes i { ino with block := block1 } with
            | none => simp
            | some inodes1 =>
              simp only
              exact write_copy_with_flag (P := P) (i := i)
                { s with data_bitmap := s.data_bitmap.set b 1, inodes := inodes1 } _ _ _ _ f
      · exact write_copy_with_flag s _ _ _ _ f

theorem write_loop_with_flag {P : Params} {fd i : Int} {buf : List Byte} (f : Int)
    (fuel : Nat) : ∀ (s : State) (bw bl : Int),
      write_loop P fd i buf fuel (with_flag s fd f) bw bl =
        (write_loop P fd i buf fuel s bw bl).map (fun r => (r.1, with_flag r.2 fd f)) := by
  induction fuel with
  | zero => intro s bw bl; simp [write_loop]
  | succ fuel ih =>
    intro s bw bl
    rw [write_loop, write_loop]
    split
    · rw [write_body_with_flag]
      cases hbody : write_body P fd i buf s bw bl with
      | none => simp
      | some step =>
        cases step with
        | returned r s1 => simp [write_step.with_flag]
        | continued s1 bw1 bl1 =>
          simp only [Option.map_some', write_step.with_flag]
          exact ih s1 bw1 bl1
    · have hi : (with_flag s fd f).inodes = s.inodes := rfl
      rw [hi]
      cases hino : idx s.inodes i with
      | none => simp
      | some ino =>
        simp only
        cases hupd : upd s.inodes i { ino with length := int_add ino.length bw } with
        | none => simp
        | some inodes1 => simp [with_flag]

/-- C20: `RSFS_write` is independent of the access flag of the descriptor.
For two states that differ only in the access flag of slot `fd`, the call
`RSFS_write(fd, buf, size)` has a defined result in both or in neither,
returns the same value, and leaves states that again differ only in that
access flag: the inodes, the data bitmap, the data blocks and the cursor are
the same.  In particular a write through a descriptor opened with
`RSFS_RDONLY` is not rejected and changes the file. -/
theorem C20_write_ignores_access_flag :
    (∀ (P : Params) (s : State) (fd f : Int) (buf : List Byte) (size : Int),
      RSFS_write P (with_flag s fd f) fd buf size =
        (RSFS_write P s fd buf size).map (fun r => (r.1, with_flag r.2 fd f))) ∧
    (∀ (s : State) (fd f : Int), (with_flag s fd f).inodes = s.inodes ∧
      (with_flag s fd f).data_bitmap = s.data_bitmap ∧
      (with_flag s fd f).data_blocks = s.data_blocks ∧
      (idx (with_flag s fd f).open_file_table fd).map (fun e => e.position) =
        (idx s.open_file_table fd).map (fun e => e.position)) ∧
    RSFS_open cfg st_created (some "a") cfg.RSFS_RDONLY = some (0, with_flag st_opened 0 0) ∧
    RSFS_write cfg (with_flag st_opened 0 0) 0 [1, 2, 3, 4, 5] 5 =
      some (5, with_flag st_written 0 0) := by
  refine ⟨?_, ?_, by decide, by decide⟩
  · intro P s fd f buf size
    unfold RSFS_write
    split
    · rfl
    · rw [idx_with_flag]
      cases he : idx s.open_file_table fd with
      | none => simp
      | some e =>
        have hd : ∀ p, deref (with_flag s fd f) p = deref s p := fun p => rfl
        simp only [Option.map_some', hd]
        cases hde : deref s e.dir_entry with
        | none => simp
        | some de =>
          simp only
          exact write_loop_with_flag f _ s 0 size
  · intro s fd f
    refine ⟨rfl, rfl, rfl, ?_⟩
    rw [idx_with_flag]
    cases idx s.open_file_table fd <;> simp

/-! ## Block arrays and the data bitmap: the invariant -/

/-- A pointer found in the block arrays after the slot `(i, j)` was set to
`v` is `v` at `(i, j)`, or was there before at another place. -/
theorem binding_of_set {T : List (List Int)} {i j i1 j1 : Nat} {a a1 : List Int} {v b : Int}
    (hT : T[i]? = some a) (h1 : (T.set i (a.set j v))[i1]? = some a1)
    (h2 : a1[j1]? = some b) :
    (i1 = i ∧ j1 = j ∧ b = v) ∨
    (¬ (i1 = i ∧ j1 = j) ∧ ∃ a0, T[i1]? = some a0 ∧ a0[j1]? = some b) := by
  by_cases hi : i = i1
  · subst hi
    have hlt : i < T.length := (List.getElem?_eq_some.1 hT).1
    rw [List.getElem?_set_self hlt] at h1
    obtain rfl := Option.some.inj h1
    by_cases hj : j = j1
    · subst hj
      have hjlt : j < a.length := by
        have := (List.getElem?_eq_some.1 h2).1
        simpa using this
      rw [List.getElem?_set_self hjlt] at h2
      exact Or.inl ⟨rfl, rfl, (Option.some.inj h2).symm⟩
    · rw [List.getElem?_set_ne hj] at h2
      exact Or.inr ⟨fun h => hj h.2.symm, a, hT, h2⟩
  · rw [List.getElem?_set_ne hi] at h1
    exact Or.inr ⟨fun h => hi h.1.symm, a1, h1, h2⟩

/-- Binding a block that was free keeps the invariant. -/
theorem BlockInv_bind {T : List (List Int)} {bm : List Int} {i j b1 : Nat} {a : List Int}
    (h : BlockInv T bm) (hfree : find_free bm = some b1) (hT : T[i]? = some a) :
    BlockInv (T.set i (a.set j (b1 : Int))) (bm.set b1 1) := by
  have hzero : bm[b1]? = some 0 := find_free_spec hfree
  have hb1lt : b1 < bm.length := (List.getElem?_eq_some.1 hzero).1
  have hold : ∀ (i0 j0 : Nat) (a0 : List Int) (b : Int), T[i0]? = some a0 → a0[j0]? = some b →
      b ≠ -1 → b ≠ (b1 : Int) ∧ idx (bm.set b1 1) b = some 1 := by
    intro i0 j0 a0 b h1 h2 hb
    have hused := h.2 i0 j0 a0 b h1 h2 hb
    have hne : b ≠ (b1 : Int) := by
      intro heq
      rw [heq] at hused
      simp [idx, hzero] at hused
    refine ⟨hne, ?_⟩
    obtain ⟨hb0, hget⟩ := idx_eq_some.1 hused
    have : b1 ≠ b.toNat := by omega
    simp [idx, hb0, List.getElem?_set_ne this, hget]
  constructor
  · intro i1 i2 j1 j2 a1 a2 b h1 h2 h3 h4 hb
    rcases binding_of_set hT h1 h3 with ⟨e1, e2, e3⟩ | ⟨-, a0, g1, g2⟩
    · rcases binding_of_set hT h2 h4 with ⟨f1, f2, f3⟩ | ⟨-, c0, k1, k2⟩
      · exact ⟨e1.trans f1.symm, e2.trans f2.symm⟩
      · exact absurd e3 (hold i2 j2 c0 b k1 k2 hb).1
    · rcases binding_of_set hT h2 h4 with ⟨f1, f2, f3⟩ | ⟨-, c0, k1, k2⟩
      · exact absurd f3 (hold i1 j1 a0 b g1 g2 hb).1
      · exact h.1 i1 i2 j1 j2 a0 c0 b g1 k1 g2 k2 hb
  · intro i1 j1 a1 b h1 h3 hb
    rcases binding_of_set hT h1 h3 with ⟨-, -, e3⟩ | ⟨-, a0, g1, g2⟩
    · rw [e3]; simp [idx, hb1lt]
    · exact (hold i1 j1 a0 b g1 g2 hb).2

/-- Freeing a bound block and clearing its slot keeps the invariant. -/
theorem BlockInv_unbind {T : List (List Int)} {bm : List Int} {i j : Nat} {a : List Int}
    {b0 : Int} (h : BlockInv T bm) (hT : T[i]? = some a) (ha : a[j]? = some b0)
    (hb0 : b0 ≠ -1) :
    BlockInv (T.set i (a.set j (-1))) (bm.set b0.toNat 0) := by
  have hold : ∀ (i1 j1 : Nat) (a1 : List Int) (b : Int),
      (T.set i (a.set j (-1)))[i1]? = some a1 → a1[j1]? = some b → b ≠ -1 →
      ¬ (i1 = i ∧ j1 = j) ∧ ∃ a0, T[i1]? = some a0 ∧ a0[j1]? = some b := by
    intro i1 j1 a1 b h1 h2 hb
    rcases binding_of_set hT h1 h2 with ⟨-, -, e3⟩ | hx
    · exact absurd e3 hb
    · exact hx
  constructor
  · intro i1 i2 j1 j2 a1 a2 b h1 h2 h3 h4 hb
    obtain ⟨-, a0, g1, g2⟩ := hold i1 j1 a1 b h1 h3 hb
    obtain ⟨-, c0, k1, k2⟩ := hold i2 j2 a2 b h2 h4 hb
    exact h.1 i1 i2 j1 j2 a0 c0 b g1 k1 g2 k2 hb
  · intro i1 j1 a1 b h1 h3 hb
    obtain ⟨hne, a0, g1, g2⟩ := hold i1 j1 a1 b h1 h3 hb
    have hused := h.2 i1 j1 a0 b g1 g2 hb
    have hbb : b ≠ b0 := by
      intro heq
      subst heq
      exact hne (h.1 i1 i j1 j a0 a b g1 hT g2 ha hb)
    obtain ⟨hb0', hget⟩ := idx_eq_some.1 hused
    have hused0 := h.2 i j a b0 hT ha hb0
    have hb00 : 0 ≤ b0 := (idx_eq_some.1 hused0).1
    have : b0.toNat ≠ b.toNat := by omega
    simp [idx, hb0', List.getElem?_set_ne this, hget]

/-- Resetting a whole block array to unused pointers keeps the invariant. -/
theorem BlockInv_clear {T : List (List Int)} {bm : List Int} (i n : Nat)
    (h : BlockInv T bm) : BlockInv (T.set i (List.replicate n (-1))) bm := by
  have hold : ∀ (i1 j1 : Nat) (a1 : List Int) (b : Int),
      (T.set i (List.replicate n (-1)))[i1]? = some a1 → a1[j1]? = some b → b ≠ -1 →
      T[i1]? = some a1 := by
    intro i1 j1 a1 b h1 h2 hb
    by_cases hi : i = i1
    · subst hi
      have hlt : i < T.length := by
        have := (List.getElem?_eq_some.1 h1).1
        simpa using this
      rw [List.getElem?_set_self hlt] at h1
      obtain rfl := Option.some.inj h1
      have := List.getElem?_mem h2
      exact absurd (List.eq_of_mem_replicate this) hb
    · rwa [List.getElem?_set_ne hi] at h1
  constructor
  · intro i1 i2 j1 j2 a1 a2 b h1 h2 h3 h4 hb
    exact h.1 i1 i2 j1 j2 a1 a2 b (hold i1 j1 a1 b h1 h3 hb) (hold i2 j2 a2 b h2 h4 hb) h3 h4 hb
  · intro i1 j1 a1 b h1 h3 hb
    exact h.2 i1 j1 a1 b (hold i1 j1 a1 b h1 h3 hb) h3 hb

/-! ## The invariant along the API calls -/

/-- The invariant of a state: `BlockInv` for its block arrays and its data
bitmap. -/
theorem inv_iff (s : State) :
    BlockInv (tables s) s.data_bitmap ↔ NoAlias s ∧ BoundUsed s := by
  unfold BlockInv NoAlias BoundUsed tables
  constructor
  · rintro ⟨h1, h2⟩
    constructor
    · intro i1 i2 j1 j2 ino1 ino2 b g1 g2 g3 g4 hb
      exact h1 i1 i2 j1 j2 ino1.block ino2.block b (by simp [g1]) (by simp [g2]) g3 g4 hb
    · intro i j ino b g1 g3 hb
      exact h2 i j ino.block b (by simp [g1]) g3 hb
  · rintro ⟨h1, h2⟩
    constructor
    · intro i1 i2 j1 j2 a1 a2 b g1 g2 g3 g4 hb
      simp only [List.getElem?_map, Option.map_eq_some'] at g1 g2
      obtain ⟨ino1, k1, rfl⟩ := g1
      obtain ⟨ino2, k2, rfl⟩ := g2
      exact h1 i1 i2 j1 j2 ino1 ino2 b k1 k2 g3 g4 hb
    · intro i j a b g1 g3 hb
      simp only [List.getElem?_map, Option.map_eq_some'] at g1
      obtain ⟨ino, k1, rfl⟩ := g1
      exact h2 i j ino b k1 g3 hb

theorem inv_of_eq {s s1 : State} (hi : s1.inodes = s.inodes)
    (hb : s1.data_bitmap = s.data_bitmap) (h : BlockInv (tables s) s.data_bitmap) :
    BlockInv (tables s1) s1.data_bitmap := by
  unfold tables at h ⊢
  rw [hi, hb]; exact h

theorem tables_get {s : State} {i : Int} {ino : inode} (h : idx s.inodes i = some ino) :
    (tables s)[i.toNat]? = some ino.block := by
  unfold tables
  simp [(idx_eq_some.1 h).2]

/-- A pass through the loop body of `RSFS_write` keeps the invariant. -/
theorem write_body_inv {P : Params} {fd i : Int} {buf : List Byte} {s : State} {bw bl : Int}
    {step : write_step} (h : BlockInv (tables s) s.data_bitmap)
    (hbody : write_body P fd i buf s bw bl = some step) :
    BlockInv (tables step.state) step.state.data_bitmap := by
  unfold write_body at hbody
  split at hbody
  · rename_i e ino he hino
    simp only at hbody
    split at hbody
    · unfold allocate_data_block at hbody
      cases hfree : find_free s.data_bitmap with
      | none =>
        simp only [hfree, if_true] at hbody
        obtain rfl := Option.some.inj hbody
        exact h
      | some b =>
        have hb : ¬ ((b : Int) = -1) := by omega
        simp only [hfree, hb, if_false] at hbody
        split at hbody
        · simp at hbody
        · rename_i block1 hb1
          split at hbody
          · simp at hbody
          · rename_i inodes1 hi1
            obtain ⟨h1, h2⟩ := write_copy_state hbody
            obtain ⟨-, rfl⟩ := upd_eq_some.1 hb1
            obtain ⟨-, rfl⟩ := upd_eq_some.1 hi1
            have := BlockInv_bind (j := (Int.tdiv e.position P.BLOCK_SIZE).toNat) h hfree
              (tables_get hino)
            unfold tables at this ⊢
            rw [h1, h2]
            simpa [List.map_set] using this
    · obtain ⟨h1, h2⟩ := write_copy_state hbody
      exact inv_of_eq h2 h1 h
  · simp at hbody

/-- A run of the loop of `RSFS_write` keeps the invariant, whatever it
returns. -/
theorem write_loop_inv {P : Params} {fd i : Int} {buf : List Byte} (fuel : Nat) :
    ∀ (s : State) (bw bl r : Int) (s1 : State), BlockInv (tables s) s.data_bitmap →
      write_loop P fd i buf fuel s bw bl = some (r, s1) →
      BlockInv (tables s1) s1.data_bitmap := by
  induction fuel with
  | zero => intro s bw bl r s1 _ h; simp [write_loop] at h
  | succ fuel ih =>
    intro s bw bl r s1 hinv h
    unfold write_loop at h
    split at h
    · split at h
      · simp at h
      · rename_i ret s2 hbody
        simp only [Option.some.injEq, Prod.mk.injEq] at h
        obtain ⟨-, rfl⟩ := h
        exact write_body_inv hinv hbody
      · rename_i s2 bw2 bl2 hbody
        exact ih s2 bw2 bl2 r s1 (write_body_inv hinv hbody) h
    · split at h
      · simp at h
      · rename_i ino hino
        split at h
        · simp at h
        · rename_i inodes1 hupd
          simp only [Option.some.injEq, Prod.mk.injEq] at h
          obtain ⟨-, rfl⟩ := h
          obtain ⟨-, rfl⟩ := upd_eq_some.1 hupd
          have hT := tables_get hino
          unfold tables at hinv hT ⊢
          simp only [List.map_set]
          rw [set_same hT]
          exact hinv

theorem RSFS_write_inv {P : Params} {s s1 : State} {fd : Int} {buf : List Byte} {size r : Int}
    (hinv : BlockInv (tables s) s.data_bitmap)
    (h : RSFS_write P s fd buf size = some (r, s1)) :
    BlockInv (tables s1) s1.data_bitmap := by
  unfold RSFS_write at h
  split at h
  · simp only [Option.some.injEq, Prod.mk.injEq] at h
    obtain ⟨-, rfl⟩ := h
    exact hinv
  · split at h
    · simp at h
    · split at h
      · simp at h
      · exact write_loop_inv _ s 0 size r s1 hinv h

/-- The loop of `RSFS_delete` keeps the invariant. -/
theorem delete_blocks_inv (n : Int) : ∀ (k i : Nat) (s s1 : State),
    BlockInv (tables s) s.data_bitmap → delete_blocks n k i s = some s1 →
    BlockInv (tables s1) s1.data_bitmap := by
  intro k
  induction k with
  | zero =>
    intro i s s1 hinv h
    simp only [delete_blocks, Option.some.injEq] at h
    rw [← h]; exact hinv
  | succ k ih =>
    intro i s s1 hinv h
    unfold delete_blocks at h
    split at h
    · simp at h
    · rename_i ino hino
      split at h
      · simp at h
      · rename_i b hb
        split at h
        · rename_i hne
          unfold free_data_block at h
          cases hbm : upd s.data_bitmap b 0 with
          | none => simp [hbm] at h
          | some bitmap1 =>
            simp only [hbm] at h
            cases hupd : upd s.inodes n { ino with block := ino.block.set i (-1) } with
            | none => simp [hupd] at h
            | some inodes1 =>
              simp only [hupd] at h
              apply ih (i + 1) _ s1 _ h
              obtain ⟨-, rfl⟩ := upd_eq_some.1 hbm
              obtain ⟨-, rfl⟩ := upd_eq_some.1 hupd
              have := BlockInv_unbind hinv (tables_get hino) hb hne
              unfold tables at this ⊢
              simpa [List.map_set] using this
        · exact ih (i + 1) s s1 hinv h

theorem RSFS_delete_inv {P : Params} {s s1 : State} {file_name : Option String} {r : Int}
    (hinv : BlockInv (tables s) s.data_bitmap)
    (h : RSFS_delete P s file_name = some (r, s1)) :
    BlockInv (tables s1) s1.data_bitmap := by
  unfold RSFS_delete at h
  split at h
  · simp only [Option.some.injEq, Prod.mk.injEq] at h
    obtain ⟨-, rfl⟩ := h; exact hinv
  · split at h
    · simp only [Option.some.injEq, Prod.mk.injEq] at h
      obtain ⟨-, rfl⟩ := h; exact hinv
    · rename_i de hde
      split at h
      · simp at h
      · rename_i s2 hblocks
        have hinv2 := delete_blocks_inv _ _ _ _ _ hinv hblocks
        unfold free_inode at h
        cases hi1 : upd s2.inodes de.inode_number
            { length := 0, block := List.replicate P.NUM_POINTER (-1) } with
        | none => simp [hi1] at h
        | some inodes1 =>
          cases hb1 : upd s2.inode_bitmap de.inode_number 0 with
          | none => simp [hi1, hb1] at h
          | some bitmap1 =>
            simp only [hi1, hb1, set_inode_number] at h
            obtain ⟨-, rfl⟩ := upd_eq_some.1 hi1
            have hinv3 := BlockInv_clear de.inode_number.toNat P.NUM_POINTER hinv2
            split at h
            · simp at h
            · rename_i s4 hset
              split at hset
              · simp at hset
              · simp only [Option.some.injEq] at hset
                obtain rfl := hset
                simp only [Option.some.injEq, Prod.mk.injEq] at h
                obtain ⟨-, rfl⟩ := h
                unfold tables at hinv3 ⊢
                simpa [delete_dir, List.map_set] using hinv3

theorem RSFS_create_frame {s s1 : State} {file_name : String} {r : Int}
    (h : RSFS_create s file_name = some (r, s1)) :
    s1.inodes = s.inodes ∧ s1.data_bitmap = s.data_bitmap := by
  unfold RSFS_create at h
  split at h
  · simp only [Option.some.injEq, Prod.mk.injEq] at h
    obtain ⟨-, rfl⟩ := h; exact ⟨rfl, rfl⟩
  · rename_i hnot
    simp only [insert_dir, hnot, allocate_inode] at h
    cases hfree : find_free s.inode_bitmap with
    | none =>
      simp only [hfree] at h
      simp at h
      obtain ⟨-, rfl⟩ := h; exact ⟨rfl, rfl⟩
    | some i =>
      simp only [hfree] at h
      have hneg : ¬ ((i : Int) < 0) := by omega
      simp only [hneg, if_false, set_inode_number] at h
      generalize deref _ (some s.next_addr) = d at h
      cases d with
      | none => simp at h
      | some v =>
        simp only [Option.some.injEq, Prod.mk.injEq] at h
        obtain ⟨-, rfl⟩ := h
        exact ⟨rfl, rfl⟩

theorem RSFS_open_frame {P : Params} {s s1 : State} {file_name : Option String}
    {access_flag r : Int} (h : RSFS_open P s file_name access_flag = some (r, s1)) :
    s1.inodes = s.inodes ∧ s1.data_bitmap = s.data_bitmap := by
  have halloc : ∀ (f : Int) (a : Nat), (allocate_open_file_entry s f a).2.inodes = s.inodes ∧
      (allocate_open_file_entry s f a).2.data_bitmap = s.data_bitmap := by
    intro f a
    unfold allocate_open_file_entry
    split <;> exact ⟨rfl, rfl⟩
  unfold RSFS_open at h
  split at h
  · simp only [Option.some.injEq, Prod.mk.injEq] at h
    obtain ⟨-, rfl⟩ := h; exact ⟨rfl, rfl⟩
  · split at h
    · simp only [Option.some.injEq, Prod.mk.injEq] at h
      obtain ⟨-, rfl⟩ := h; exact ⟨rfl, rfl⟩
    · split at h
      · simp only [Option.some.injEq, Prod.mk.injEq] at h
        obtain ⟨-, rfl⟩ := h; exact ⟨rfl, rfl⟩
      · rename_i de hde
        split at h
        · split at h
          · simp at h
          · split at h
            · simp only [Option.some.injEq, Prod.mk.injEq] at h
              obtain ⟨-, rfl⟩ := h; exact ⟨rfl, rfl⟩
            · simp only [Option.some.injEq] at h
              have := halloc access_flag de.addr
              rw [h] at this; exact this
        · simp only [Option.some.injEq] at h
          have := halloc access_flag de.addr
          rw [h] at this; exact this
theorem RSFS_read_frame {P : Params} {s s1 : State} {fd : Int} {buf buf1 : List Byte}
    {size r : Int} (h : RSFS_read P s fd buf size = some (r, buf1, s1)) :
    s1.inodes = s.inodes ∧ s1.data_bitmap = s.data_bitmap := by
  unfold RSFS_read at h
  split at h
  · simp only [Option.some.injEq, Prod.mk.injEq] at h
    obtain ⟨-, -, rfl⟩ := h; exact ⟨rfl, rfl⟩
  · split at h
    · simp only [Option.some.injEq, Prod.mk.injEq] at h
      obtain ⟨-, -, rfl⟩ := h; exact ⟨rfl, rfl⟩
    · split at h
      · simp at h
      · split at h
        · simp at h
        · split at h
          · simp at h
          · split at h
            · simp at h
            · split at h
              · simp at h
              · simp only [Option.some.injEq, Prod.mk.injEq] at h
                obtain ⟨-, -, rfl⟩ := h; exact ⟨rfl, rfl⟩

theorem RSFS_fseek_frame {P : Params} {s s1 : State} {fd offset whence r : Int}
    (h : RSFS_fseek P s fd offset whence = some (r, s1)) :
    s1.inodes = s.inodes ∧ s1.data_bitmap = s.data_bitmap := by
  unfold RSFS_fseek at h
  split at h
  · simp only [Option.some.injEq, Prod.mk.injEq] at h
    obtain ⟨-, rfl⟩ := h; exact ⟨rfl, rfl⟩
  · split at h
    · simp only [Option.some.injEq, Prod.mk.injEq] at h
      obtain ⟨-, rfl⟩ := h; exact ⟨rfl, rfl⟩
    · split at h
      · simp at h
      · split at h
        · simp at h
        · simp only at h
          split at h
          · simp at h
          · split at h
            · simp at h
            · simp only [Option.some.injEq, Prod.mk.injEq] at h
              obtain ⟨-, rfl⟩ := h; exact ⟨rfl, rfl⟩

theorem RSFS_close_frame {P : Params} {s s1 : State} {fd r : Int}
    (h : RSFS_close P s fd = some (r, s1)) :
    s1.inodes = s.inodes ∧ s1.data_bitmap = s.data_bitmap := by
  unfold RSFS_close at h
  split at h
  · simp only [Option.some.injEq, Prod.mk.injEq] at h
    obtain ⟨-, rfl⟩ := h; exact ⟨rfl, rfl⟩
  · split at h
    · simp at h
    · simp only at h
      split at h
      · simp at h
      · rename_i table1 hcl
        unfold free_open_file_entry at h
        split at h
        · simp at h
        · rename_i s2 hfree
          split at hfree
          · simp at hfree
          · split at hfree
            · simp only [Option.some.injEq] at hfree
              simp only [Option.some.injEq, Prod.mk.injEq] at h
              obtain ⟨-, rfl⟩ := h
              rw [← hfree]; exact ⟨rfl, rfl⟩
            · simp at hfree

theorem RSFS_init_inv {P : Params} {s0 s : State} {fresh : List (List Byte)}
    (h : RSFS_init P s0 fresh = (0, s)) : BlockInv (tables s) s.data_bitmap := by
  unfold RSFS_init at h
  split at h
  · simp at h
  · simp only [Prod.mk.injEq, true_and] at h
    subst h
    have hall : ∀ (i j : Nat) (a : List Int) (b : Int),
        (List.replicate P.NUM_INODES (List.replicate P.NUM_POINTER (-1 : Int)))[i]? = some a →
        a[j]? = some b → b = -1 := by
      intro i j a b h1 h2
      have ha := List.eq_of_mem_replicate (List.getElem?_mem h1)
      subst ha
      exact List.eq_of_mem_replicate (List.getElem?_mem h2)
    unfold tables BlockInv
    simp only [List.map_replicate]
    constructor
    · intro i1 i2 j1 j2 a1 a2 b h1 _ h3 _ hb
      exact absurd (hall i1 j1 a1 b h1 h3) hb
    · intro i j a b h1 h3 hb
      exact absurd (hall i j a b h1 h3) hb

/-- Every reachable state satisfies the invariant. -/
theorem reachable_inv {P : Params} {s : State} (h : Reachable P s) :
    BlockInv (tables s) s.data_bitmap := by
  induction h with
  | by_init s0 fresh s h => exact RSFS_init_inv h
  | by_create s name r s1 _ h ih =>
    exact inv_of_eq (RSFS_create_frame h).1 (RSFS_create_frame h).2 ih
  | by_open s name flag r s1 _ h ih =>
    exact inv_of_eq (RSFS_open_frame h).1 (RSFS_open_frame h).2 ih
  | by_read s fd buf size r buf1 s1 _ h ih =>
    exact inv_of_eq (RSFS_read_frame h).1 (RSFS_read_frame h).2 ih
  | by_write s fd buf size r s1 _ h ih => exact RSFS_write_inv ih h
  | by_fseek s fd offset whence r s1 _ h ih =>
    exact inv_of_eq (RSFS_fseek_frame h).1 (RSFS_fseek_frame h).2 ih
  | by_close s fd r s1 _ h ih =>
    exact inv_of_eq (RSFS_close_frame h).1 (RSFS_close_frame h).2 ih
  | by_delete s name r s1 _ h ih => exact RSFS_delete_inv ih h

/-- C16: no block aliasing.  In every state reachable from `RSFS_init` by
calls of create, open, read, write, fseek, close and delete, each data block
index occurs in at most one slot of at most one inode's block array, and
every index bound in a block array is marked used in the data bitmap. -/
theorem C16_no_block_aliasing (P : Params) (s : State) (h : Reachable P s) :
    NoAlias s ∧ BoundUsed s :=
  (inv_iff s).1 (reachable_inv h)

/-- C16, at a concrete input: the state `st_written`, reached by init,
create, open and a write of five bytes. -/
theorem C16_no_block_aliasing_witness :
    Reachable cfg st_written ∧ NoAlias st_written ∧ BoundUsed st_written :=
  ⟨st_written_reachable, C16_no_block_aliasing cfg st_written st_written_reachable⟩

/-! ## Passes of the loop of `RSFS_write`, in general -/

/-- What a pass through the loop body of `RSFS_write` that reaches the end
of the body does: it copies `m` bytes into the data block `b2` bound at the
block index `bn` of the cursor, a block allocated in this pass or the one
bound there before. -/
theorem write_body_pass {P : Params} {fd i : Int} {buf : List Byte} {s s1 : State}
    {bw bl bw1 bl1 : Int} {e : open_file_entry} {ino : inode}
    (he : idx s.open_file_table fd = some e) (hino : idx s.inodes i = some ino)
    (h : write_body P fd i buf s bw bl = some (write_step.continued s1 bw1 bl1)) :
    ∃ (bn m b2 : Int) (blk blk1 : List Byte),
      bn = Int.tdiv e.position P.BLOCK_SIZE ∧
      m = min (P.BLOCK_SIZE - Int.tmod e.position P.BLOCK_SIZE) bl ∧
      0 ≤ bn ∧ bn.toNat < ino.block.length ∧ b2 ≠ -1 ∧
      idx s.data_blocks b2 = some blk ∧
      memcpy blk (Int.tmod e.position P.BLOCK_SIZE) buf bw m = some blk1 ∧
      upd s.data_blocks b2 blk1 = some s1.data_blocks ∧
      idx s1.open_file_table fd = some { e with position := e.position + m } ∧
      idx s1.inodes i = some { ino with block := ino.block.set bn.toNat b2 } ∧
      bw1 = bw + m ∧ bl1 = bl - m ∧
      ((∃ b1 : Nat, b2 = (b1 : Int) ∧ find_free s.data_bitmap = some b1) ∨
        ino.block[bn.toNat]? = some b2) := by
  obtain ⟨e', ino', sa, he', hino', hsa, hcopy⟩ := write_body_continued h
  rw [he] at he'; obtain rfl := Option.some.inj he'
  rw [hino] at hino'; obtain rfl := Option.some.inj hino'
  obtain ⟨e2, ino2, b2, blk, blk1, data1, table1, he2, hino2, hb2, hvalid, hblk, hcpy, hd, ht,
    rfl, rfl, rfl⟩ := write_copy_continued hcopy
  have hne : b2 ≠ -1 := fun hx => hvalid (Or.inr hx)
  rcases hsa with ⟨-, b, block1, inodes1, hfree, hb1, hi1, rfl⟩ | ⟨-, rfl⟩
  · simp only at he2 hino2 hblk hd ht
    rw [he] at he2; obtain rfl := Option.some.inj he2
    rw [idx_upd_same hi1] at hino2; obtain rfl := Option.some.inj hino2
    simp only at hb2
    rw [idx_upd_same hb1] at hb2; obtain rfl := Option.some.inj hb2
    obtain ⟨⟨hbn0, hbnlt⟩, rfl⟩ := upd_eq_some.1 hb1
    refine ⟨_, _, (b : Int), blk, blk1, rfl, rfl, hbn0, hbnlt, hne, hblk, hcpy, hd,
      idx_upd_same ht, idx_upd_same hi1, rfl, rfl, Or.inl ⟨b, rfl, hfree⟩⟩
  · rw [he] at he2; obtain rfl := Option.some.inj he2
    rw [hino] at hino2; obtain rfl := Option.some.inj hino2
    obtain ⟨hbn0, hget⟩ := idx_eq_some.1 hb2
    have hbnlt := (List.getElem?_eq_some.1 hget).1
    refine ⟨_, _, b2, blk, blk1, rfl, rfl, hbn0, hbnlt, hne, hblk, hcpy, hd,
      idx_upd_same ht, ?_, rfl, rfl, Or.inr hget⟩
    simp only
    rw [set_same hget]
    exact hino

/-- A pass of the loop of `RSFS_write` keeps the pointer of every slot
below the block index of the cursor and the contents of the block bound
there. -/
theorem write_body_keeps {P : Params} {fd i : Int} {buf : List Byte} {s s1 : State}
    {bw bl bw1 bl1 : Int} {e : open_file_entry} {ino : inode} {j : Nat} {b : Int}
    (hP : 0 < P.BLOCK_SIZE) (hinv : BlockInv (tables s) s.data_bitmap)
    (he : idx s.open_file_table fd = some e) (hino : idx s.inodes i = some ino)
    (hpos : 0 ≤ e.position) (hj : ((j : Int) + 1) * P.BLOCK_SIZE ≤ e.position)
    (hjb : ino.block[j]? = some b) (hb : b ≠ -1)
    (h : write_body P fd i buf s bw bl = some (write_step.continued s1 bw1 bl1)) :
    (∃ ino1, idx s1.inodes i = some ino1 ∧ ino1.block[j]? = some b) ∧
      idx s1.data_blocks b = idx s.data_blocks b := by
  obtain ⟨bn, m, b2, blk, blk1, hbn, -, hbn0, hbnlt, hne, -, -, hd, -, hi1, -, -, hcase⟩ :=
    write_body_pass he hino h
  have hjle : (j : Int) + 1 ≤ bn := by rw [hbn]; exact tdiv_ge_of_mul_le hP hpos hj
  have hjn : bn.toNat ≠ j := by omega
  have hT := tables_get hino
  have hused := hinv.2 i.toNat j ino.block b hT hjb hb
  have hbb : b ≠ b2 := by
    rcases hcase with ⟨b1, rfl, hfree⟩ | hget
    · intro heq
      rw [heq] at hused
      have := find_free_spec hfree
      simp [idx, this] at hused
    · intro heq
      subst heq
      exact hjn (hinv.1 i.toNat i.toNat bn.toNat j ino.block ino.block b hT hT hget hjb hb).2
  refine ⟨⟨_, hi1, ?_⟩, idx_upd_ne hd hbb⟩
  simp only
  rw [List.getElem?_set_ne hjn]
  exact hjb

theorem block_end {p : Int} {B : Nat} (hB : 0 < B) (hp : 0 ≤ p) :
    0 ≤ Int.tmod p B ∧ Int.tmod p B < B ∧ 0 ≤ Int.tdiv p B ∧
    Int.tmod (p + (B - Int.tmod p B)) B = 0 ∧
    Int.tdiv (p + (B - Int.tmod p B)) B = Int.tdiv p B + 1 ∧
    (Int.tdiv p B + 1) * B = p + (B - Int.tmod p B) := by
  have hB' : (0 : Int) < B := by exact_mod_cast hB
  have hmod := Int.emod_add_ediv p B
  have h0 : 0 ≤ p % (B : Int) := Int.emod_nonneg _ (by omega)
  have h1 : p % (B : Int) < B := Int.emod_lt_of_pos _ hB'
  have hdiv0 : 0 ≤ p / (B : Int) := Int.ediv_nonneg hp (by omega)
  have hsum : p + ((B : Int) - p % B) = (p / B + 1) * B := by
    have : (p / (B : Int) + 1) * B = B * (p / B) + B := by ring
    omega
  have hnn : 0 ≤ p + ((B : Int) - p % B) := by omega
  rw [Int.tmod_eq_emod hp (by omega), Int.tdiv_eq_ediv hp (by omega)]
  rw [Int.tmod_eq_emod hnn (by omega), Int.tdiv_eq_ediv hnn (by omega)]
  refine ⟨h0, h1, hdiv0, ?_, ?_, hsum.symm⟩
  · rw [hsum]; exact Int.mul_emod_left _ _
  · rw [hsum]; exact Int.mul_ediv_cancel _ (by omega)

theorem splice_chain_at (o X hd tl : List Byte) (c m k : Nat) (hc : c + m ≤ o.length)
    (hX : m ≤ X.length) :
    (o.take c ++ (((hd ++ (X.take m ++ tl)).drop hd.length).take m ++ o.drop (c + m))).take
          (c + m) ++
        ((X.drop m).take k ++
          (o.take c ++ (((hd ++ (X.take m ++ tl)).drop hd.length).take m
            ++ o.drop (c + m))).drop (c + m + k)) =
      o.take c ++ (X.take (m + k) ++ o.drop (c + (m + k))) := by
  have h : (hd ++ (X.take m ++ tl)).drop hd.length = (X.take m ++ tl).drop 0 := by
    rw [List.drop_left, List.drop_zero]
  rw [h]
  exact splice_chain o X tl c m k hc hX

/-- The loop of `RSFS_write` after `n` passes: it goes on as the loop
started in the state after the passes. -/
theorem write_passes_loop {P : Params} {fd i : Int} {buf : List Byte} (n : Nat) :
    ∀ (s : State) (bw bl : Int) (sk : State) (k bl1 : Int),
      write_passes P fd i buf n s bw bl = some (sk, k, bl1) →
      ∀ fuel, write_loop P fd i buf (fuel + n) s bw bl = write_loop P fd i buf fuel sk k bl1 := by
  induction n with
  | zero =>
    intro s bw bl sk k bl1 h fuel
    simp only [write_passes, Option.some.injEq, Prod.mk.injEq] at h
    obtain ⟨rfl, rfl, rfl⟩ := h
    rfl
  | succ n ih =>
    intro s bw bl sk k bl1 h fuel
    unfold write_passes at h
    split at h
    · rename_i hpos
      split at h
      · rename_i s2 bw2 bl2 hbody
        have hf : fuel + (n + 1) = (fuel + n) + 1 := by omega
        rw [hf, write_loop, if_pos hpos]
        simp only [hbody]
        exact ih s2 bw2 bl2 sk k bl1 h fuel
      · simp at h
    · simp at h

/-- The cursor, the byte counts and the inode after `n` passes of the loop
of `RSFS_write`; every pass copies at least one byte. -/
theorem write_passes_facts {P : Params} {fd i : Int} {buf : List Byte} (hP : 0 < P.BLOCK_SIZE)
    (n : Nat) : ∀ (s : State) (bw bl : Int) (sk : State) (k bl1 : Int) (e : open_file_entry)
      (ino : inode),
      idx s.open_file_table fd = some e → idx s.inodes i = some ino →
      write_passes P fd i buf n s bw bl = some (sk, k, bl1) →
      k - bw = bl - bl1 ∧ (n : Int) ≤ k - bw ∧
      idx sk.open_file_table fd = some { e with position := e.position + (k - bw) } ∧
      (∃ inok, idx sk.inodes i = some inok ∧ inok.length = ino.length) ∧
      sk.root_dir = s.root_dir ∧
      (BlockInv (tables s) s.data_bitmap → BlockInv (tables sk) sk.data_bitmap) := by
  induction n with
  | zero =>
    intro s bw bl sk k bl1 e ino he hino h
    simp only [write_passes, Option.some.injEq, Prod.mk.injEq] at h
    obtain ⟨rfl, rfl, rfl⟩ := h
    refine ⟨by omega, by simp, by simpa using he, ⟨ino, hino, rfl⟩, rfl, fun h => h⟩
  | succ n ih =>
    intro s bw bl sk k bl1 e ino he hino h
    unfold write_passes at h
    split at h
    · rename_i hpos
      split at h
      · rename_i s2 bw2 bl2 hbody
        obtain ⟨e', ino', ino2, m, he', hino', hm0, hm, hoff, rfl, rfl, he2, hino2, hlen2, hdir2⟩ :=
          write_body_step hbody
        rw [he] at he'; obtain rfl := Option.some.inj he'
        rw [hino] at hino'; obtain rfl := Option.some.inj hino'
        obtain ⟨h1, h2, h3, ⟨inok, h4, h5⟩, h6, h7⟩ := ih s2 _ _ sk k bl1 _ ino2 he2 hino2 h
        have hlt : Int.tmod e.position P.BLOCK_SIZE < P.BLOCK_SIZE :=
          Int.tmod_lt_of_pos _ (by exact_mod_cast hP)
        rw [min_eq] at hm
        refine ⟨by omega, by push_cast; omega, ?_, ⟨inok, h4, by omega⟩, h6.trans hdir2, ?_⟩
        · rw [h3]; simp; omega
        · intro hinv
          exact h7 (write_body_inv hinv hbody)
      · simp at h
    · simp at h

/-- The passes of the loop of `RSFS_write` keep the pointer of every slot
below the block index of the cursor and the contents of the block bound
there. -/
theorem write_passes_keeps {P : Params} {fd i : Int} {buf : List Byte} (hP : 0 < P.BLOCK_SIZE)
    (n : Nat) : ∀ (s : State) (bw bl : Int) (sk : State) (k bl1 : Int) (e : open_file_entry)
      (ino : inode) (j : Nat) (b : Int),
      BlockInv (tables s) s.data_bitmap →
      idx s.open_file_table fd = some e → idx s.inodes i = some ino → 0 ≤ e.position →
      ((j : Int) + 1) * P.BLOCK_SIZE ≤ e.position → ino.block[j]? = some b → b ≠ -1 →
      write_passes P fd i buf n s bw bl = some (sk, k, bl1) →
      (∃ inok, idx sk.inodes i = some inok ∧ inok.block[j]? = some b) ∧
        idx sk.data_blocks b = idx s.data_blocks b := by
  induction n with
  | zero =>
    intro s bw bl sk k bl1 e ino j b _ _ hino _ _ hjb _ h
    simp only [write_passes, Option.some.injEq, Prod.mk.injEq] at h
    obtain ⟨rfl, rfl, rfl⟩ := h
    exact ⟨⟨ino, hino, hjb⟩, rfl⟩
  | succ n ih =>
    intro s bw bl sk k bl1 e ino j b hinv he hino hpos hj hjb hb h
    unfold write_passes at h
    split at h
    · rename_i hblpos
      split at h
      · rename_i s2 bw2 bl2 hbody
        obtain ⟨⟨ino1, hino1, hjb1⟩, hdata1⟩ :=
          write_body_keeps hP hinv he hino hpos hj hjb hb hbody
        obtain ⟨e', ino', ino2, m, he', -, hm0, -, -, -, -, he2, -, -, -⟩ := write_body_step hbody
        rw [he] at he'; obtain rfl := Option.some.inj he'
        obtain ⟨hx, hy⟩ := ih s2 bw2 bl2 sk k bl1 _ ino1 j b (write_body_inv hinv hbody)
          he2 hino1 (by simp only; omega) (by simp only; omega) hjb1 hb h
        exact ⟨hx, hy.trans hdata1⟩
      · simp at h
    · simp at h

/-- After `n` passes of the loop of `RSFS_write` that leave bytes to write,
the loop of `RSFS_read` started at the cursor the passes started from reads
back the bytes they have copied. -/
theorem write_passes_read {P : Params} {fd i : Int} {buf : List Byte} (hP : 0 < P.BLOCK_SIZE)
    (n : Nat) : ∀ (s : State) (bw bl : Int) (sk : State) (k bl1 : Int) (e : open_file_entry)
      (ino : inode),
      BlockInv (tables s) s.data_bitmap →
      idx s.open_file_table fd = some e → idx s.inodes i = some ino →
      ino.block.length ≤ P.NUM_POINTER → 0 ≤ e.position → 0 ≤ bw →
      write_passes P fd i buf n s bw bl = some (sk, k, bl1) → 0 < bl1 →
      ∃ inok, idx sk.inodes i = some inok ∧
        ∀ (rf : Nat) (c : Int) (o : List Byte), k - bw < rf → 0 ≤ c → c + (k - bw) ≤ o.length →
          read_loop P sk.data_blocks inok rf e.position (k - bw)
              (Int.tdiv e.position P.BLOCK_SIZE) (Int.tmod e.position P.BLOCK_SIZE) c o =
            some (e.position + (k - bw), c + (k - bw),
              o.take c.toNat ++ ((buf.drop bw.toNat).take (k - bw).toNat
                ++ o.drop (c.toNat + (k - bw).toNat))) := by
  induction n with
  | zero =>
    intro s bw bl sk k bl1 e ino _ _ hino _ _ _ h _
    simp only [write_passes, Option.some.injEq, Prod.mk.injEq] at h
    obtain ⟨rfl, rfl, rfl⟩ := h
    refine ⟨ino, hino, ?_⟩
    intro rf c o hrf hc hco
    cases rf with
    | zero => omega
    | succ rf =>
      rw [read_loop]
      simp
  | succ n ih =>
    intro s bw bl sk k bl1 e ino hinv he hino hshape hpos hbw h hbl1
    have hall := h
    unfold write_passes at h
    split at h
    · rename_i hblpos
      split at h
      · rename_i s2 bw2 bl2 hbody
        obtain ⟨bn, m, b2, blk, blk1, hbn, hm, hbn0, hbnlt, hne, hblk, hcpy, hd, he2, hino2,
          rfl, rfl, -⟩ := write_body_pass he hino hbody
        obtain ⟨hoff0, hofflt, -, hmod1, hdiv1, hmul1⟩ := block_end hP hpos
        obtain ⟨⟨-, -, hm0, hmblk, hmbuf⟩, hblk1⟩ := memcpy_eq_some hcpy
        have hinv2 := write_body_inv hinv hbody
        obtain ⟨hk1, hk2, -, -, -, -⟩ := write_passes_facts hP n s2 _ _ sk k bl1 _ _ he2 hino2 h
        rw [min_eq] at hm
        -- the pass has filled its block to the end
        have hmfull : m = P.BLOCK_SIZE - Int.tmod e.position P.BLOCK_SIZE := by omega
        have hmpos : 0 < m := by omega
        have hkm : m ≤ k - bw := by omega
        obtain ⟨inok, hinok, hread⟩ := ih s2 _ _ sk k bl1 _ _ hinv2 he2 hino2
          (by simpa using hshape) (by simp only; omega) (by omega) h hbl1
        obtain ⟨⟨inok', hinok', hslot⟩, hdata⟩ := write_passes_keeps hP n s2 _ _ sk k bl1 _ _
          bn.toNat b2 hinv2 he2 hino2 (by simp only; omega)
          (by
            simp only
            rw [Int.toNat_of_nonneg hbn0, hbn, hmul1, hmfull])
          (by simp [hbnlt]) hne h
        rw [hinok] at hinok'; obtain rfl := Option.some.inj hinok'
        rw [idx_upd_same hd] at hdata
        refine ⟨inok, hinok, ?_⟩
        intro rf c o hrf hc hco
        cases rf with
        | zero => omega
        | succ rf =>
          rw [read_loop]
          have hcond : k - bw > 0 ∧ Int.tdiv e.position P.BLOCK_SIZE < P.NUM_POINTER := by
            refine ⟨by omega, ?_⟩
            rw [← hbn]; omega
          have hidx : idx inok.block (Int.tdiv e.position P.BLOCK_SIZE) = some b2 := by
            rw [← hbn]; simp [idx, hbn0, hslot]
          have hblk1len : blk1.length = blk.length := by
            rw [hblk1]
            simp only [List.length_append, List.length_take, List.length_drop]
            omega
          have hmin : Min.min ((P.BLOCK_SIZE : Int) - Int.tmod e.position P.BLOCK_SIZE)
              (k - bw) = m := by omega
          have hcpy2 := @memcpy_of_bounds o blk1 c (Int.tmod e.position P.BLOCK_SIZE) m
            ⟨hc, hoff0, hm0, by omega, by omega⟩
          rw [if_pos hcond, hidx]
          simp only [hne, if_false, hdata, min_eq, hmin, hcpy2]
          have hpm : e.position + m =
              e.position + ((P.BLOCK_SIZE : Int) - Int.tmod e.position P.BLOCK_SIZE) := by
            rw [hmfull]
          have hnext : (if Int.tmod (e.position + m) P.BLOCK_SIZE = 0
              then Int.tdiv e.position P.BLOCK_SIZE + 1 else Int.tdiv e.position P.BLOCK_SIZE) =
              Int.tdiv (e.position + m) P.BLOCK_SIZE := by
            rw [hpm, hmod1, if_pos rfl, hdiv1]
          have hkk : k - bw - m = k - (bw + m) := by omega
          rw [hnext, hkk, hread rf (c + m) _ (by omega) (by omega)
            (by simp only [List.length_append, List.length_take, List.length_drop]; omega)]
          simp only [Option.some.injEq, Prod.mk.injEq]
          refine ⟨by omega, by omega, ?_⟩
          have t1 : (c + m).toNat = c.toNat + m.toNat := Int.toNat_add hc hm0
          have t2 : (bw + m).toNat = bw.toNat + m.toNat := Int.toNat_add hbw hm0
          have t3 : m.toNat + (k - (bw + m)).toNat = (k - bw).toNat := by omega
          have t4 : buf.drop (bw.toNat + m.toNat) = (buf.drop bw.toNat).drop m.toNat :=
            (List.drop_drop _ _ _).symm
          have t5 : (blk.take (Int.tmod e.position P.BLOCK_SIZE).toNat).length =
              (Int.tmod e.position P.BLOCK_SIZE).toNat := by
            rw [List.length_take]; omega
          have hsp := splice_chain_at o (buf.drop bw.toNat)
            (blk.take (Int.tmod e.position P.BLOCK_SIZE).toNat)
            (blk.drop ((Int.tmod e.position P.BLOCK_SIZE).toNat + m.toNat))
            c.toNat m.toNat (k - (bw + m)).toNat (by omega)
            (by simp only [List.length_drop]; omega)
          rw [t5] at hsp
          rw [hblk1]
          simp only [t1, t2, t4]
          rw [hsp, t3]
      · simp at h
    · simp at h

/-! ## A write that runs out of data blocks -/

theorem find_free_none {bm : List Int} (h : find_free bm = none) (b : Nat) :
    bm[b]? ≠ some 0 := by
  intro hb
  obtain ⟨i, hi⟩ := find_free_complete hb
  rw [h] at hi
  exact Option.noConfusion hi

/-- The state `one_opened` is reachable. -/
theorem one_opened_reachable : Reachable cfg_one one_opened :=
  Reachable.by_open one_created (some "a") cfg_one.RSFS_RDWR 0 one_opened
    (Reachable.by_create one_init "a" 0 one_created
      (Reachable.by_init one_init [[0, 0, 0, 0]] one_init (by decide))
      (by decide))
    (by decide)

/-- C15: partial write, then error.  Let the loop of `RSFS_write(fd, buf,
size)` on an open descriptor make `n` passes that copy `k` bytes and leave
`bl > 0` bytes to write, and let the next pass need a new block when none is
free.  Then `RSFS_write` returns `-1` and the state is the one after the `n`
passes, nothing is undone: the cursor has advanced by `k`, every data block
is marked used, no block is bound twice and every bound block is marked
used, and the `k` bytes are in the file: seeking back to the old cursor and
reading `k` bytes yields the first `k` bytes of `buf`.  (The length of the
inode is not changed.) -/
theorem C15_partial_write_kept (P : Params) (s : State) (fd : Int) (buf : List Byte)
    (size : Int) (e : open_file_entry) (de : dir_entry) (ino : inode) (n : Nat) (sk : State)
    (k bl : Int) (ek : open_file_entry) (inok : inode)
    (hP : 0 < P.BLOCK_SIZE) (hshape : Shape P s) (hinv : NoAlias s ∧ BoundUsed s)
    (he : idx s.open_file_table fd = some e) (hde : deref s e.dir_entry = some de)
    (hino : idx s.inodes de.inode_number = some ino) (hpos : 0 ≤ e.position)
    (hsize : 0 < size)
    (hpass : write_passes P fd de.inode_number buf n s 0 size = some (sk, k, bl))
    (hbl : 0 < bl)
    (hek : idx sk.open_file_table fd = some ek)
    (hinok : idx sk.inodes de.inode_number = some inok)
    (hcond : ek.position > inok.length ∨
      (Int.tdiv ek.position P.BLOCK_SIZE = 0 ∧ Int.tmod ek.position P.BLOCK_SIZE = 0))
    (hnone : find_free sk.data_bitmap = none) :
    RSFS_write P s fd buf size = some (-1, sk) ∧
    ek = { e with position := e.position + k } ∧ k + bl = size ∧
    inok.length = ino.length ∧
    (∀ b : Nat, sk.data_bitmap[b]? ≠ some 0) ∧ NoAlias sk ∧ BoundUsed sk ∧
    (0 < k → ∀ out : List Byte, k ≤ out.length →
      ∃ s2 s3, RSFS_fseek P sk fd e.position P.RSFS_SEEK_SET = some (e.position, s2) ∧
        RSFS_read P s2 fd out k =
          some (inok.length, buf.take k.toNat ++ out.drop k.toNat, s3)) := by
  have hinv0 : BlockInv (tables s) s.data_bitmap := (inv_iff s).2 hinv
  obtain ⟨hk1, hk2, hek', ⟨inok', hinok', hlenk⟩, hdir, hinvk⟩ :=
    write_passes_facts hP n s 0 size sk k bl e ino he hino hpass
  rw [hinok] at hinok'; obtain rfl := Option.some.inj hinok'
  rw [hek] at hek'
  have hekeq : ek = { e with position := e.position + k } := by
    simpa using Option.some.inj hek'
  have hfd0 : 0 ≤ fd := (idx_eq_some.1 he).1
  have hfdlt : fd.toNat < s.open_file_table.length :=
    (List.getElem?_eq_some.1 (idx_eq_some.1 he).2).1
  have hfdk : fd.toNat < sk.open_file_table.length :=
    (List.getElem?_eq_some.1 (idx_eq_some.1 hek).2).1
  have hrange : ¬ (fd < 0 ∨ fd ≥ P.NUM_OPEN_FILE) := by
    have := hshape.2.2.2.2.2.2
    omega
  have hblock : ino.block.length ≤ P.NUM_POINTER :=
    le_of_eq (hshape.2.2.2.2.2.1 ino (List.getElem?_mem (idx_eq_some.1 hino).2))
  have hrun : RSFS_write P s fd buf size = some (-1, sk) := by
    unfold RSFS_write
    have hc : ¬ (fd < 0 ∨ fd ≥ P.NUM_OPEN_FILE ∨ size ≤ 0) := by omega
    rw [if_neg hc]
    simp only [he, hde]
    have hfuel : size.toNat + 1 = (size.toNat - n) + 1 + n := by omega
    rw [hfuel, write_passes_loop n s 0 size sk k bl hpass, write_loop, if_pos hbl]
    have hbody : write_body P fd de.inode_number buf sk k bl =
        some (write_step.returned (-1) sk) := by
      unfold write_body
      simp only [hek, hinok, if_pos hcond, allocate_data_block, hnone]
      simp
    simp only [hbody]
  refine ⟨hrun, hekeq, by omega, hlenk, find_free_none hnone, (inv_iff sk).1 (hinvk hinv0) |>.1,
    (inv_iff sk).1 (hinvk hinv0) |>.2, ?_⟩
  intro hkpos out hout
  obtain ⟨inok2, hinok2, hread⟩ := write_passes_read hP n s 0 size sk k bl e ino hinv0 he hino
    hblock hpos (le_refl _) hpass hbl
  rw [hinok] at hinok2; obtain rfl := Option.some.inj hinok2
  have hrd := hread (k.toNat + 1) 0 out (by omega) (le_refl _) (by omega)
  simp only [sub_zero, zero_add, Int.toNat_zero, List.take_zero, List.nil_append,
    List.drop_zero] at hrd
  have hdek : deref sk ek.dir_entry = some de := by
    rw [deref_of_root_dir_eq hdir, hekeq]; exact hde
  let e2 : open_file_entry := { ek with position := e.position }
  let e3 : open_file_entry := { ek with position := e.position + k }
  let table2 := sk.open_file_table.set fd.toNat e2
  refine ⟨{ sk with open_file_table := table2 },
    { sk with open_file_table := table2.set fd.toNat e3 }, ?_, ?_⟩
  · unfold RSFS_fseek
    simp [hrange, hek, hdek, upd, hfd0, hfdk, table2, e2]
  · unfold RSFS_read
    have hk' : ¬ k ≤ 0 := by omega
    have he2 : idx table2 fd = some e2 := by simp [table2, idx, hfd0, hfdk]
    have hde2 : deref { sk with open_file_table := table2 } ek.dir_entry = some de := by
      rw [← hdek]; exact deref_of_root_dir_eq rfl _
    rw [if_neg hrange, if_neg hk']
    simp only [he2, e2, hde2, hinok, hrd]
    simp [upd, hfd0, hfdk, table2, e2, e3]

/-- C15, at a concrete input: with a single data block,
`RSFS_write(0, [1, 2, 3, 4, 5], 5)` on the fresh file copies 4 bytes in one
pass and then finds no block; it returns `-1`, the cursor is 4, and the 4
bytes are read back. -/
theorem C15_partial_write_kept_witness :
    write_passes cfg_one 0 0 [1, 2, 3, 4, 5] 1 one_opened 0 5 = some (one_filled, 4, 1) ∧
    RSFS_write cfg_one one_opened 0 [1, 2, 3, 4, 5] 5 = some (-1, one_filled) ∧
    ∃ s2 s3, RSFS_fseek cfg_one one_filled 0 0 cfg_one.RSFS_SEEK_SET = some (0, s2) ∧
      RSFS_read cfg_one s2 0 [9, 9, 9, 9, 9] 4 = some (0, [1, 2, 3, 4, 9], s3) :=
  have h := C15_partial_write_kept cfg_one one_opened 0 [1, 2, 3, 4, 5] 5
    { used := 1, dir_entry := some 0, position := 0, access_flag := 1 }
    { addr := 0, name := "a", inode_number := 0 } inode_empty 1 one_filled 4 1
    { used := 1, dir_entry := some 0, position := 4, access_flag := 1 }
    { length := 0, block := [0, -1] }
    (by decide) (by decide) ((inv_iff one_opened).1 (reachable_inv one_opened_reachable))
    (by decide) (by decide) (by decide) (by decide) (by decide) (by decide) (by decide)
    (by decide) (by decide) (by decide) (by decide)
  ⟨by decide, h.1, h.2.2.2.2.2.2.2 (by decide) [9, 9, 9, 9, 9] (by decide)⟩

/-! ## Gaps in the block array -/

/-- C17 (the code at the failing inputs): two runs from the fresh open
file of `st_opened`.  Seeking to 4, beyond the length 0, and writing one byte
binds the block pointer 1 and leaves the block pointer 0 unused: a gap.
Writing four bytes, seeking to 0 and writing four bytes again leaves the
length 8 with a single bound block pointer, where `ceil(8 / 4)` is 2.  Both
states are reachable. -/
theorem C17_gap_in_block_array :
    RSFS_fseek cfg st_opened 0 4 cfg.RSFS_SEEK_SET =
      some (4, with_entry st_opened 0
        { used := 1, dir_entry := some 0, position := 4, access_flag := 1 }) ∧
    RSFS_write cfg (with_entry st_opened 0
        { used := 1, dir_entry := some 0, position := 4, access_flag := 1 }) 0 [9] 1 =
      some (1, st_gap) ∧
    idx st_gap.inodes 0 = some { length := 1, block := [-1, 0] } ∧
    Reachable cfg st_gap ∧
    RSFS_write cfg st_opened 0 [1, 2, 3, 4] 4 = some (4, st_one_block) ∧
    RSFS_fseek cfg st_one_block 0 0 cfg.RSFS_SEEK_SET =
      some (0, with_entry st_one_block 0
        { used := 1, dir_entry := some 0, position := 0, access_flag := 1 }) ∧
    RSFS_write cfg (with_entry st_one_block 0
        { used := 1, dir_entry := some 0, position := 0, access_flag := 1 }) 0 [5, 6, 7, 8] 4 =
      some (4, st_long) ∧
    idx st_long.inodes 0 = some { length := 8, block := [1, -1] } ∧
    Reachable cfg st_long := by
  refine ⟨by decide, by decide, by decide, ?_, by decide, by decide, by decide, by decide, ?_⟩
  · exact Reachable.by_write
      (with_entry st_opened 0 { used := 1, dir_entry := some 0, position := 4, access_flag := 1 })
      0 [9] 1 1 st_gap
      (Reachable.by_fseek st_opened 0 4 cfg.RSFS_SEEK_SET 4
        (with_entry st_opened 0 { used := 1, dir_entry := some 0, position := 4, access_flag := 1 })
        st_opened_reachable (by decide))
      (by decide)
  · exact Reachable.by_write
      (with_entry st_one_block 0 { used := 1, dir_entry := some 0, position := 0, access_flag := 1 })
      0 [5, 6, 7, 8] 4 4 st_long
      (Reachable.by_fseek st_one_block 0 0 cfg.RSFS_SEEK_SET 0
        (with_entry st_one_block 0 { used := 1, dir_entry := some 0, position := 0, access_flag := 1 })
        (Reachable.by_write st_opened 0 [1, 2, 3, 4] 4 4 st_one_block st_opened_reachable
          (by decide))
        (by decide))
      (by decide)

end RSFS
